import Mathlib

/-!
The minimap grid engine of `editor/miniMap.go`.

A shallow embedding of the redraw handlers of `MiniMap` (put, highlightSet,
scroll, resize, clear, eolClear, queueRedraw) followed by theorems about them.

Conventions of the embedding.

* Go `int` values are `Int`.  Every quantity the handlers compute is a grid
  coordinate, a count of characters or a sum of two of those, so the 64-bit
  wrap-around is never reached under the hypotheses of the theorems; the one
  explicit conversion `int(ucount)` in `scroll` is embedded with its wrap.
* A Go run-time fault (index out of range, failed type assertion) ends the
  handler without a result: handlers return `Option MiniMap` and `none` is the
  fault.
* The grid `[][]*Cell` is a list of lines of optional cells, `none` being the
  nil pointer.  Cells are held by value.  In the Go code two grid positions can
  hold the same `*Cell` only after `scroll` leaves through its early `return`
  (a line shorter than the scrolled column range), which does not happen on a
  buffer of `rows` lines of `cols` cells with the region inside it; the
  theorems below are about grids in which every position owns its cell, and
  `Reached` describes the states on which that is so.
* `mapScroll`, called after `scroll`, moves the viewport widget and touches
  none of the fields modelled here; the repaint request of `update` likewise.
* Protocol arguments (`interface{}`) are values of the tagged type `Value`.
* Font metrics, the colour decoder `calcColor` and `util.ReflectToInt` are
  declared outside `miniMap.go`; they are the fields of `Env`.
* `Cmdline.getText` of `editor/cmdline.go` follows the grid engine.  It slices a
  Go string, which is indexed by bytes, so the strings of the command line are
  byte sequences; a slice expression out of range is a fault like the others.
-/

namespace Goneovim

/-- Dynamic protocol values as the msgpack decoder hands them over
(`interface{}`): nil, booleans, signed and unsigned integers, strings,
`[]interface{}` and `map[string]interface{}`. -/
inductive Value where
  | null : Value
  | bool (b : Bool) : Value
  | int64 (i : Int) : Value
  | uint64 (n : Nat) : Value
  | str (s : String) : Value
  | arr (xs : List Value) : Value
  | dict (kvs : List (String × Value)) : Value

/-- Modelled from the spec: the colour type `RGBA` is declared outside the
sources at hand (the spec calls it Color).  The painter reads its red, green
and blue components; the alpha channel plays no part in the grid engine. -/
structure RGBA where
  R : Int
  G : Int
  B : Int
deriving DecidableEq, Repr

/-- Modelled from the spec: `Highlight` is declared outside the sources at
hand; these are the four fields `miniMap.go` reads and writes, the colours
being `*RGBA` pointers that may be nil. -/
structure Highlight where
  foreground : Option RGBA
  background : Option RGBA
  bold : Bool
  italic : Bool
deriving DecidableEq, Repr

/-- Modelled from the spec: `Cell` is declared outside the sources at hand;
these are the three fields `miniMap.go` reads and writes. -/
structure Cell where
  char : String
  normalWidth : Bool
  highlight : Highlight
deriving DecidableEq, Repr

/-- The collaborators of the grid engine that live outside `miniMap.go`. -/
structure Env where
  /-- The test `m.font.fontMetrics.HorizontalAdvance(char, -1) == m.font.truewidth`. -/
  advanceIsTruewidth : String → Bool
  /-- The colour decoder `calcColor`. -/
  calcColor : Int → RGBA
  /-- The conversion `util.ReflectToInt`; `none` is a failed type assertion. -/
  ReflectToInt : Value → Option Int

/-- The damage rectangle `queueRedrawArea [4]int`: indices 0, 1, 2, 3 are
`x0`, `y0`, `x1`, `y1`. -/
structure Area where
  x0 : Int
  y0 : Int
  x1 : Int
  y1 : Int
deriving DecidableEq, Repr

/-- The scroll region `scrollRegion []int{top, bot, left, right}`. -/
structure Region where
  top : Int
  bot : Int
  left : Int
  right : Int
deriving DecidableEq, Repr

/-- The fields of `MiniMap` that the redraw handlers read or write. -/
structure MiniMap where
  content : List (List (Option Cell))
  scrollRegion : Region
  queueRedrawArea : Area
  cursor : Int × Int
  highlight : Highlight
  rows : Int
  cols : Int
  foreground : Option RGBA
  background : Option RGBA
deriving DecidableEq, Repr

/-- Go indexing `s[i]` of a slice by an `int`: a fault outside `0 ≤ i < len`. -/
def index {α : Type} (s : List α) (i : Int) : Option α :=
  if 0 ≤ i then s[i.toNat]? else none

/-- The cell stored at a grid position, `none` when the position is outside
the grid or holds the nil pointer. -/
def cellAt (content : List (List (Option Cell))) (r c : Nat) : Option Cell :=
  match content[r]? with
  | some ln => ln[c]?.join
  | none => none

/-- `MiniMap.isNormalWidth`.  A Go string is indexed by bytes; the first byte of
the UTF-8 form of a string is at most 127 exactly when its first character is. -/
def isNormalWidth (env : Env) (char : String) : Bool :=
  match char.data with
  | [] => true
  | c :: _ => if c.toNat ≤ 127 then true else env.advanceIsTruewidth char

/-- `MiniMap.queueRedraw`. -/
def queueRedraw (m : MiniMap) (x y width height : Int) : MiniMap :=
  let a := m.queueRedrawArea
  { m with queueRedrawArea :=
      { x0 := if x < a.x0 then x else a.x0
        y0 := if y < a.y0 then y else a.y0
        x1 := if x + width > a.x1 then x + width else a.x1
        y1 := if y + height > a.y1 then y + height else a.y1 } }

/-- `MiniMap.queueRedrawAll`. -/
def queueRedrawAll (m : MiniMap) : MiniMap :=
  { m with queueRedrawArea := { x0 := 0, y0 := 0, x1 := m.cols, y1 := m.rows } }

/-- The empty damage sentinel that `MiniMap.update` and `MiniMap.redraw` store. -/
def emptyArea (m : MiniMap) : Area :=
  { x0 := m.cols, y0 := m.rows, x1 := 0, y1 := 0 }

/-- The local variables of the character loop of `MiniMap.put`. -/
structure PutState where
  line : List (Option Cell)
  col : Int
  numChars : Int
  lastCell : Option Cell
  oldNormalWidth : Bool
deriving DecidableEq, Repr

/-- Whether a cell pointer is non-nil and wide: `cell != nil && !cell.normalWidth`. -/
def isWide (cell : Option Cell) : Bool :=
  match cell with
  | some c => !c.normalWidth
  | none => false

/-- The cell a character leaves behind (lines 583-586): the character, its
width class and the current style. -/
def newCell (env : Env) (hl : Highlight) (s : String) : Cell :=
  { char := s, normalWidth := isNormalWidth env s, highlight := hl }

/-- One iteration of the inner loop of `MiniMap.put` (lines 569-589). -/
def putChar (env : Env) (hl : Highlight) (st : PutState) (c : Value) : Option PutState :=
  if st.col ≥ st.line.length then some st
  else
    match index st.line st.col with
    | none => none
    | some cell =>
      match c with
      | Value.str s =>
        some { line := st.line.set st.col.toNat (some (newCell env hl s))
               col := st.col + 1
               numChars := st.numChars + 1
               lastCell := some (newCell env hl s)
               oldNormalWidth := !isWide cell }
      | _ => none

/-- One iteration of the outer loop of `MiniMap.put` (lines 567-590): the
argument must be a list, `arg.([]interface{})`. -/
def putGroup (env : Env) (hl : Highlight) (st : PutState) (arg : Value) : Option PutState :=
  match arg with
  | Value.arr chars => chars.foldlM (putChar env hl) st
  | _ => none

/-- The width after the loop (lines 591-596): one more cell when the last
character written is wide, one more when the last cell overwritten was wide. -/
def putWidth (st : PutState) : Int :=
  let n1 := if isWide st.lastCell then st.numChars + 1 else st.numChars
  if !st.oldNormalWidth then n1 + 1 else n1

/-- The closing lines of `MiniMap.put` (598-609): the start column and the
width of the redraw span, after looking at the cell before the run. -/
def putSpan (line : List (Option Cell)) (x numChars : Int) (oldFirstNormal : Bool) :
    Option (Int × Int) :=
  if x > 0 then
    match index line (x - 1) with
    | none => none
    | some cell =>
      if (match cell with
          | some b => b.char ≠ "" && !b.normalWidth
          | none => false) then some (x - 1, numChars + 1)
      else if !oldFirstNormal then some (x - 1, numChars + 1)
      else some (x, numChars)
  else some (x, numChars)

/-- `MiniMap.put`. -/
def put (env : Env) (m : MiniMap) (args : List Value) : Option MiniMap :=
  let y := m.cursor.1
  let row := m.cursor.1
  let col := m.cursor.2
  if row ≥ m.rows then some m
  else
    match index m.content row with
    | none => none
    | some line =>
      let x := if m.cursor.2 ≥ line.length then (line.length : Int) - 1 else m.cursor.2
      match index line x with
      | none => none
      | some cell =>
        let oldFirstNormal := !isWide cell
        match args.foldlM (putGroup env m.highlight)
            { line := line, col := col, numChars := 0, lastCell := none, oldNormalWidth := true } with
        | none => none
        | some st =>
          match putSpan st.line x (putWidth st) oldFirstNormal with
          | none => none
          | some span =>
            some (queueRedraw
              { m with content := m.content.set row.toNat st.line, cursor := (m.cursor.1, st.col) }
              span.1 y span.2 1)

/-- The test `hl[key] != nil` of lines 618-630: a key read with the plain map
lookup counts as set only when it is present with a non-nil value. -/
def keySet (entry : Option Value) : Bool :=
  match entry with
  | some Value.null => false
  | some _ => true
  | none => false

/-- The colour of lines 640-646 and 648-654: the decoded value of the key when it
is present, the grid-wide default otherwise; `none` is the fault of
`util.ReflectToInt` on a value that is not an integer. -/
def keyColour (env : Env) (entry : Option Value) (dflt : Option RGBA) : Option (Option RGBA) :=
  match entry with
  | some v => (env.ReflectToInt v).map (fun i => some (env.calcColor i))
  | none => some dflt

/-- The body of `MiniMap.highlightSet` for one argument (lines 615-655):
`arg.([]interface{})[0].(map[string]interface{})` is the dictionary; `reverse`
is tested for presence with the comma-ok lookup. -/
def highlightSetArg (env : Env) (m : MiniMap) (arg : Value) : Option MiniMap :=
  match arg with
  | Value.arr (Value.dict hl :: _) =>
    let bold := keySet (hl.lookup "bold")
    let italic := keySet (hl.lookup "italic")
    match hl.lookup "reverse" with
    | some _ =>
      some { m with highlight :=
        { foreground := m.highlight.background
          background := m.highlight.foreground
          bold := bold
          italic := italic } }
    | none =>
      match keyColour env (hl.lookup "foreground") m.foreground with
      | none => none
      | some foreground =>
        match keyColour env (hl.lookup "background") m.background with
        | none => none
        | some background =>
          some { m with highlight :=
            { foreground := foreground
              background := background
              bold := bold
              italic := italic } }
  | _ => none

/-- `MiniMap.highlightSet`. -/
def highlightSet (env : Env) (m : MiniMap) (args : List Value) : Option MiniMap :=
  args.foldlM (highlightSetArg env) m

/-- `MiniMap.setScrollRegion`. -/
def setScrollRegion (env : Env) (m : MiniMap) (args : List Value) : Option MiniMap :=
  match args with
  | Value.arr arg :: _ =>
    match index arg 0, index arg 1, index arg 2, index arg 3 with
    | some a0, some a1, some a2, some a3 =>
      match env.ReflectToInt a0, env.ReflectToInt a1, env.ReflectToInt a2, env.ReflectToInt a3 with
      | some top, some bot, some left, some right =>
        some { m with scrollRegion := { top := top, bot := bot, left := left, right := right } }
      | _, _, _, _ => none
    | _, _, _, _ => none
  | _ => none

/-- The grid type `[][]*Cell`. -/
abbrev Grid := List (List (Option Cell))

/-- Reading `content[row][col]`; `none` is an index fault. -/
def getCell (g : Grid) (row col : Int) : Option (Option Cell) :=
  match index g row with
  | none => none
  | some line => index line col

/-- The assignment `content[row][col] = v`; `none` is an index fault. -/
def setCell (g : Grid) (row col : Int) (v : Option Cell) : Option Grid :=
  match index g row with
  | none => none
  | some line =>
    if 0 ≤ col ∧ col < line.length then some (g.set row.toNat (line.set col.toNat v))
    else none

/-- How a loop over the grid ends: still running, left through `return`, or
stopped by a run-time fault. -/
inductive Flow where
  | running (g : Grid) : Flow
  | returned (g : Grid) : Flow
  | fault : Flow
deriving DecidableEq, Repr

/-- A `for` loop whose control variable takes the values of `xs` in turn. -/
def forEach (xs : List Int) (body : Grid → Int → Flow) (g : Grid) : Flow :=
  match xs with
  | [] => Flow.running g
  | x :: rest =>
    match body g x with
    | Flow.running g1 => forEach rest body g1
    | Flow.returned g1 => Flow.returned g1
    | Flow.fault => Flow.fault

/-- The values `lo, lo+1, ..., hi` of an ascending loop `for i := lo; i <= hi; i++`. -/
def upTo (lo hi : Int) : List Int :=
  (List.range (hi + 1 - lo).toNat).map (fun (i : Nat) => lo + (i : Int))

/-- The values `hi, hi-1, ..., lo` of a descending loop `for i := hi; i >= lo; i--`. -/
def downTo (hi lo : Int) : List Int :=
  (List.range (hi + 1 - lo).toNat).map (fun (i : Nat) => hi - (i : Int))

/-- The innermost statement group of the upward copy (lines 701-709). -/
def copyUpCell (count row : Int) (g : Grid) (col : Int) : Flow :=
  if (g.length : Int) ≤ row + count then Flow.running g
  else if g.any (fun line => decide ((line.length : Int) ≤ col)) then Flow.returned g
  else
    match getCell g (row + count) col with
    | none => Flow.fault
    | some v =>
      match setCell g row col v with
      | none => Flow.fault
      | some g1 => Flow.running g1

/-- The statement `m.content[row][col] = m.content[row+count][col]` of the
downward copy (line 724). -/
def copyDownCell (count row : Int) (g : Grid) (col : Int) : Flow :=
  match getCell g (row + count) col with
  | none => Flow.fault
  | some v =>
    match setCell g row col v with
    | none => Flow.fault
    | some g1 => Flow.running g1

/-- The statement `m.content[row][col] = nil` (lines 714 and 729). -/
def clearCell (row : Int) (g : Grid) (col : Int) : Flow :=
  match setCell g row col none with
  | none => Flow.fault
  | some g1 => Flow.running g1

/-- The conversion `int(ucount)` of an unsigned 64-bit value. -/
def intOfUint (n : Nat) : Int :=
  if n % 2 ^ 64 < 2 ^ 63 then ((n % 2 ^ 64 : Nat) : Int) else ((n % 2 ^ 64 : Nat) : Int) - 2 ^ 64

/-- The type switch at the head of `MiniMap.scroll` (lines 672-682): the count
carried by `args[0].([]interface{})[0]`; `none` is a fault. -/
def scrollCount (args : List Value) : Option Int :=
  match args with
  | Value.arr (v :: _) :: _ =>
    match v with
    | Value.int64 i => some i
    | Value.uint64 n => if n % 2 ^ 64 > 0 then some (intOfUint n) else some 0
    | _ => some 0
  | _ => none

/-- The region a scroll works on (lines 684-694): the stored region, or the
whole grid when the stored region is all zero. -/
def effectiveRegion (m : MiniMap) : Region :=
  if m.scrollRegion.top = 0 ∧ m.scrollRegion.bot = 0 ∧
      m.scrollRegion.left = 0 ∧ m.scrollRegion.right = 0 then
    { top := 0, bot := m.rows - 1, left := 0, right := m.cols - 1 }
  else m.scrollRegion

/-- The body of `MiniMap.scroll` once the count and the region are known
(lines 696-736).  The early `return` of the upward copy leaves the function
with the damage queued so far. -/
def scrollBy (m : MiniMap) (count : Int) (reg : Region) : Option MiniMap :=
  let top := reg.top
  let bot := reg.bot
  let left := reg.left
  let right := reg.right
  let m1 := queueRedraw m left top (right - left + 1) (bot - top + 1)
  if count > 0 then
    match forEach (upTo top (bot - count))
        (fun g row => forEach (upTo left right) (copyUpCell count row) g) m1.content with
    | Flow.fault => none
    | Flow.returned g1 => some { m1 with content := g1 }
    | Flow.running g1 =>
      match forEach (upTo (bot - count + 1) bot)
          (fun g row => forEach (upTo left right) (clearCell row) g) g1 with
      | Flow.fault => none
      | Flow.returned g2 => some { m1 with content := g2 }
      | Flow.running g2 =>
        let m2 := queueRedraw { m1 with content := g2 } left (bot - count + 1) (right - left) count
        if top > 0 then some (queueRedraw m2 left (top - count) (right - left) count)
        else some m2
  else
    match forEach (downTo bot (top - count))
        (fun g row => forEach (upTo left right) (copyDownCell count row) g) m1.content with
    | Flow.fault => none
    | Flow.returned g1 => some { m1 with content := g1 }
    | Flow.running g1 =>
      match forEach (upTo top (top - count - 1))
          (fun g row => forEach (upTo left right) (clearCell row) g) g1 with
      | Flow.fault => none
      | Flow.returned g2 => some { m1 with content := g2 }
      | Flow.running g2 =>
        let m2 := queueRedraw { m1 with content := g2 } left top (right - left) (-count)
        if bot < m.rows - 1 then some (queueRedraw m2 left (bot + 1) (right - left) (-count))
        else some m2

/-- `MiniMap.scroll`. -/
def scroll (m : MiniMap) (args : List Value) : Option MiniMap :=
  match scrollCount args with
  | none => none
  | some count => scrollBy m count (effectiveRegion m)

/-- `MiniMap.update`: the repaint request itself goes to the widget; the grid
engine keeps the reset of the damage rectangle. -/
def update (m : MiniMap) : MiniMap :=
  { m with queueRedrawArea := { x0 := m.cols, y0 := m.rows, x1 := 0, y1 := 0 } }

/-- The allocation shared by `MiniMap.resize` and `MiniMap.clear` (lines 985-991
and 995-1001); `make` faults on a negative length. -/
def reallocate (m : MiniMap) : Option MiniMap :=
  if m.rows < 0 then none
  else if 0 < m.rows ∧ m.cols < 0 then none
  else
    some (queueRedrawAll
      { m with cursor := (0, 0)
               content := List.replicate m.rows.toNat (List.replicate m.cols.toNat none) })

/-- `MiniMap.resize`: the arguments are not read. -/
def resize (m : MiniMap) (_args : List Value) : Option MiniMap :=
  reallocate m

/-- `MiniMap.clear`: the arguments are not read. -/
def clear (m : MiniMap) (_args : List Value) : Option MiniMap :=
  reallocate m

/-- The statement `line[x] = nil` of `MiniMap.eolClear` (line 1013). -/
def clearAt (line : List (Option Cell)) (x : Int) : Option (List (Option Cell)) :=
  if 0 ≤ x ∧ x < line.length then some (line.set x.toNat none) else none

/-- `MiniMap.eolClear`. -/
def eolClear (m : MiniMap) (_args : List Value) : Option MiniMap :=
  let row := m.cursor.1
  let col := m.cursor.2
  if row ≥ m.rows then some m
  else
    match index m.content row with
    | none => none
    | some line =>
      let xs := upTo col ((line.length : Int) - 1)
      match xs.foldlM clearAt line with
      | none => none
      | some line1 =>
        let numChars : Int := xs.length
        some (queueRedraw { m with content := m.content.set row.toNat line1 } col row (numChars + 1) 1)

/-- `MiniMap.cursorGoto`: `args[0]` must exist; the comma-ok assertion leaves
an empty slice when it is not a list, and indexing that slice is the fault. -/
def cursorGoto (env : Env) (m : MiniMap) (args : List Value) : Option MiniMap :=
  match args with
  | [] => none
  | a :: _ =>
    let pos : List Value :=
      match a with
      | Value.arr xs => xs
      | _ => []
    match index pos 0 with
    | none => none
    | some p0 =>
      match env.ReflectToInt p0 with
      | none => none
      | some r =>
        match index pos 1 with
        | none => none
        | some p1 =>
          match env.ReflectToInt p1 with
          | none => none
          | some c => some { m with cursor := (r, c) }

/-- The dispatch of one update of `MiniMap.handleRedraw` (lines 485-531):
`update[0].(string)` names the event, the rest are its arguments; names
without a case are ignored. -/
def handleUpdate (env : Env) (m : MiniMap) (upd : List Value) : Option MiniMap :=
  match upd with
  | Value.str event :: args =>
    if event = "cursor_goto" then cursorGoto env m args
    else if event = "put" then put env m args
    else if event = "eol_clear" then eolClear m args
    else if event = "clear" then clear m args
    else if event = "resize" then resize m args
    else if event = "highlight_set" then highlightSet env m args
    else if event = "set_scroll_region" then setScrollRegion env m args
    else if event = "scroll" then scroll m args
    else some m
  | _ => none

/-- `MiniMap.handleRedraw`: the updates in order, then `update`. -/
def handleRedraw (env : Env) (m : MiniMap) (updates : List (List Value)) : Option MiniMap :=
  (updates.foldlM (handleUpdate env) m).map update

/-! ## The command line text of `editor/cmdline.go` -/

/-- A Go `string` as the command line handles it: the sequence of its bytes, each
a value below 256.  `len` counts bytes and a slice expression cuts between
bytes; nothing here looks inside a byte. -/
abbrev GoString := List Nat

/-- The struct `CmdContent`. -/
structure CmdContent where
  indent : Int
  firstc : GoString
  prompt : GoString
  content : GoString
deriving DecidableEq, Repr

/-- The fields of the struct `Cmdline` that `getText` reads or writes: the cursor
position and the current content. -/
structure Cmdline where
  pos : Int
  content : CmdContent
deriving DecidableEq, Repr

/-- The slice expression `s[:hi]`; `none` is the fault outside `0 ≤ hi ≤ len(s)`. -/
def sliceTo (s : GoString) (hi : Int) : Option GoString :=
  if 0 ≤ hi ∧ hi ≤ s.length then some (s.take hi.toNat) else none

/-- The slice expression `s[lo:]`; `none` is the fault outside `0 ≤ lo ≤ len(s)`. -/
def sliceFrom (s : GoString) (lo : Int) : Option GoString :=
  if 0 ≤ lo ∧ lo ≤ s.length then some (s.drop lo.toNat) else none

/-- The loop of lines 47-50 of `cmdline.go`: one space appended for each `i` with
`0 ≤ i < indent`. -/
def indentStr (indent : Int) : GoString :=
  (upTo 0 (indent - 1)).foldl (fun s _ => s ++ [32]) []

/-- `Cmdline.getText`: the text shown for the command line with `ch` inserted at
the cursor, together with the receiver after the adjustment of `pos`; `none` is
a slice fault. -/
def Cmdline.getText (c : Cmdline) (ch : GoString) : Option (Cmdline × GoString) :=
  let len : Int := c.content.content.length
  let pos1 := if c.pos > len then len - 1 else c.pos
  let pos2 := if len = 0 then 0 else pos1
  match sliceTo c.content.content pos2 with
  | none => none
  | some before =>
    match sliceFrom c.content.content pos2 with
    | none => none
    | some after =>
      some ({ c with pos := pos2 },
        c.content.firstc ++ indentStr c.content.indent ++ (before ++ ch ++ after))

/-! ## Vocabulary of the statements and sample states -/

/-- A grid is well formed when its buffer has `rows` lines of `cols` cells each. -/
def WellFormed (m : MiniMap) : Prop :=
  (m.content.length : Int) = m.rows ∧ ∀ line ∈ m.content, (line.length : Int) = m.cols

instance (m : MiniMap) : Decidable (WellFormed m) := by
  unfold WellFormed; infer_instance

/-- The arguments of a `put` command that carries the given groups of characters. -/
def putArgs (groups : List (List String)) : List Value :=
  groups.map (fun g => Value.arr (g.map Value.str))

/-- What the loop of `put` leaves after writing `chars` from column `c` of the
line `ln`. -/
structure PutRun (env : Env) (hl : Highlight) (ln : List (Option Cell)) (c : Nat)
    (chars : List String) (st : PutState) : Prop where
  length_eq : st.line.length = ln.length
  col_eq : st.col = ((c + chars.length : Nat) : Int)
  numChars_eq : st.numChars = (chars.length : Int)
  frame : ∀ j, j < c ∨ c + chars.length ≤ j → st.line[j]? = ln[j]?
  written : ∀ i s, chars[i]? = some s → st.line[c + i]? = some (some (newCell env hl s))
  lastCell_eq : st.lastCell = chars.getLast?.map (newCell env hl)
  old_eq : st.oldNormalWidth =
    (if chars = [] then true else !isWide (ln[c + chars.length - 1]?.join))

/-- A buffer of `R` lines of `C` cells. -/
def Dim (g : Grid) (R C : Nat) : Prop :=
  g.length = R ∧ ∀ l ∈ g, l.length = C

/-- The value the copy loops of `scroll` move into a position: the pointer found
`n` rows further down (up, for a negative `n`). -/
def shifted (n : Int) (g : Grid) (r c : Nat) : Option Cell :=
  (getCell g ((r : Int) + n) (c : Int)).join

/-- An environment for the closed examples: every character outside the 7-bit
range is wide, a colour unpacks as 0xRRGGBB, and `ReflectToInt` accepts the two
integer kinds. -/
def sampleEnv : Env :=
  { advanceIsTruewidth := fun _ => false
    calcColor := fun i => { R := (i / 65536) % 256, G := (i / 256) % 256, B := i % 256 }
    ReflectToInt := fun v =>
      match v with
      | Value.int64 i => some i
      | Value.uint64 n => some (n : Int)
      | _ => none }

/-- The style with no colours set. -/
def plainStyle : Highlight :=
  { foreground := none, background := none, bold := false, italic := false }

/-- A freshly allocated grid of the given size: every cell empty, the cursor at
the origin, no scroll region, the empty damage sentinel. -/
def blank (rows cols : Nat) : MiniMap :=
  { content := List.replicate rows (List.replicate cols none)
    scrollRegion := { top := 0, bot := 0, left := 0, right := 0 }
    queueRedrawArea := { x0 := cols, y0 := rows, x1 := 0, y1 := 0 }
    cursor := (0, 0)
    highlight := plainStyle
    rows := rows
    cols := cols
    foreground := none
    background := none }

/-- A narrow cell in the plain style. -/
def letter (s : String) : Option Cell :=
  some { char := s, normalWidth := true, highlight := plainStyle }

/-- A 3 x 3 grid holding the letters a to i, the cursor at (1, 1), a red on blue
current style and the empty damage sentinel. -/
def sampleGrid : MiniMap :=
  { content := [[letter "a", letter "b", letter "c"],
                [letter "d", letter "e", letter "f"],
                [letter "g", letter "h", letter "i"]]
    scrollRegion := { top := 0, bot := 0, left := 0, right := 0 }
    queueRedrawArea := { x0 := 3, y0 := 3, x1 := 0, y1 := 0 }
    cursor := (1, 1)
    highlight :=
      { foreground := some { R := 255, G := 0, B := 0 }
        background := some { R := 0, G := 0, B := 255 }
        bold := false
        italic := false }
    rows := 3
    cols := 3
    foreground := none
    background := none }

/-- What holds of the loop state of `put` after any number of iterations, for
any arguments: the line keeps its length, the column has only advanced, never
past the end of the line unless it started there, the count of characters is
the advance of the column, and the cells outside the advance are untouched. -/
structure PutInv (ln : List (Option Cell)) (c0 : Int) (st : PutState) : Prop where
  length_eq : st.line.length = ln.length
  col_ge : c0 ≤ st.col
  col_le : st.col ≤ c0 ∨ st.col ≤ (ln.length : Int)
  numChars_eq : st.numChars = st.col - c0
  frame : ∀ j : Nat, ((j : Int) < c0 ∨ st.col ≤ (j : Int)) → st.line[j]? = ln[j]?
  fresh : st.col = c0 → st.lastCell = none ∧ st.oldNormalWidth = true

/-- The cursor invariant of the data model: the row is inside the grid, the
column inside it or one past its last column. -/
def CursorInv (m : MiniMap) : Prop :=
  0 ≤ m.cursor.1 ∧ m.cursor.1 < m.rows ∧ 0 ≤ m.cursor.2 ∧ m.cursor.2 ≤ m.cols

/-- Updates whose argument shape does not match what the handler expects, for
the handlers that read their arguments unconditionally: wrong arity or a wrong
element type. -/
inductive Malformed (env : Env) : List Value → Prop where
  | cursor_goto_no_args : Malformed env [Value.str "cursor_goto"]
  | cursor_goto_short (pos : List Value) (rest : List Value) (h : pos.length < 2) :
      Malformed env (Value.str "cursor_goto" :: Value.arr pos :: rest)
  | cursor_goto_not_list (v : Value) (rest : List Value) (h : ∀ xs, v ≠ Value.arr xs) :
      Malformed env (Value.str "cursor_goto" :: v :: rest)
  | cursor_goto_not_int (a b : Value) (more rest : List Value)
      (h : env.ReflectToInt a = none ∨ env.ReflectToInt b = none) :
      Malformed env (Value.str "cursor_goto" :: Value.arr (a :: b :: more) :: rest)
  | scroll_no_args : Malformed env [Value.str "scroll"]
  | scroll_empty_list (rest : List Value) :
      Malformed env (Value.str "scroll" :: Value.arr [] :: rest)
  | scroll_not_list (v : Value) (rest : List Value) (h : ∀ xs, v ≠ Value.arr xs) :
      Malformed env (Value.str "scroll" :: v :: rest)
  | set_scroll_region_no_args : Malformed env [Value.str "set_scroll_region"]
  | set_scroll_region_short (arg : List Value) (rest : List Value) (h : arg.length < 4) :
      Malformed env (Value.str "set_scroll_region" :: Value.arr arg :: rest)
  | set_scroll_region_not_list (v : Value) (rest : List Value) (h : ∀ xs, v ≠ Value.arr xs) :
      Malformed env (Value.str "set_scroll_region" :: v :: rest)
  | highlight_set_not_list (v : Value) (rest : List Value) (h : ∀ xs, v ≠ Value.arr xs) :
      Malformed env (Value.str "highlight_set" :: v :: rest)
  | highlight_set_empty_list (rest : List Value) :
      Malformed env (Value.str "highlight_set" :: Value.arr [] :: rest)
  | highlight_set_not_dict (v : Value) (more rest : List Value) (h : ∀ kvs, v ≠ Value.dict kvs) :
      Malformed env (Value.str "highlight_set" :: Value.arr (v :: more) :: rest)
  | not_named (v : Value) (rest : List Value) (h : ∀ s, v ≠ Value.str s) :
      Malformed env (v :: rest)
  | empty : Malformed env []

/-- A rectangle handed to `queueRedraw`: start column, start row, width, height. -/
structure Rect where
  x : Int
  y : Int
  width : Int
  height : Int
deriving DecidableEq, Repr

/-- A sequence of `queueRedraw` calls, in order. -/
def queueAll (m : MiniMap) (rects : List Rect) : MiniMap :=
  rects.foldl (fun m1 q => queueRedraw m1 q.x q.y q.width q.height) m

/-- The value `v` is the least of the default `d` and the values `xs`. -/
def IsMinOver (v d : Int) (xs : List Int) : Prop :=
  v ≤ d ∧ (∀ x ∈ xs, v ≤ x) ∧ (v = d ∨ v ∈ xs)

/-- The value `v` is the greatest of the default `d` and the values `xs`. -/
def IsMaxOver (v d : Int) (xs : List Int) : Prop :=
  d ≤ v ∧ (∀ x ∈ xs, x ≤ v) ∧ (v = d ∨ v ∈ xs)

/-- The state with its damage rectangle set aside. -/
def forget (m : MiniMap) : MiniMap :=
  { m with queueRedrawArea := { x0 := 0, y0 := 0, x1 := 0, y1 := 0 } }

/-- The part of the state the commands of a batch share: the grid, the cursor,
the current style and the scroll region. -/
def visible (m : MiniMap) : Grid × (Int × Int) × Highlight × Region :=
  (m.content, m.cursor, m.highlight, m.scrollRegion)

/-- A cell position lies inside a damage rectangle: `x0 ≤ col < x1` and
`y0 ≤ row < y1`. -/
def covers (a : Area) (r c : Nat) : Prop :=
  a.x0 ≤ (c : Int) ∧ (c : Int) < a.x1 ∧ a.y0 ≤ (r : Int) ∧ (r : Int) < a.y1

instance (a : Area) (r c : Nat) : Decidable (covers a r c) := by
  unfold covers; infer_instance

instance (m : MiniMap) : Decidable (CursorInv m) := by
  unfold CursorInv; infer_instance

/-- The region a scroll works on lies inside the grid. -/
def RegionInside (m : MiniMap) : Prop :=
  0 ≤ (effectiveRegion m).top ∧ (effectiveRegion m).top ≤ (effectiveRegion m).bot + 1 ∧
  (effectiveRegion m).bot < m.rows ∧
  0 ≤ (effectiveRegion m).left ∧ (effectiveRegion m).left ≤ (effectiveRegion m).right + 1 ∧
  (effectiveRegion m).right < m.cols

instance (m : MiniMap) : Decidable (RegionInside m) := by
  unfold RegionInside; infer_instance

/-- A run of commands, each applied to a well-formed state with the cursor in
bounds and the scroll region inside the grid, a scroll with a count no larger
in absolute value than the height of the region. -/
inductive Run (env : Env) : MiniMap → List (List Value) → MiniMap → Prop where
  | done (m : MiniMap) : Run env m [] m
  | step (m m1 m2 : MiniMap) (event : String) (args : List Value) (rest : List (List Value)) :
      WellFormed m → CursorInv m → RegionInside m →
      event ∈ ["put", "eol_clear", "scroll", "clear", "resize", "cursor_goto",
        "set_scroll_region"] →
      (event = "scroll" → ∀ n, scrollCount args = some n →
        |n| ≤ (effectiveRegion m).bot - (effectiveRegion m).top + 1) →
      handleUpdate env m (Value.str event :: args) = some m1 →
      Run env m1 rest m2 →
      Run env m ((Value.str event :: args) :: rest) m2

/-- The margins the damage rectangle keeps to: two columns past the last column,
`rows` rows above the first row and below the last. -/
def DamageBound (m : MiniMap) : Prop :=
  0 ≤ m.queueRedrawArea.x0 ∧ -m.rows ≤ m.queueRedrawArea.y0 ∧
  m.queueRedrawArea.x1 ≤ m.cols + 2 ∧ m.queueRedrawArea.y1 ≤ 2 * m.rows

/-- A cell holding a wide glyph, for the closed examples. -/
def wideCell : Option Cell :=
  some { char := "あ", normalWidth := false, highlight := plainStyle }

/-- The bytes of a string of 7-bit characters, for the closed examples. -/
def bytes (s : String) : GoString :=
  s.data.map Char.toNat

theorem cellAt_replicate_none (rows cols r c : Nat) :
    cellAt (List.replicate rows (List.replicate cols none)) r c = none := by
  unfold cellAt
  by_cases hr : r < rows
  · by_cases hc : c < cols
    · simp [List.getElem?_replicate, hr, hc]
    · simp [List.getElem?_replicate, hr, hc]
  · simp [List.getElem?_replicate, hr]

/-- C6 (as amended): `resize` and `clear`, whatever their arguments, reallocate
the grid at the dimensions `m.rows` and `m.cols` the state holds: the new buffer
has `rows` lines of `cols` cells, every cell is empty, the cursor is (0,0) and
the damage rectangle is the full grid. -/
theorem resize_clear_reallocate (m : MiniMap) (rows cols : Nat) (args args2 : List Value)
    (hr : m.rows = rows) (hc : m.cols = cols) :
    ∃ m1, resize m args = some m1 ∧ clear m args2 = some m1 ∧
      m1.rows = rows ∧ m1.cols = cols ∧
      m1.content.length = rows ∧ (∀ line ∈ m1.content, line.length = cols) ∧
      (∀ r c, cellAt m1.content r c = none) ∧
      m1.cursor = (0, 0) ∧
      m1.queueRedrawArea = { x0 := 0, y0 := 0, x1 := cols, y1 := rows } ∧
      m1.scrollRegion = m.scrollRegion ∧ m1.highlight = m.highlight := by
  have h1 : ¬ (m.rows < 0) := by omega
  have h2 : ¬ (0 < m.rows ∧ m.cols < 0) := by omega
  refine ⟨queueRedrawAll
      { m with cursor := (0, 0)
               content := List.replicate m.rows.toNat (List.replicate m.cols.toNat none) },
    ?_, ?_, ?_⟩
  · simp [resize, reallocate, h1, h2]
  · simp [clear, reallocate, h1, h2]
  · simp only [queueRedrawAll, hr, hc, Int.toNat_ofNat, List.length_replicate]
    refine ⟨trivial, trivial, trivial, ?_, ?_, trivial, trivial, trivial, trivial⟩
    · intro line hline
      rw [List.eq_of_mem_replicate hline, List.length_replicate]
    · intro r c
      exact cellAt_replicate_none rows cols r c

theorem index_natCast {α : Type} (s : List α) (i : Nat) : index s (i : Int) = s[i]? := by
  simp [index]

theorem upTo_nil (lo hi : Int) (h : hi < lo) : upTo lo hi = [] := by
  have : (hi + 1 - lo).toNat = 0 := by omega
  simp [upTo, this]

theorem upTo_cons (lo hi : Int) (h : lo ≤ hi) : upTo lo hi = lo :: upTo (lo + 1) hi := by
  obtain ⟨k, hk⟩ : ∃ k : Nat, (hi + 1 - lo).toNat = k + 1 := ⟨(hi - lo).toNat, by omega⟩
  have hk2 : (hi + 1 - (lo + 1)).toNat = k := by omega
  simp only [upTo, hk, hk2, List.range_succ_eq_map, List.map_cons, List.map_map]
  refine congrArg₂ _ (by simp) ?_
  apply List.map_congr_left
  intro i _
  simp only [Function.comp, Nat.succ_eq_add_one, Nat.cast_add, Nat.cast_one]
  omega

theorem downTo_nil (hi lo : Int) (h : hi < lo) : downTo hi lo = [] := by
  have : (hi + 1 - lo).toNat = 0 := by omega
  simp [downTo, this]

theorem downTo_cons (hi lo : Int) (h : lo ≤ hi) : downTo hi lo = hi :: downTo (hi - 1) lo := by
  obtain ⟨k, hk⟩ : ∃ k : Nat, (hi + 1 - lo).toNat = k + 1 := ⟨(hi - lo).toNat, by omega⟩
  have hk2 : (hi - 1 + 1 - lo).toNat = k := by omega
  simp only [downTo, hk, hk2, List.range_succ_eq_map, List.map_cons, List.map_map]
  refine congrArg₂ _ (by simp) ?_
  apply List.map_congr_left
  intro i _
  simp only [Function.comp, Nat.succ_eq_add_one, Nat.cast_add, Nat.cast_one]
  omega

theorem cellAt_set_ne (g : Grid) (r r1 c : Nat) (l : List (Option Cell)) (h : r1 ≠ r) :
    cellAt (g.set r l) r1 c = cellAt g r1 c := by
  unfold cellAt
  rw [List.getElem?_set_ne (Ne.symm h)]

theorem cellAt_set_eq (g : Grid) (r c : Nat) (l : List (Option Cell)) (h : r < g.length) :
    cellAt (g.set r l) r c = l[c]?.join := by
  unfold cellAt
  rw [List.getElem?_set_self h]

theorem cellAt_of_getElem? (g : Grid) (r c : Nat) (l : List (Option Cell)) (h : g[r]? = some l) :
    cellAt g r c = l[c]?.join := by
  unfold cellAt
  rw [h]

/-- The flag `hl[key] != nil` read by `highlightSet`. -/
theorem keySet_iff (hl : List (String × Value)) (key : String) :
    keySet (hl.lookup key) = true ↔ ∃ v, hl.lookup key = some v ∧ v ≠ Value.null := by
  cases h : hl.lookup key with
  | none => simp [keySet]
  | some v => cases v <;> simp [keySet]

/-- The state `highlightSet` leaves for one dictionary that has `reverse`. -/
theorem highlightSet_reverse_eq (env : Env) (m : MiniMap) (hl : List (String × Value))
    (rv : Value) (hrev : hl.lookup "reverse" = some rv) :
    highlightSet env m [Value.arr [Value.dict hl]] = some
      { m with highlight :=
        { foreground := m.highlight.background
          background := m.highlight.foreground
          bold := keySet (hl.lookup "bold")
          italic := keySet (hl.lookup "italic") } } := by
  simp only [highlightSet, List.foldlM_cons, List.foldlM_nil, highlightSetArg, hrev]
  rfl

/-- C8 (as amended): `highlight_set` with a dictionary that has the key
`reverse` swaps the foreground and background of the current style, whatever
the dictionary says under `foreground` and `background`; bold and italic are
set exactly when their keys are present with a non-nil value. -/
theorem highlightSet_reverse (env : Env) (m : MiniMap) (hl : List (String × Value)) (rv : Value)
    (hrev : hl.lookup "reverse" = some rv) :
    ∃ m1, highlightSet env m [Value.arr [Value.dict hl]] = some m1 ∧
      m1.highlight.foreground = m.highlight.background ∧
      m1.highlight.background = m.highlight.foreground ∧
      (m1.highlight.bold = true ↔ ∃ v, hl.lookup "bold" = some v ∧ v ≠ Value.null) ∧
      (m1.highlight.italic = true ↔ ∃ v, hl.lookup "italic" = some v ∧ v ≠ Value.null) ∧
      m1.content = m.content ∧ m1.cursor = m.cursor ∧
      m1.queueRedrawArea = m.queueRedrawArea ∧ m1.scrollRegion = m.scrollRegion :=
  ⟨_, highlightSet_reverse_eq env m hl rv hrev, rfl, rfl, keySet_iff hl "bold",
    keySet_iff hl "italic", rfl, rfl, rfl, rfl⟩

/-- C9 (as amended): two `highlight_set` commands with `reverse` in succession
swap the colours twice, so the current style ends with the foreground and the
background it started with. -/
theorem highlightSet_reverse_twice (env : Env) (m : MiniMap)
    (hl1 hl2 : List (String × Value)) (rv1 rv2 : Value)
    (hrev1 : hl1.lookup "reverse" = some rv1) (hrev2 : hl2.lookup "reverse" = some rv2) :
    ∃ m1 m2, highlightSet env m [Value.arr [Value.dict hl1]] = some m1 ∧
      highlightSet env m1 [Value.arr [Value.dict hl2]] = some m2 ∧
      m1.highlight.foreground = m.highlight.background ∧
      m1.highlight.background = m.highlight.foreground ∧
      m2.highlight.foreground = m.highlight.foreground ∧
      m2.highlight.background = m.highlight.background :=
  ⟨_, _, highlightSet_reverse_eq env m hl1 rv1 hrev1,
    highlightSet_reverse_eq env _ hl2 rv2 hrev2, rfl, rfl, rfl, rfl⟩

/-- The colour `highlightSet` takes for a key: decoded when present, the default
when absent. -/
theorem keyColour_spec (env : Env) (hl : List (String × Value)) (key : String)
    (dflt : Option RGBA)
    (h : ∀ v, hl.lookup key = some v → ∃ i, env.ReflectToInt v = some i) :
    ∃ f, keyColour env (hl.lookup key) dflt = some f ∧
      (∀ v i, hl.lookup key = some v → env.ReflectToInt v = some i →
        f = some (env.calcColor i)) ∧
      (hl.lookup key = none → f = dflt) := by
  cases hk : hl.lookup key with
  | none => exact ⟨dflt, rfl, by simp, fun _ => rfl⟩
  | some v =>
    obtain ⟨i, hi⟩ := h v hk
    refine ⟨some (env.calcColor i), by simp [keyColour, hi], ?_, by simp⟩
    intro v1 i1 hv1 hi1
    simp only [Option.some.injEq] at hv1
    subst hv1
    rw [hi] at hi1
    simp only [Option.some.injEq] at hi1
    rw [hi1]

/-- C10 (as amended): for a dictionary without `reverse` whose `foreground` and
`background` values, when present, are integers `ReflectToInt` accepts, the new
foreground is the decoded colour of the `foreground` key when present and
otherwise the default `m.foreground`, absent when that default is absent;
likewise the background; bold and italic are set exactly when their keys are
present with a non-nil value; the previous current style plays no part. -/
theorem highlightSet_plain (env : Env) (m : MiniMap) (hl : List (String × Value))
    (hrev : hl.lookup "reverse" = none)
    (hfg : ∀ v, hl.lookup "foreground" = some v → ∃ i, env.ReflectToInt v = some i)
    (hbg : ∀ v, hl.lookup "background" = some v → ∃ i, env.ReflectToInt v = some i) :
    ∃ m1, highlightSet env m [Value.arr [Value.dict hl]] = some m1 ∧
      (∀ v i, hl.lookup "foreground" = some v → env.ReflectToInt v = some i →
        m1.highlight.foreground = some (env.calcColor i)) ∧
      (hl.lookup "foreground" = none → m1.highlight.foreground = m.foreground) ∧
      (∀ v i, hl.lookup "background" = some v → env.ReflectToInt v = some i →
        m1.highlight.background = some (env.calcColor i)) ∧
      (hl.lookup "background" = none → m1.highlight.background = m.background) ∧
      (m1.highlight.bold = true ↔ ∃ v, hl.lookup "bold" = some v ∧ v ≠ Value.null) ∧
      (m1.highlight.italic = true ↔ ∃ v, hl.lookup "italic" = some v ∧ v ≠ Value.null) ∧
      (∀ prev : Highlight,
        (highlightSet env { m with highlight := prev } [Value.arr [Value.dict hl]]).map
          (fun m2 => m2.highlight) = some m1.highlight) ∧
      m1.content = m.content ∧ m1.cursor = m.cursor ∧
      m1.queueRedrawArea = m.queueRedrawArea ∧ m1.scrollRegion = m.scrollRegion := by
  obtain ⟨f, hf1, hf2, hf3⟩ := keyColour_spec env hl "foreground" m.foreground hfg
  obtain ⟨b, hb1, hb2, hb3⟩ := keyColour_spec env hl "background" m.background hbg
  have key : ∀ prev : Highlight,
      highlightSet env { m with highlight := prev } [Value.arr [Value.dict hl]] = some
        { m with highlight :=
          { foreground := f
            background := b
            bold := keySet (hl.lookup "bold")
            italic := keySet (hl.lookup "italic") } } := by
    intro prev
    simp only [highlightSet, List.foldlM_cons, List.foldlM_nil, highlightSetArg, hrev, hf1, hb1]
    rfl
  refine ⟨_, key m.highlight, hf2, hf3, hb2, hb3, keySet_iff hl "bold", keySet_iff hl "italic",
    ?_, rfl, rfl, rfl, rfl⟩
  intro prev
  rw [key prev]
  rfl

/-- The character loop of `put` over a run that fits in the line: every
character lands in its own cell, the cells outside the run keep their content,
and the bookkeeping variables end as the code computes them. -/
theorem putChar_fold (env : Env) (hl : Highlight) (chars : List String) :
    ∀ (st : PutState) (c : Nat), st.col = (c : Int) → c + chars.length ≤ st.line.length →
    ∃ st1, (chars.map Value.str).foldlM (putChar env hl) st = some st1 ∧
      st1.line.length = st.line.length ∧
      st1.col = ((c + chars.length : Nat) : Int) ∧
      st1.numChars = st.numChars + (chars.length : Int) ∧
      (∀ j, j < c ∨ c + chars.length ≤ j → st1.line[j]? = st.line[j]?) ∧
      (∀ i s, chars[i]? = some s → st1.line[c + i]? = some (some (newCell env hl s))) ∧
      st1.lastCell =
        (match chars.getLast? with
          | some s => some (newCell env hl s)
          | none => st.lastCell) ∧
      st1.oldNormalWidth =
        (if chars = [] then st.oldNormalWidth
          else !isWide (st.line[c + chars.length - 1]?.join)) := by
  induction chars with
  | nil =>
    intro st c hc hlen
    refine ⟨st, rfl, rfl, by simp [hc], by simp, fun _ _ => rfl, ?_, rfl, by simp⟩
    intro i s h
    simp at h
  | cons s rest ih =>
    intro st c hc hlen
    simp only [List.length_cons] at hlen
    have hclt : c < st.line.length := by omega
    obtain ⟨cell, hcell⟩ : ∃ cell, st.line[c]? = some cell :=
      ⟨st.line[c], List.getElem?_eq_getElem hclt⟩
    have hstep : putChar env hl st (Value.str s) = some
        { line := st.line.set c (some (newCell env hl s))
          col := (c : Int) + 1
          numChars := st.numChars + 1
          lastCell := some (newCell env hl s)
          oldNormalWidth := !isWide cell } := by
      have hnot : ¬ ((c : Int) ≥ (st.line.length : Int)) := by omega
      simp only [putChar, hc, hnot, if_false, index_natCast, hcell, Int.toNat_ofNat]
    obtain ⟨st1, h1, h2, h3, h4, h5, h6, h7, h8⟩ :=
      ih { line := st.line.set c (some (newCell env hl s))
           col := (c : Int) + 1
           numChars := st.numChars + 1
           lastCell := some (newCell env hl s)
           oldNormalWidth := !isWide cell } (c + 1) (by simp)
        (by simp only [List.length_set]; omega)
    simp only [List.length_set] at h2
    refine ⟨st1, ?_, h2, ?_, ?_, ?_, ?_, ?_, ?_⟩
    · rw [List.map_cons, List.foldlM_cons, hstep]
      exact h1
    · rw [h3]; simp only [List.length_cons]; push_cast; omega
    · rw [h4]; simp only [List.length_cons]; push_cast; omega
    · intro j hj
      simp only [List.length_cons] at hj
      rw [h5 j (by omega), List.getElem?_set_ne (by omega)]
    · intro i s1 hi
      cases i with
      | zero =>
        simp only [List.getElem?_cons_zero, Option.some.injEq] at hi
        subst hi
        rw [Nat.add_zero, h5 c (by omega), List.getElem?_set_self hclt]
      | succ i =>
        simp only [List.getElem?_cons_succ] at hi
        have := h6 i s1 hi
        rw [← this]
        congr 1
        omega
    · rw [h7, List.getLast?_cons]
      cases rest.getLast? <;> rfl
    · rw [h8]
      simp only [List.cons_ne_nil, if_false, List.length_cons]
      by_cases hrest : rest = []
      · subst hrest
        simp [hcell]
      · simp only [hrest, if_false]
        have hne : rest.length ≠ 0 := by
          intro h0
          exact hrest (List.length_eq_zero.mp h0)
        rw [List.getElem?_set_ne (by omega)]
        congr 4
        omega

/-- The outer loop of `put` over well-formed groups is the character loop over
their concatenation. -/
theorem putGroup_fold (env : Env) (hl : Highlight) (groups : List (List String)) :
    ∀ st : PutState, (putArgs groups).foldlM (putGroup env hl) st =
      (groups.flatten.map Value.str).foldlM (putChar env hl) st := by
  induction groups with
  | nil => intro st; rfl
  | cons g rest ih =>
    intro st
    simp only [putArgs, List.map_cons, List.foldlM_cons, putGroup, List.flatten_cons,
      List.map_append, List.foldlM_append]
    cases h : List.foldlM (putChar env hl) st (g.map Value.str) with
    | none => rfl
    | some st1 =>
      have := ih st1
      simp only [putArgs] at this
      simpa using this

/-- The run of `put` on a well-formed grid with at least one column, the cursor
inside the grid and a run that fits in the row: the handler returns, and its
result is described by the state of the loop and the span `putSpan` computes
at the clamped start column `x`. -/
theorem put_run (env : Env) (m : MiniMap) (r c : Nat) (groups : List (List String))
    (hwf : WellFormed m) (hcur : m.cursor = ((r : Int), (c : Int)))
    (hr : (r : Int) < m.rows) (hfit : ((c + groups.flatten.length : Nat) : Int) ≤ m.cols)
    (hpos : 0 < m.cols) :
    ∃ (ln : List (Option Cell)) (st : PutState) (x : Nat),
      m.content[r]? = some ln ∧ (ln.length : Int) = m.cols ∧
      x = (if ln.length ≤ c then ln.length - 1 else c) ∧ x < ln.length ∧
      PutRun env m.highlight ln c groups.flatten st ∧
      put env m (putArgs groups) =
        (putSpan st.line (x : Int) (putWidth st) (!isWide (ln[x]?.join))).map
          (fun span => queueRedraw
            { m with content := m.content.set r st.line, cursor := ((r : Int), st.col) }
            span.1 r span.2 1) := by
  obtain ⟨hrows, hcols⟩ := hwf
  have hrlt : r < m.content.length := by omega
  obtain ⟨ln, hln⟩ : ∃ l, m.content[r]? = some l := ⟨m.content[r], List.getElem?_eq_getElem hrlt⟩
  have hlen : (ln.length : Int) = m.cols := hcols ln (List.getElem?_mem hln)
  have hfit2 : c + groups.flatten.length ≤ ln.length := by omega
  obtain ⟨st, h1, h2, h3, h4, h5, h6, h7, h8⟩ := putChar_fold env m.highlight groups.flatten
    { line := ln, col := (c : Int), numChars := 0, lastCell := none, oldNormalWidth := true }
    c rfl hfit2
  have hx : (if ln.length ≤ c then ln.length - 1 else c) < ln.length := by
    split_ifs <;> omega
  have hxcast : (if (c : Int) ≥ (ln.length : Int) then (ln.length : Int) - 1 else (c : Int)) =
      (((if ln.length ≤ c then ln.length - 1 else c) : Nat) : Int) := by
    split_ifs <;> omega
  obtain ⟨cell, hcell⟩ : ∃ cell, ln[if ln.length ≤ c then ln.length - 1 else c]? = some cell :=
    ⟨ln[if ln.length ≤ c then ln.length - 1 else c], List.getElem?_eq_getElem hx⟩
  refine ⟨ln, st, _, hln, hlen, rfl, hx, ?_, ?_⟩
  · refine ⟨h2, h3, by simpa using h4, h5, h6, ?_, ?_⟩
    · rw [h7]; cases groups.flatten.getLast? <;> rfl
    · rw [h8]
  · have hnot : ¬ ((r : Int) ≥ m.rows) := by omega
    simp only [put, hcur, hnot, if_false, index_natCast, hln, hxcast, hcell, putGroup_fold, h1,
      Int.toNat_ofNat, Option.join, Option.some_bind, id]
    generalize putSpan st.line _ (putWidth st) (!isWide cell) = sp
    cases sp <;> rfl

theorem isNormalWidth_seven_bit (env : Env) (s : String)
    (h : ∀ ch rest, s.data = ch :: rest → ch.toNat ≤ 127) : isNormalWidth env s = true := by
  unfold isNormalWidth
  cases hd : s.data with
  | nil => rfl
  | cons ch rest => simp [h ch rest hd]

theorem isWide_newCell (env : Env) (hl : Highlight) (s : String) :
    isWide (some (newCell env hl s)) = !isNormalWidth env s := rfl

theorem isWide_eq_false (o : Option Cell) (h : ∀ cell, o = some cell → cell.normalWidth = true) :
    isWide o = false := by
  cases o with
  | none => rfl
  | some cell => simp [isWide, h cell rfl]

/-- The span `putSpan` computes is the run itself or the run widened by the
cell before it. -/
theorem putSpan_cases (ln : List (Option Cell)) (x : Nat) (n : Int) (old : Bool)
    (hx : x < ln.length) :
    ∃ span, putSpan ln (x : Int) n old = some span ∧
      (span = ((x : Int), n) ∨ span = ((x : Int) - 1, n + 1)) := by
  unfold putSpan
  by_cases hpos : (x : Int) > 0
  · obtain ⟨y, hy⟩ : ∃ y : Nat, (x : Int) - 1 = (y : Int) ∧ y < ln.length :=
      ⟨x - 1, by omega, by omega⟩
    obtain ⟨cell, hcell⟩ : ∃ cell, ln[y]? = some cell := ⟨ln[y], List.getElem?_eq_getElem hy.2⟩
    simp only [hpos, if_true, hy.1, index_natCast, hcell]
    split_ifs
    · exact ⟨_, rfl, Or.inr rfl⟩
    · exact ⟨_, rfl, Or.inr rfl⟩
    · exact ⟨_, rfl, Or.inl rfl⟩
  · simp only [hpos, if_false]
    exact ⟨_, rfl, Or.inl rfl⟩

/-- With no wide cell before the run and none at its first column, the span is
the run itself. -/
theorem putSpan_plain (ln : List (Option Cell)) (x : Nat) (n : Int) (hx : x < ln.length)
    (hbefore : ∀ y, y + 1 = x → isWide (ln[y]?.join) = false) :
    putSpan ln (x : Int) n true = some ((x : Int), n) := by
  unfold putSpan
  by_cases hpos : (x : Int) > 0
  · obtain ⟨y, hy1, hy2⟩ : ∃ y : Nat, (x : Int) - 1 = (y : Int) ∧ y + 1 = x :=
      ⟨x - 1, by omega, by omega⟩
    have hylt : y < ln.length := by omega
    obtain ⟨cell, hcell⟩ : ∃ cell, ln[y]? = some cell := ⟨ln[y], List.getElem?_eq_getElem hylt⟩
    have hw := hbefore y hy2
    rw [hcell] at hw
    simp only [hpos, if_true, hy1, index_natCast, hcell]
    cases cell with
    | none => simp [← hy1]
    | some b =>
      have hb : b.normalWidth = true := by simpa [isWide, Option.join] using hw
      simp [hb, ← hy1]
  · simp only [hpos, if_false]

theorem queueRedraw_covers (m : MiniMap) (x y w h : Int) :
    (queueRedraw m x y w h).queueRedrawArea.x0 ≤ x ∧
    x + w ≤ (queueRedraw m x y w h).queueRedrawArea.x1 ∧
    (queueRedraw m x y w h).queueRedrawArea.y0 ≤ y ∧
    y + h ≤ (queueRedraw m x y w h).queueRedrawArea.y1 := by
  simp only [queueRedraw]
  refine ⟨?_, ?_, ?_, ?_⟩ <;> split_ifs <;> omega

/-- A `put` of a run that fits in the row, on a grid with at least one column:
the handler returns; each cell of the run holds its character, the current style
and the width class of the character, which is narrow for a character of the
7-bit range; the cursor has advanced by the number of characters; every other
cell is unchanged. -/
theorem put_writes_run (env : Env) (m : MiniMap) (r c : Nat) (groups : List (List String))
    (hwf : WellFormed m) (hcur : m.cursor = ((r : Int), (c : Int)))
    (hr : (r : Int) < m.rows) (hfit : ((c + groups.flatten.length : Nat) : Int) ≤ m.cols)
    (hpos : 0 < m.cols) :
    ∃ m1, put env m (putArgs groups) = some m1 ∧
      (∀ i s, groups.flatten[i]? = some s →
        cellAt m1.content r (c + i) =
          some { char := s, normalWidth := isNormalWidth env s, highlight := m.highlight }) ∧
      (∀ s, (∀ ch rest, s.data = ch :: rest → ch.toNat ≤ 127) → isNormalWidth env s = true) ∧
      m1.cursor = ((r : Int), ((c + groups.flatten.length : Nat) : Int)) ∧
      (∀ r1 c1 : Nat, r1 ≠ r ∨ c1 < c ∨ c + groups.flatten.length ≤ c1 →
        cellAt m1.content r1 c1 = cellAt m.content r1 c1) ∧
      m1.rows = m.rows ∧ m1.cols = m.cols ∧ m1.highlight = m.highlight ∧
      m1.scrollRegion = m.scrollRegion := by
  obtain ⟨ln, st, x, hln, hlen, hx, hxlt, hrun, hput⟩ :=
    put_run env m r c groups hwf hcur hr hfit hpos
  have hrlt : r < m.content.length := by
    by_contra hge
    rw [List.getElem?_eq_none (by omega)] at hln
    exact Option.noConfusion hln
  have hxl : x < st.line.length := by rw [hrun.length_eq]; exact hxlt
  obtain ⟨span, hspan, _⟩ := putSpan_cases st.line x (putWidth st) (!isWide (ln[x]?.join)) hxl
  rw [hspan] at hput
  refine ⟨_, hput, ?_, isNormalWidth_seven_bit env, ?_, ?_, rfl, rfl, rfl, rfl⟩
  · intro i s hi
    simp only [queueRedraw]
    rw [cellAt_set_eq _ _ _ _ hrlt, hrun.written i s hi]
    rfl
  · simp only [queueRedraw, hrun.col_eq]
  · intro r1 c1 h
    simp only [queueRedraw]
    by_cases hr1 : r1 = r
    · subst hr1
      rw [cellAt_set_eq _ _ _ _ hrlt, cellAt_of_getElem? _ _ _ _ hln, hrun.frame c1 (by omega)]
    · rw [cellAt_set_ne _ _ _ _ _ hr1]

/-- C2: starting from the empty damage sentinel, a `put` of `k ≥ 1` narrow
characters at the cursor (r, c), with `r < rows` and `c + k ≤ cols`, where
neither the cell before the run nor any cell of the run held a wide glyph,
leaves the damage rectangle exactly (c, r, c + k, r + 1). -/
theorem put_narrow_damage (env : Env) (m : MiniMap) (r c : Nat) (groups : List (List String))
    (hwf : WellFormed m) (hcur : m.cursor = ((r : Int), (c : Int)))
    (hr : (r : Int) < m.rows) (hfit : ((c + groups.flatten.length : Nat) : Int) ≤ m.cols)
    (hk : 1 ≤ groups.flatten.length)
    (hnarrow : ∀ s ∈ groups.flatten, isNormalWidth env s = true)
    (hclean : ∀ j cell, c ≤ j + 1 → j < c + groups.flatten.length →
      cellAt m.content r j = some cell → cell.normalWidth = true)
    (harea : m.queueRedrawArea = emptyArea m) :
    ∃ m1, put env m (putArgs groups) = some m1 ∧
      m1.queueRedrawArea =
        { x0 := c, y0 := r, x1 := ((c + groups.flatten.length : Nat) : Int), y1 := (r : Int) + 1 } := by
  obtain ⟨ln, st, x, hln, hlen, hx, hxlt, hrun, hput⟩ :=
    put_run env m r c groups hwf hcur hr hfit (by omega)
  have hxc : x = c := by
    rw [hx]; split_ifs with h
    · omega
    · rfl
  rw [hxc] at hput hxlt
  have hnw : ∀ j, c ≤ j + 1 → j < c + groups.flatten.length → isWide (ln[j]?.join) = false := by
    intro j h1 h2
    apply isWide_eq_false
    intro cell hcell
    exact hclean j cell h1 h2 (by rw [cellAt_of_getElem? _ _ _ _ hln]; exact hcell)
  have hne : groups.flatten ≠ [] := by
    intro h; rw [h] at hk; simp at hk
  have hlast : isWide st.lastCell = false := by
    rw [hrun.lastCell_eq]
    cases hl : groups.flatten.getLast? with
    | none => rfl
    | some s =>
      have hmem : s ∈ groups.flatten := List.mem_of_getLast?_eq_some hl
      simp [isWide, newCell, hnarrow s hmem]
  have hold : st.oldNormalWidth = true := by
    rw [hrun.old_eq]
    simp only [hne, if_false]
    rw [hnw _ (by omega) (by omega)]
    rfl
  have hwidth : putWidth st = (groups.flatten.length : Int) := by
    simp [putWidth, hlast, hold, hrun.numChars_eq]
  have hspan : putSpan st.line (c : Int) (putWidth st) (!isWide (ln[c]?.join)) =
      some ((c : Int), (groups.flatten.length : Int)) := by
    rw [hnw c (by omega) (by omega), hwidth]
    apply putSpan_plain st.line c _ (by rw [hrun.length_eq]; exact hxlt)
    intro y hy
    rw [hrun.frame y (by omega)]
    exact hnw y (by omega) (by omega)
  rw [hspan] at hput
  refine ⟨_, hput, ?_⟩
  simp only [queueRedraw, harea, emptyArea, Area.mk.injEq]
  refine ⟨?_, ?_, ?_, ?_⟩ <;> split_ifs <;> first | rfl | (push_cast; omega)

/-- C3: a `put` of a single wide character at the cursor (r, c), with `r < rows`
and `c < cols`, writes the character into its cell and leaves a damage rectangle
that contains the columns `c` and `c + 1` of row `r`. -/
theorem put_wide_damage (env : Env) (m : MiniMap) (r c : Nat) (s : String)
    (hwf : WellFormed m) (hcur : m.cursor = ((r : Int), (c : Int)))
    (hr : (r : Int) < m.rows) (hc : (c : Int) < m.cols)
    (hwide : isNormalWidth env s = false) :
    ∃ m1, put env m (putArgs [[s]]) = some m1 ∧
      cellAt m1.content r c = some { char := s, normalWidth := false, highlight := m.highlight } ∧
      m1.queueRedrawArea.x0 ≤ (c : Int) ∧ (c : Int) + 1 < m1.queueRedrawArea.x1 ∧
      m1.queueRedrawArea.y0 ≤ (r : Int) ∧ (r : Int) < m1.queueRedrawArea.y1 := by
  have hfit : ((c + [[s]].flatten.length : Nat) : Int) ≤ m.cols := by
    simp only [List.flatten_cons, List.flatten_nil, List.append_nil, List.length_singleton]
    push_cast; omega
  obtain ⟨ln, st, x, hln, hlen, hx, hxlt, hrun, hput⟩ :=
    put_run env m r c [[s]] hwf hcur hr hfit (by omega)
  have hxc : x = c := by
    rw [hx]; split_ifs with h
    · omega
    · rfl
  rw [hxc] at hput hxlt
  have hrlt : r < m.content.length := by
    by_contra hge
    rw [List.getElem?_eq_none (by omega)] at hln
    exact Option.noConfusion hln
  have hflat : [[s]].flatten = [s] := rfl
  rw [hflat] at hrun
  have hlast : isWide st.lastCell = true := by
    rw [hrun.lastCell_eq]
    simp [isWide, newCell, hwide]
  have hwidth : 2 ≤ putWidth st := by
    have hn := hrun.numChars_eq
    simp only [List.length_singleton, Nat.cast_one] at hn
    simp only [putWidth, hlast, if_true, hn]
    split_ifs <;> omega
  obtain ⟨span, hspan, hcases⟩ :=
    putSpan_cases st.line c (putWidth st) (!isWide (ln[c]?.join))
      (by rw [hrun.length_eq]; exact hxlt)
  rw [hspan] at hput
  refine ⟨_, hput, ?_, ?_⟩
  · simp only [queueRedraw]
    rw [cellAt_set_eq _ _ _ _ hrlt]
    have := hrun.written 0 s rfl
    rw [Nat.add_zero] at this
    rw [this]
    simp [newCell, hwide]
  · obtain ⟨h1, h2, h3, h4⟩ := queueRedraw_covers
      { m with content := m.content.set r st.line, cursor := ((r : Int), st.col) }
      span.1 r span.2 1
    rcases hcases with h | h <;> rw [h] at h1 h2 h3 h4 ⊢ <;> simp only at h1 h2 h3 h4 ⊢ <;>
      refine ⟨?_, ?_, ?_, ?_⟩ <;> omega

theorem getCell_natCast (g : Grid) (r c : Nat) :
    getCell g (r : Int) (c : Int) = (g[r]?).bind (fun l => l[c]?) := by
  unfold getCell
  rw [index_natCast]
  cases g[r]? with
  | none => rfl
  | some l => simp [index_natCast]

theorem getCell_isSome (g : Grid) (R C r c : Nat) (hdim : Dim g R C) (hr : r < R) (hc : c < C) :
    ∃ v, getCell g (r : Int) (c : Int) = some v := by
  obtain ⟨h1, h2⟩ := hdim
  have hrl : r < g.length := by omega
  have hcl : c < (g[r]).length := by rw [h2 _ (List.getElem_mem hrl)]; exact hc
  refine ⟨(g[r])[c], ?_⟩
  rw [getCell_natCast, List.getElem?_eq_getElem hrl, Option.some_bind,
    List.getElem?_eq_getElem hcl]

theorem cellAt_eq_getCell (g : Grid) (r c : Nat) :
    cellAt g r c = (getCell g (r : Int) (c : Int)).join := by
  rw [getCell_natCast]
  unfold cellAt
  cases g[r]? <;> rfl

/-- The assignment `content[d][c] = v` inside the buffer changes that position
alone and keeps the dimensions. -/
theorem setCell_spec (g : Grid) (R C d c : Nat) (v : Option Cell) (hdim : Dim g R C)
    (hd : d < R) (hc : c < C) :
    ∃ g1, setCell g (d : Int) (c : Int) v = some g1 ∧ Dim g1 R C ∧
      ∀ r1 c1 : Nat, getCell g1 (r1 : Int) (c1 : Int) =
        if r1 = d ∧ c1 = c then some v else getCell g (r1 : Int) (c1 : Int) := by
  obtain ⟨h1, h2⟩ := hdim
  have hdl : d < g.length := by omega
  obtain ⟨l, hl⟩ : ∃ l, g[d]? = some l := ⟨g[d], List.getElem?_eq_getElem hdl⟩
  have hlen : l.length = C := h2 l (List.getElem?_mem hl)
  have hcond : (0 : Int) ≤ (c : Int) ∧ (c : Int) < (l.length : Int) := by omega
  refine ⟨g.set d (l.set c v), ?_, ⟨?_, ?_⟩, ?_⟩
  · simp only [setCell, index_natCast, hl, hcond, and_self, if_true, Int.toNat_ofNat]
  · rw [List.length_set]; exact h1
  · intro l1 hl1
    rcases List.mem_or_eq_of_mem_set hl1 with h | h
    · exact h2 l1 h
    · rw [h, List.length_set]; exact hlen
  · intro r1 c1
    rw [getCell_natCast, getCell_natCast]
    by_cases hr1 : r1 = d
    · subst hr1
      rw [List.getElem?_set_self hdl, hl]
      simp only [Option.some_bind, true_and]
      by_cases hc1 : c1 = c
      · subst hc1
        rw [List.getElem?_set_self (by omega)]
        simp
      · rw [List.getElem?_set_ne (Ne.symm hc1)]
        simp [hc1]
    · rw [List.getElem?_set_ne (Ne.symm hr1)]
      simp [hr1]

theorem forEach_cons_running (x : Int) (rest : List Int) (body : Grid → Int → Flow)
    (g g1 : Grid) (h : body g x = Flow.running g1) :
    forEach (x :: rest) body g = forEach rest body g1 := by
  rw [forEach, h]

/-- An ascending loop whose iteration `i` rewrites the positions with key `i`
inside a fixed band, with a value that later iterations do not disturb, rewrites
every position of the band whose key lies in the range of the loop. -/
theorem forEach_upTo_spec (R C : Nat) (body : Grid → Int → Flow) (key : Nat → Nat → Nat)
    (inside : Nat → Nat → Prop) [∀ r c, Decidable (inside r c)]
    (val : Grid → Nat → Nat → Option Cell) (lo0 : Nat) (hi : Int)
    (hstep : ∀ (g : Grid) (i : Nat), lo0 ≤ i → (i : Int) ≤ hi → Dim g R C →
      ∃ g1, body g (i : Int) = Flow.running g1 ∧ Dim g1 R C ∧
        ∀ r c : Nat, getCell g1 (r : Int) (c : Int) =
          if key r c = i ∧ inside r c then some (val g r c) else getCell g (r : Int) (c : Int))
    (hstable : ∀ (g g1 : Grid) (i : Nat),
      (∀ r c : Nat, ¬ (key r c = i ∧ inside r c) →
        getCell g1 (r : Int) (c : Int) = getCell g (r : Int) (c : Int)) →
      ∀ r c : Nat, i < key r c → inside r c → val g1 r c = val g r c) :
    ∀ (k lo : Nat) (g : Grid), lo0 ≤ lo → (lo : Int) + (k : Int) = hi + 1 → Dim g R C →
      ∃ g1, forEach (upTo (lo : Int) hi) body g = Flow.running g1 ∧ Dim g1 R C ∧
        ∀ r c : Nat, getCell g1 (r : Int) (c : Int) =
          if (lo ≤ key r c ∧ (key r c : Int) ≤ hi) ∧ inside r c then some (val g r c)
          else getCell g (r : Int) (c : Int) := by
  intro k
  induction k with
  | zero =>
    intro lo g _ hk hdim
    refine ⟨g, ?_, hdim, ?_⟩
    · rw [upTo_nil _ _ (by omega)]; rfl
    · intro r c
      have : ¬ ((lo ≤ key r c ∧ (key r c : Int) ≤ hi) ∧ inside r c) := by
        intro h; omega
      rw [if_neg this]
  | succ k ih =>
    intro lo g hlo hk hdim
    obtain ⟨g1, hb, hdim1, hspec1⟩ := hstep g lo hlo (by omega) hdim
    obtain ⟨g2, hf, hdim2, hspec2⟩ := ih (lo + 1) g1 (by omega) (by push_cast; omega) hdim1
    refine ⟨g2, ?_, hdim2, ?_⟩
    · rw [upTo_cons _ _ (by omega), forEach_cons_running _ _ _ _ _ hb]
      have hcast : ((lo + 1 : Nat) : Int) = (lo : Int) + 1 := by push_cast; rfl
      rw [← hcast]
      exact hf
    · intro r c
      rw [hspec2 r c]
      by_cases hin : inside r c
      · by_cases h1 : lo + 1 ≤ key r c ∧ (key r c : Int) ≤ hi
        · have hst : val g1 r c = val g r c := by
            apply hstable g g1 lo _ r c (by omega) hin
            intro r1 c1 hn
            rw [hspec1 r1 c1, if_neg hn]
          rw [if_pos ⟨h1, hin⟩, if_pos ⟨⟨by omega, h1.2⟩, hin⟩, hst]
        · rw [if_neg (fun h => h1 h.1), hspec1 r c]
          by_cases h2 : key r c = lo
          · rw [if_pos ⟨h2, hin⟩, if_pos ⟨⟨by omega, by omega⟩, hin⟩]
          · rw [if_neg (fun h => h2 h.1), if_neg]
            intro h
            apply h1
            exact ⟨by omega, h.1.2⟩
      · rw [if_neg (fun h => hin h.2), if_neg (fun h => hin h.2), hspec1 r c,
          if_neg (fun h => hin h.2)]

/-- The descending counterpart of `forEach_upTo_spec`: the value of a position
must not be disturbed by the iterations with a larger key. -/
theorem forEach_downTo_spec (R C : Nat) (body : Grid → Int → Flow) (key : Nat → Nat → Nat)
    (inside : Nat → Nat → Prop) [∀ r c, Decidable (inside r c)]
    (val : Grid → Nat → Nat → Option Cell) (lo : Nat) (hi0 : Int)
    (hstep : ∀ (g : Grid) (i : Nat), lo ≤ i → (i : Int) ≤ hi0 → Dim g R C →
      ∃ g1, body g (i : Int) = Flow.running g1 ∧ Dim g1 R C ∧
        ∀ r c : Nat, getCell g1 (r : Int) (c : Int) =
          if key r c = i ∧ inside r c then some (val g r c) else getCell g (r : Int) (c : Int))
    (hstable : ∀ (g g1 : Grid) (i : Nat),
      (∀ r c : Nat, ¬ (key r c = i ∧ inside r c) →
        getCell g1 (r : Int) (c : Int) = getCell g (r : Int) (c : Int)) →
      ∀ r c : Nat, key r c < i → inside r c → val g1 r c = val g r c) :
    ∀ (k : Nat) (hi : Int) (g : Grid), hi ≤ hi0 → (lo : Int) + (k : Int) = hi + 1 → Dim g R C →
      ∃ g1, forEach (downTo hi (lo : Int)) body g = Flow.running g1 ∧ Dim g1 R C ∧
        ∀ r c : Nat, getCell g1 (r : Int) (c : Int) =
          if (lo ≤ key r c ∧ (key r c : Int) ≤ hi) ∧ inside r c then some (val g r c)
          else getCell g (r : Int) (c : Int) := by
  intro k
  induction k with
  | zero =>
    intro hi g _ hk hdim
    refine ⟨g, ?_, hdim, ?_⟩
    · rw [downTo_nil _ _ (by omega)]; rfl
    · intro r c
      have : ¬ ((lo ≤ key r c ∧ (key r c : Int) ≤ hi) ∧ inside r c) := by
        intro h; omega
      rw [if_neg this]
  | succ k ih =>
    intro hi g hhi hk hdim
    obtain ⟨h, hh⟩ : ∃ h : Nat, (h : Int) = hi := ⟨hi.toNat, by omega⟩
    obtain ⟨g1, hb, hdim1, hspec1⟩ := hstep g h (by omega) (by omega) hdim
    obtain ⟨g2, hf, hdim2, hspec2⟩ := ih (hi - 1) g1 (by omega) (by omega) hdim1
    refine ⟨g2, ?_, hdim2, ?_⟩
    · rw [downTo_cons _ _ (by omega), ← hh, forEach_cons_running _ _ _ _ _ hb, hh]
      exact hf
    · intro r c
      rw [hspec2 r c]
      by_cases hin : inside r c
      · by_cases h1 : lo ≤ key r c ∧ (key r c : Int) ≤ hi - 1
        · have hst : val g1 r c = val g r c := by
            apply hstable g g1 h _ r c (by omega) hin
            intro r1 c1 hn
            rw [hspec1 r1 c1, if_neg hn]
          rw [if_pos ⟨h1, hin⟩, if_pos ⟨⟨h1.1, by omega⟩, hin⟩, hst]
        · rw [if_neg (fun h => h1 h.1), hspec1 r c]
          by_cases h2 : key r c = h
          · rw [if_pos ⟨h2, hin⟩, if_pos ⟨⟨by omega, by omega⟩, hin⟩]
          · rw [if_neg (fun h => h2 h.1), if_neg]
            intro h3
            apply h1
            exact ⟨h3.1.1, by omega⟩
      · rw [if_neg (fun h => hin h.2), if_neg (fun h => hin h.2), hspec1 r c,
          if_neg (fun h => hin h.2)]

theorem getCell_neg_row (g : Grid) (r c : Int) (h : r < 0) : getCell g r c = none := by
  have : ¬ (0 ≤ r) := by omega
  simp [getCell, index, this]

/-- The value moved into a position does not change when the buffer changes in
another row only. -/
theorem shifted_stable (n : Int) (g g1 : Grid) (P : Nat → Nat → Prop)
    (hsame : ∀ r c : Nat, ¬ P r c →
      getCell g1 (r : Int) (c : Int) = getCell g (r : Int) (c : Int))
    (r c : Nat) (hP : ∀ s : Nat, (s : Int) = (r : Int) + n → ¬ P s c) :
    shifted n g1 r c = shifted n g r c := by
  unfold shifted
  by_cases hneg : (r : Int) + n < 0
  · rw [getCell_neg_row _ _ _ hneg, getCell_neg_row _ _ _ hneg]
  · obtain ⟨s, hs⟩ : ∃ s : Nat, (s : Int) = (r : Int) + n := ⟨((r : Int) + n).toNat, by omega⟩
    rw [← hs, hsame s c (hP s hs)]

/-- The inner loop of the upward copy for one row `d` whose source row `d + n`
is inside the buffer. -/
theorem copyUp_row (R C : Nat) (n : Int) (d : Nat) (left : Nat) (right : Int)
    (hd : d < R) (hn : n ≠ 0) (hs0 : 0 ≤ (d : Int) + n) (hs : (d : Int) + n < R)
    (hright : right < C) (g : Grid) (hdim : Dim g R C) :
    ∃ g1, forEach (upTo (left : Int) right) (copyUpCell n (d : Int)) g = Flow.running g1 ∧
      Dim g1 R C ∧
      ∀ r c : Nat, getCell g1 (r : Int) (c : Int) =
        if r = d ∧ (left ≤ c ∧ (c : Int) ≤ right) then some (shifted n g r c)
        else getCell g (r : Int) (c : Int) := by
  obtain ⟨s, hsn⟩ : ∃ s : Nat, (s : Int) = (d : Int) + n := ⟨((d : Int) + n).toNat, by omega⟩
  obtain ⟨k, hk⟩ : ∃ k : Nat, (left : Int) + (k : Int) = right + 1 ∨ right + 1 < left := by
    by_cases h : right + 1 < (left : Int)
    · exact ⟨0, Or.inr h⟩
    · exact ⟨(right + 1 - left).toNat, Or.inl (by omega)⟩
  rcases hk with hk | hk
  · obtain ⟨g1, h1, h2, h3⟩ := forEach_upTo_spec R C (copyUpCell n (d : Int)) (fun _ c => c)
      (fun r _ => r = d) (shifted n) 0 right
      (by
        intro g0 i _ hi hdim0
        obtain ⟨v, hv⟩ := getCell_isSome g0 R C s i hdim0 (by omega) (by omega)
        obtain ⟨g1, hset, hdim1, hspec⟩ := setCell_spec g0 R C d i v hdim0 hd (by omega)
        refine ⟨g1, ?_, hdim1, ?_⟩
        · have hc1 : ¬ (g0.length ≤ s) := by
            rw [hdim0.1]; omega
          have hc2 : ∀ x ∈ g0, i < x.length := by
            intro x hx
            rw [hdim0.2 x hx]; omega
          simp [copyUpCell, ← hsn, hc1, hv, hset]
          exact hc2
        · intro r c
          rw [hspec r c]
          by_cases hrc : r = d ∧ c = i
          · obtain ⟨h1, h2⟩ := hrc
            subst h1; subst h2
            simp [shifted, ← hsn, hv]
          · rw [if_neg hrc, if_neg (fun h => hrc ⟨h.2, h.1⟩)])
      (by
        intro g0 g1 i hsame r c hlt hin
        apply shifted_stable n g0 g1 _ hsame
        intro s1 hs1 hP
        omega)
      k left g (Nat.zero_le _) hk hdim
    refine ⟨g1, h1, h2, ?_⟩
    intro r c
    rw [h3 r c]
    by_cases hcond : r = d ∧ (left ≤ c ∧ (c : Int) ≤ right)
    · rw [if_pos hcond, if_pos ⟨hcond.2, hcond.1⟩]
    · rw [if_neg hcond, if_neg (fun h => hcond ⟨h.2, h.1⟩)]
  · refine ⟨g, ?_, hdim, ?_⟩
    · rw [upTo_nil _ _ (by omega)]; rfl
    · intro r c
      rw [if_neg]
      intro h; omega

/-- The inner loop of the downward copy for one row `d` whose source row `d + n`
is inside the buffer. -/
theorem copyDown_row (R C : Nat) (n : Int) (d : Nat) (left : Nat) (right : Int)
    (hd : d < R) (hn : n ≠ 0) (hs0 : 0 ≤ (d : Int) + n) (hs : (d : Int) + n < R)
    (hright : right < C) (g : Grid) (hdim : Dim g R C) :
    ∃ g1, forEach (upTo (left : Int) right) (copyDownCell n (d : Int)) g = Flow.running g1 ∧
      Dim g1 R C ∧
      ∀ r c : Nat, getCell g1 (r : Int) (c : Int) =
        if r = d ∧ (left ≤ c ∧ (c : Int) ≤ right) then some (shifted n g r c)
        else getCell g (r : Int) (c : Int) := by
  obtain ⟨s, hsn⟩ : ∃ s : Nat, (s : Int) = (d : Int) + n := ⟨((d : Int) + n).toNat, by omega⟩
  obtain ⟨k, hk⟩ : ∃ k : Nat, (left : Int) + (k : Int) = right + 1 ∨ right + 1 < left := by
    by_cases h : right + 1 < (left : Int)
    · exact ⟨0, Or.inr h⟩
    · exact ⟨(right + 1 - left).toNat, Or.inl (by omega)⟩
  rcases hk with hk | hk
  · obtain ⟨g1, h1, h2, h3⟩ := forEach_upTo_spec R C (copyDownCell n (d : Int)) (fun _ c => c)
      (fun r _ => r = d) (shifted n) 0 right
      (by
        intro g0 i _ hi hdim0
        obtain ⟨v, hv⟩ := getCell_isSome g0 R C s i hdim0 (by omega) (by omega)
        obtain ⟨g1, hset, hdim1, hspec⟩ := setCell_spec g0 R C d i v hdim0 hd (by omega)
        refine ⟨g1, ?_, hdim1, ?_⟩
        · simp [copyDownCell, ← hsn, hv, hset]
        · intro r c
          rw [hspec r c]
          by_cases hrc : r = d ∧ c = i
          · obtain ⟨h1, h2⟩ := hrc
            subst h1; subst h2
            simp [shifted, ← hsn, hv]
          · rw [if_neg hrc, if_neg (fun h => hrc ⟨h.2, h.1⟩)])
      (by
        intro g0 g1 i hsame r c hlt hin
        apply shifted_stable n g0 g1 _ hsame
        intro s1 hs1 hP
        omega)
      k left g (Nat.zero_le _) hk hdim
    refine ⟨g1, h1, h2, ?_⟩
    intro r c
    rw [h3 r c]
    by_cases hcond : r = d ∧ (left ≤ c ∧ (c : Int) ≤ right)
    · rw [if_pos hcond, if_pos ⟨hcond.2, hcond.1⟩]
    · rw [if_neg hcond, if_neg (fun h => hcond ⟨h.2, h.1⟩)]
  · refine ⟨g, ?_, hdim, ?_⟩
    · rw [upTo_nil _ _ (by omega)]; rfl
    · intro r c
      rw [if_neg]
      intro h; omega

/-- The inner loop that empties the columns `left..right` of one row `d`. -/
theorem clear_row (R C : Nat) (d : Nat) (left : Nat) (right : Int)
    (hd : d < R) (hright : right < C) (g : Grid) (hdim : Dim g R C) :
    ∃ g1, forEach (upTo (left : Int) right) (clearCell (d : Int)) g = Flow.running g1 ∧
      Dim g1 R C ∧
      ∀ r c : Nat, getCell g1 (r : Int) (c : Int) =
        if r = d ∧ (left ≤ c ∧ (c : Int) ≤ right) then some none
        else getCell g (r : Int) (c : Int) := by
  obtain ⟨k, hk⟩ : ∃ k : Nat, (left : Int) + (k : Int) = right + 1 ∨ right + 1 < left := by
    by_cases h : right + 1 < (left : Int)
    · exact ⟨0, Or.inr h⟩
    · exact ⟨(right + 1 - left).toNat, Or.inl (by omega)⟩
  rcases hk with hk | hk
  · obtain ⟨g1, h1, h2, h3⟩ := forEach_upTo_spec R C (clearCell (d : Int)) (fun _ c => c)
      (fun r _ => r = d) (fun _ _ _ => none) 0 right
      (by
        intro g0 i _ hi hdim0
        obtain ⟨g1, hset, hdim1, hspec⟩ := setCell_spec g0 R C d i none hdim0 hd (by omega)
        refine ⟨g1, ?_, hdim1, ?_⟩
        · simp [clearCell, hset]
        · intro r c
          rw [hspec r c]
          by_cases hrc : r = d ∧ c = i
          · rw [if_pos hrc, if_pos ⟨hrc.2, hrc.1⟩]
          · rw [if_neg hrc, if_neg (fun h => hrc ⟨h.2, h.1⟩)])
      (by intros; rfl)
      k left g (Nat.zero_le _) hk hdim
    refine ⟨g1, h1, h2, ?_⟩
    intro r c
    rw [h3 r c]
    by_cases hcond : r = d ∧ (left ≤ c ∧ (c : Int) ≤ right)
    · rw [if_pos hcond, if_pos ⟨hcond.2, hcond.1⟩]
    · rw [if_neg hcond, if_neg (fun h => hcond ⟨h.2, h.1⟩)]
  · refine ⟨g, ?_, hdim, ?_⟩
    · rw [upTo_nil _ _ (by omega)]; rfl
    · intro r c
      rw [if_neg]
      intro h; omega

/-- The two loops of `scroll` for a positive count `n` over a region inside the
buffer: the rows `top..bot-n` take the content found `n` rows below, the rows
`bot-n+1..bot` are emptied, both within the columns `left..right`; every other
position keeps its content. -/
theorem scrollUp_loops (R C : Nat) (n : Int) (top left : Nat) (bot right : Int)
    (hn : 0 < n) (hbot : bot < R) (hright : right < C) (hfit : (top : Int) ≤ bot - n + 1)
    (g : Grid) (hdim : Dim g R C) :
    ∃ g1 g2,
      forEach (upTo (top : Int) (bot - n))
        (fun g row => forEach (upTo (left : Int) right) (copyUpCell n row) g) g
        = Flow.running g1 ∧
      forEach (upTo (bot - n + 1) bot)
        (fun g row => forEach (upTo (left : Int) right) (clearCell row) g) g1
        = Flow.running g2 ∧
      Dim g2 R C ∧
      ∀ r c : Nat, getCell g2 (r : Int) (c : Int) =
        if (top ≤ r ∧ (r : Int) ≤ bot) ∧ (left ≤ c ∧ (c : Int) ≤ right) then
          (if (r : Int) ≤ bot - n then some (shifted n g r c) else some none)
        else getCell g (r : Int) (c : Int) := by
  obtain ⟨k, hk⟩ : ∃ k : Nat, (top : Int) + (k : Int) = bot - n + 1 :=
    ⟨(bot - n + 1 - top).toNat, by omega⟩
  obtain ⟨g1, h1, hdim1, hspec1⟩ := forEach_upTo_spec R C
    (fun g row => forEach (upTo (left : Int) right) (copyUpCell n row) g) (fun r _ => r)
    (fun _ c => left ≤ c ∧ (c : Int) ≤ right) (shifted n) top (bot - n)
    (by
      intro g0 i _ hi hdim0
      exact copyUp_row R C n i left right (by omega) (by omega) (by omega) (by omega)
        hright g0 hdim0)
    (by
      intro g0 g1 i hsame r c hlt hin
      apply shifted_stable n g0 g1 _ hsame
      intro s1 hs1 hP
      dsimp only at hlt hP
      omega)
    k top g (Nat.le_refl _) hk hdim
  obtain ⟨lo, hlo⟩ : ∃ lo : Nat, (lo : Int) = bot - n + 1 := ⟨(bot - n + 1).toNat, by omega⟩
  obtain ⟨k2, hk2⟩ : ∃ k2 : Nat, (lo : Int) + (k2 : Int) = bot + 1 := ⟨n.toNat, by omega⟩
  obtain ⟨g2, h2, hdim2, hspec2⟩ := forEach_upTo_spec R C
    (fun g row => forEach (upTo (left : Int) right) (clearCell row) g) (fun r _ => r)
    (fun _ c => left ≤ c ∧ (c : Int) ≤ right) (fun _ _ _ => none) lo bot
    (by
      intro g0 i _ hi hdim0
      exact clear_row R C i left right (by omega) hright g0 hdim0)
    (by intros; rfl)
    k2 lo g1 (Nat.le_refl _) hk2 hdim1
  rw [hlo] at h2
  refine ⟨g1, g2, h1, h2, hdim2, ?_⟩
  intro r c
  rw [hspec2 r c, hspec1 r c]
  by_cases hc : left ≤ c ∧ (c : Int) ≤ right
  · by_cases hr1 : (top ≤ r ∧ (r : Int) ≤ bot - n)
    · rw [if_neg (by intro h; omega), if_pos ⟨hr1, hc⟩, if_pos ⟨⟨hr1.1, by omega⟩, hc⟩,
        if_pos hr1.2]
    · by_cases hr2 : (lo ≤ r ∧ (r : Int) ≤ bot)
      · rw [if_pos ⟨hr2, hc⟩, if_pos ⟨⟨by omega, hr2.2⟩, hc⟩, if_neg (by omega)]
      · rw [if_neg (fun h => hr2 h.1), if_neg (fun h => hr1 h.1), if_neg]
        intro h
        omega
  · rw [if_neg (fun h => hc h.2), if_neg (fun h => hc h.2), if_neg (fun h => hc h.2)]

/-- The two loops of `scroll` for a negative count `n` over a region inside the
buffer: the rows `top-n..bot` take the content found `|n|` rows above, the rows
`top..top-n-1` are emptied, both within the columns `left..right`; every other
position keeps its content. -/
theorem scrollDown_loops (R C : Nat) (n : Int) (top left : Nat) (bot right : Int)
    (hn : n < 0) (hbot : bot < R) (hright : right < C) (hfit : (top : Int) - n ≤ bot + 1)
    (g : Grid) (hdim : Dim g R C) :
    ∃ g1 g2,
      forEach (downTo bot ((top : Int) - n))
        (fun g row => forEach (upTo (left : Int) right) (copyDownCell n row) g) g
        = Flow.running g1 ∧
      forEach (upTo (top : Int) ((top : Int) - n - 1))
        (fun g row => forEach (upTo (left : Int) right) (clearCell row) g) g1
        = Flow.running g2 ∧
      Dim g2 R C ∧
      ∀ r c : Nat, getCell g2 (r : Int) (c : Int) =
        if (top ≤ r ∧ (r : Int) ≤ bot) ∧ (left ≤ c ∧ (c : Int) ≤ right) then
          (if (top : Int) - n ≤ (r : Int) then some (shifted n g r c) else some none)
        else getCell g (r : Int) (c : Int) := by
  obtain ⟨lo, hlo⟩ : ∃ lo : Nat, (lo : Int) = (top : Int) - n := ⟨((top : Int) - n).toNat, by omega⟩
  obtain ⟨k, hk⟩ : ∃ k : Nat, (lo : Int) + (k : Int) = bot + 1 :=
    ⟨(bot + 1 - lo).toNat, by omega⟩
  obtain ⟨g1, h1, hdim1, hspec1⟩ := forEach_downTo_spec R C
    (fun g row => forEach (upTo (left : Int) right) (copyDownCell n row) g) (fun r _ => r)
    (fun _ c => left ≤ c ∧ (c : Int) ≤ right) (shifted n) lo bot
    (by
      intro g0 i hi1 hi2 hdim0
      exact copyDown_row R C n i left right (by omega) (by omega) (by omega) (by omega)
        hright g0 hdim0)
    (by
      intro g0 g1 i hsame r c hlt hin
      apply shifted_stable n g0 g1 _ hsame
      intro s1 hs1 hP
      dsimp only at hlt hP
      omega)
    k bot g (le_refl _) hk hdim
  rw [hlo] at h1
  obtain ⟨k2, hk2⟩ : ∃ k2 : Nat, (top : Int) + (k2 : Int) = ((top : Int) - n - 1) + 1 :=
    ⟨(-n).toNat, by omega⟩
  obtain ⟨g2, h2, hdim2, hspec2⟩ := forEach_upTo_spec R C
    (fun g row => forEach (upTo (left : Int) right) (clearCell row) g) (fun r _ => r)
    (fun _ c => left ≤ c ∧ (c : Int) ≤ right) (fun _ _ _ => none) top ((top : Int) - n - 1)
    (by
      intro g0 i _ hi hdim0
      exact clear_row R C i left right (by omega) hright g0 hdim0)
    (by intros; rfl)
    k2 top g1 (Nat.le_refl _) hk2 hdim1
  refine ⟨g1, g2, h1, h2, hdim2, ?_⟩
  intro r c
  rw [hspec2 r c, hspec1 r c]
  by_cases hc : left ≤ c ∧ (c : Int) ≤ right
  · by_cases hr1 : (lo ≤ r ∧ (r : Int) ≤ bot)
    · rw [if_neg (by intro h; omega), if_pos ⟨hr1, hc⟩, if_pos ⟨⟨by omega, hr1.2⟩, hc⟩,
        if_pos (by omega)]
    · by_cases hr2 : (top ≤ r ∧ (r : Int) ≤ (top : Int) - n - 1)
      · rw [if_pos ⟨hr2, hc⟩, if_pos ⟨⟨hr2.1, by omega⟩, hc⟩, if_neg (by omega)]
      · rw [if_neg (fun h => hr2 h.1), if_neg (fun h => hr1 h.1), if_neg]
        intro h
        omega
  · rw [if_neg (fun h => hc h.2), if_neg (fun h => hc h.2), if_neg (fun h => hc h.2)]

theorem dim_of_wellFormed (m : MiniMap) (hwf : WellFormed m) :
    Dim m.content m.rows.toNat m.cols.toNat ∧ 0 ≤ m.rows ∧ (m.content ≠ [] → 0 ≤ m.cols) := by
  obtain ⟨h1, h2⟩ := hwf
  refine ⟨⟨by omega, ?_⟩, by omega, ?_⟩
  · intro l hl
    have := h2 l hl
    omega
  · intro hne
    obtain ⟨l, hl⟩ := List.exists_mem_of_ne_nil _ hne
    have := h2 l hl
    omega

theorem queueRedraw_content (m : MiniMap) (x y w h : Int) :
    (queueRedraw m x y w h).content = m.content := rfl

/-- The result of `scrollBy` for a positive count over a region inside the
buffer, in terms of the buffer the two loops leave. -/
theorem scrollBy_up (m : MiniMap) (R C : Nat) (n : Int) (top left : Nat) (bot right : Int)
    (hdim : Dim m.content R C) (hn : 0 < n) (hbot : bot < R) (hright : right < C)
    (hfit : (top : Int) ≤ bot - n + 1) :
    ∃ g2 m1, scrollBy m n { top := top, bot := bot, left := left, right := right } = some m1 ∧
      m1.content = g2 ∧ Dim g2 R C ∧
      (∀ r c : Nat, getCell g2 (r : Int) (c : Int) =
        if (top ≤ r ∧ (r : Int) ≤ bot) ∧ (left ≤ c ∧ (c : Int) ≤ right) then
          (if (r : Int) ≤ bot - n then some (shifted n m.content r c) else some none)
        else getCell m.content (r : Int) (c : Int)) ∧
      m1.queueRedrawArea =
        (if (top : Int) > 0 then
          (queueRedraw (queueRedraw (queueRedraw m left top (right - left + 1) (bot - top + 1))
            left (bot - n + 1) (right - left) n) left (top - n) (right - left) n).queueRedrawArea
         else
          (queueRedraw (queueRedraw m left top (right - left + 1) (bot - top + 1))
            left (bot - n + 1) (right - left) n).queueRedrawArea) ∧
      m1.cursor = m.cursor ∧ m1.highlight = m.highlight ∧ m1.scrollRegion = m.scrollRegion ∧
      m1.rows = m.rows ∧ m1.cols = m.cols := by
  obtain ⟨g1, g2, h1, h2, hdim2, hspec⟩ :=
    scrollUp_loops R C n top left bot right hn hbot hright hfit m.content hdim
  have hgt : n > 0 := hn
  by_cases htop : (top : Int) > 0
  · have hs : scrollBy m n { top := top, bot := bot, left := left, right := right } = some
        (queueRedraw (queueRedraw
          { queueRedraw m left top (right - left + 1) (bot - top + 1) with content := g2 }
          left (bot - n + 1) (right - left) n) left (top - n) (right - left) n) := by
      simp only [scrollBy, hgt, if_true, queueRedraw_content, h1, h2, htop]
    refine ⟨g2, _, hs, rfl, hdim2, hspec, ?_, rfl, rfl, rfl, rfl, rfl⟩
    rw [if_pos htop]
    rfl
  · have hs : scrollBy m n { top := top, bot := bot, left := left, right := right } = some
        (queueRedraw
          { queueRedraw m left top (right - left + 1) (bot - top + 1) with content := g2 }
          left (bot - n + 1) (right - left) n) := by
      simp only [scrollBy, hgt, if_true, queueRedraw_content, h1, h2, htop, if_false]
    refine ⟨g2, _, hs, rfl, hdim2, hspec, ?_, rfl, rfl, rfl, rfl, rfl⟩
    rw [if_neg htop]
    rfl

/-- The result of `scrollBy` for a negative count over a region inside the
buffer, in terms of the buffer the two loops leave. -/
theorem scrollBy_down (m : MiniMap) (R C : Nat) (n : Int) (top left : Nat) (bot right : Int)
    (hdim : Dim m.content R C) (hn : n < 0) (hbot : bot < R) (hright : right < C)
    (hfit : (top : Int) - n ≤ bot + 1) :
    ∃ g2 m1, scrollBy m n { top := top, bot := bot, left := left, right := right } = some m1 ∧
      m1.content = g2 ∧ Dim g2 R C ∧
      (∀ r c : Nat, getCell g2 (r : Int) (c : Int) =
        if (top ≤ r ∧ (r : Int) ≤ bot) ∧ (left ≤ c ∧ (c : Int) ≤ right) then
          (if (top : Int) - n ≤ (r : Int) then some (shifted n m.content r c) else some none)
        else getCell m.content (r : Int) (c : Int)) ∧
      m1.queueRedrawArea =
        (if bot < m.rows - 1 then
          (queueRedraw (queueRedraw (queueRedraw m left top (right - left + 1) (bot - top + 1))
            left top (right - left) (-n)) left (bot + 1) (right - left) (-n)).queueRedrawArea
         else
          (queueRedraw (queueRedraw m left top (right - left + 1) (bot - top + 1))
            left top (right - left) (-n)).queueRedrawArea) ∧
      m1.cursor = m.cursor ∧ m1.highlight = m.highlight ∧ m1.scrollRegion = m.scrollRegion ∧
      m1.rows = m.rows ∧ m1.cols = m.cols := by
  obtain ⟨g1, g2, h1, h2, hdim2, hspec⟩ :=
    scrollDown_loops R C n top left bot right hn hbot hright hfit m.content hdim
  have hn0 : ¬ (n > 0) := by omega
  by_cases hb : bot < m.rows - 1
  · have hs : scrollBy m n { top := top, bot := bot, left := left, right := right } = some
        (queueRedraw (queueRedraw
          { queueRedraw m left top (right - left + 1) (bot - top + 1) with content := g2 }
          left top (right - left) (-n)) left (bot + 1) (right - left) (-n)) := by
      simp only [scrollBy, hn0, if_false, queueRedraw_content, h1, h2, hb, if_true]
    refine ⟨g2, _, hs, rfl, hdim2, hspec, ?_, rfl, rfl, rfl, rfl, rfl⟩
    rw [if_pos hb]
    rfl
  · have hs : scrollBy m n { top := top, bot := bot, left := left, right := right } = some
        (queueRedraw
          { queueRedraw m left top (right - left + 1) (bot - top + 1) with content := g2 }
          left top (right - left) (-n)) := by
      simp only [scrollBy, hn0, if_false, queueRedraw_content, h1, h2, hb]
    refine ⟨g2, _, hs, rfl, hdim2, hspec, ?_, rfl, rfl, rfl, rfl, rfl⟩
    rw [if_neg hb]
    rfl

theorem getCell_outside (g : Grid) (R C r c : Nat) (hdim : Dim g R C) (h : R ≤ r ∨ C ≤ c) :
    getCell g (r : Int) (c : Int) = none := by
  rw [getCell_natCast]
  by_cases hr : r < g.length
  · rw [List.getElem?_eq_getElem hr, Option.some_bind]
    have hlen := hdim.2 _ (List.getElem_mem hr)
    have hR := hdim.1
    exact List.getElem?_eq_none (by omega)
  · rw [List.getElem?_eq_none (by omega)]
    rfl

theorem wellFormed_of_dim (m : MiniMap) (g : Grid) (rows cols : Int)
    (hdim : Dim g rows.toNat cols.toNat) (hr : 0 ≤ rows) (hc : 0 ≤ cols) :
    WellFormed { m with content := g, rows := rows, cols := cols } := by
  refine ⟨?_, ?_⟩
  · have := hdim.1
    show (g.length : Int) = rows
    omega
  · intro l hl
    have := hdim.2 l hl
    show (l.length : Int) = cols
    omega

theorem effectiveRegion_whole (m : MiniMap)
    (hregion : m.scrollRegion = { top := 0, bot := 0, left := 0, right := 0 }) :
    effectiveRegion m =
      { top := ((0 : Nat) : Int), bot := m.rows - 1, left := ((0 : Nat) : Int), right := m.cols - 1 } := by
  simp [effectiveRegion, hregion]

/-- C4: with no scroll region set, `rows ≥ 1`, `cols ≥ 1` and `0 < n ≤ rows`,
`scroll(n)` returns; row `r` of the result is the old row `r + n` for every
`r < rows - n`, every cell of the rows from `rows - n` on is empty, and starting
from the empty damage sentinel the damage rectangle is the full grid
(0, 0, cols, rows).  The count may arrive as a signed or an unsigned integer. -/
theorem scroll_up_whole_grid (m : MiniMap) (n : Nat) (v : Value)
    (hwf : WellFormed m) (hrows : 1 ≤ m.rows) (hcols : 1 ≤ m.cols)
    (hregion : m.scrollRegion = { top := 0, bot := 0, left := 0, right := 0 })
    (hn : 0 < n) (hnr : (n : Int) ≤ m.rows)
    (hv : v = Value.int64 (n : Int) ∨ (v = Value.uint64 n ∧ n < 2 ^ 63))
    (harea : m.queueRedrawArea = emptyArea m) :
    ∃ m1, scroll m [Value.arr [v]] = some m1 ∧
      (∀ r c : Nat, (r : Int) + n < m.rows →
        cellAt m1.content r c = cellAt m.content (r + n) c) ∧
      (∀ r c : Nat, m.rows ≤ (r : Int) + n → cellAt m1.content r c = none) ∧
      m1.queueRedrawArea = { x0 := 0, y0 := 0, x1 := m.cols, y1 := m.rows } ∧
      (m1.content.length : Int) = m.rows ∧
      (∀ l ∈ m1.content, (l.length : Int) = m.cols) ∧
      m1.cursor = m.cursor ∧ m1.highlight = m.highlight ∧
      m1.scrollRegion = m.scrollRegion ∧ m1.rows = m.rows ∧ m1.cols = m.cols := by
  obtain ⟨hdim, _, _⟩ := dim_of_wellFormed m hwf
  have hcount : scrollCount [Value.arr [v]] = some (n : Int) := by
    rcases hv with h | ⟨h, hlt⟩
    · rw [h]; rfl
    · rw [h]
      have h64 : n % 2 ^ 64 = n := Nat.mod_eq_of_lt (by omega)
      have hpos : n % 2 ^ 64 > 0 := by omega
      show (if n % 2 ^ 64 > 0 then some (intOfUint n) else some 0) = some (n : Int)
      rw [if_pos hpos]
      unfold intOfUint
      rw [h64, if_pos hlt]
  obtain ⟨g2, m1, hs, hcontent, hdim2, hspec, harea1, hcur, hhl, hreg, hr1, hc1⟩ :=
    scrollBy_up m m.rows.toNat m.cols.toNat n 0 0 (m.rows - 1) (m.cols - 1) hdim
      (by omega) (by omega) (by omega) (by omega)
  refine ⟨m1, ?_, ?_, ?_, ?_, ?_, ?_, hcur, hhl, hreg, hr1, hc1⟩
  · simp only [scroll, hcount, effectiveRegion_whole m hregion]
    exact hs
  · intro r c hr
    rw [hcontent, cellAt_eq_getCell, cellAt_eq_getCell, hspec r c]
    by_cases hc : (c : Int) ≤ m.cols - 1
    · rw [if_pos ⟨⟨Nat.zero_le _, by omega⟩, ⟨Nat.zero_le _, hc⟩⟩, if_pos (by omega)]
      simp only [shifted, Option.join, Option.some_bind, id, Nat.cast_add]
    · rw [if_neg (fun h => hc h.2.2),
        getCell_outside _ _ _ r c hdim (Or.inr (by omega)),
        getCell_outside _ _ _ (r + n) c hdim (Or.inr (by omega))]
  · intro r c hr
    rw [hcontent, cellAt_eq_getCell, hspec r c]
    by_cases hin : (r : Int) ≤ m.rows - 1 ∧ (c : Int) ≤ m.cols - 1
    · rw [if_pos ⟨⟨Nat.zero_le _, hin.1⟩, ⟨Nat.zero_le _, hin.2⟩⟩, if_neg (by omega)]
      rfl
    · rw [if_neg (fun h => hin ⟨h.1.2, h.2.2⟩),
        getCell_outside _ _ _ r c hdim (by omega)]
      rfl
  · have h0 : ¬ (((0 : Nat) : Int) > 0) := by omega
    rw [harea1, if_neg h0]
    simp only [queueRedraw, harea, emptyArea, Nat.cast_zero, Area.mk.injEq]
    refine ⟨?_, ?_, ?_, ?_⟩ <;> split_ifs <;> omega
  · rw [hcontent, hdim2.1]; omega
  · intro l hl
    rw [hcontent] at hl
    have := hdim2.2 l hl
    omega

/-- C5: with no scroll region set and `-rows ≤ n < 0`, `scroll(n)` returns; row
`r` of the result is the old row `r - |n|` for every `r` with `|n| ≤ r < rows`,
and every cell of the top `|n|` rows is empty. -/
theorem scroll_down_whole_grid (m : MiniMap) (k : Nat)
    (hwf : WellFormed m)
    (hregion : m.scrollRegion = { top := 0, bot := 0, left := 0, right := 0 })
    (hk : 0 < k) (hkr : (k : Int) ≤ m.rows) :
    ∃ m1, scroll m [Value.arr [Value.int64 (-(k : Int))]] = some m1 ∧
      (∀ r c : Nat, k ≤ r → (r : Int) < m.rows →
        cellAt m1.content r c = cellAt m.content (r - k) c) ∧
      (∀ r c : Nat, r < k → cellAt m1.content r c = none) ∧
      (m1.content.length : Int) = m.rows ∧
      (∀ l ∈ m1.content, (l.length : Int) = m.cols) ∧
      m1.cursor = m.cursor ∧ m1.highlight = m.highlight ∧
      m1.scrollRegion = m.scrollRegion ∧ m1.rows = m.rows ∧ m1.cols = m.cols := by
  obtain ⟨hdim, _, hcols⟩ := dim_of_wellFormed m hwf
  have hne : m.content ≠ [] := by
    intro h
    have := hwf.1
    rw [h] at this
    simp at this
    omega
  have hc0 := hcols hne
  obtain ⟨g2, m1, hs, hcontent, hdim2, hspec, harea1, hcur, hhl, hreg, hr1, hc1⟩ :=
    scrollBy_down m m.rows.toNat m.cols.toNat (-(k : Int)) 0 0 (m.rows - 1) (m.cols - 1) hdim
      (by omega) (by omega) (by omega) (by omega)
  refine ⟨m1, ?_, ?_, ?_, ?_, ?_, hcur, hhl, hreg, hr1, hc1⟩
  · simp only [scroll, scrollCount, effectiveRegion_whole m hregion]
    exact hs
  · intro r c hkr2 hr
    rw [hcontent, cellAt_eq_getCell, cellAt_eq_getCell, hspec r c]
    by_cases hc : (c : Int) ≤ m.cols - 1
    · rw [if_pos ⟨⟨Nat.zero_le _, by omega⟩, ⟨Nat.zero_le _, hc⟩⟩, if_pos (by omega)]
      have hcast : (r : Int) + -(k : Int) = ((r - k : Nat) : Int) := by omega
      simp only [shifted, Option.join, Option.some_bind, id, hcast]
    · rw [if_neg (fun h => hc h.2.2),
        getCell_outside _ _ _ r c hdim (Or.inr (by omega)),
        getCell_outside _ _ _ (r - k) c hdim (Or.inr (by omega))]
  · intro r c hr
    rw [hcontent, cellAt_eq_getCell, hspec r c]
    by_cases hin : (c : Int) ≤ m.cols - 1
    · rw [if_pos ⟨⟨Nat.zero_le _, by omega⟩, ⟨Nat.zero_le _, hin⟩⟩, if_neg (by omega)]
      rfl
    · rw [if_neg (fun h => hin h.2.2),
        getCell_outside _ _ _ r c hdim (by omega)]
      rfl
  · rw [hcontent, hdim2.1]; omega
  · intro l hl
    rw [hcontent] at hl
    have := hdim2.2 l hl
    omega

theorem blank_wellFormed (rows cols : Nat) : WellFormed (blank rows cols) := by
  refine ⟨?_, ?_⟩
  · simp [blank]
  · intro l hl
    simp only [blank] at hl
    rw [List.eq_of_mem_replicate hl]
    simp [blank]

/-- C1 (failing input): on a well-formed grid of one empty line, with the cursor
at (0, 0), a `put` that carries no character (so `c + k = 0 ≤ cols = 0`) does
not return: the start column is clamped to `len(line) - 1 = -1` and the read of
`line[-1]` is a run-time fault. -/
theorem put_empty_line_faults :
    WellFormed (blank 1 0) ∧ (blank 1 0).cursor = (0, 0) ∧
      (blank 1 0).cursor.1 < (blank 1 0).rows ∧
      (((0 + (([] : List (List String)).flatten.length) : Nat) : Int) ≤ (blank 1 0).cols) ∧
      put sampleEnv (blank 1 0) (putArgs []) = none := by
  decide

/-- The run theorem of `put` at a concrete input: two characters written at
(1, 1) of the sample grid. -/
theorem put_writes_run_witness :
    ∃ m1, put sampleEnv sampleGrid (putArgs [["x"], ["y"]]) = some m1 ∧
      cellAt m1.content 1 1 =
        some { char := "x", normalWidth := true, highlight := sampleGrid.highlight } ∧
      cellAt m1.content 1 2 =
        some { char := "y", normalWidth := true, highlight := sampleGrid.highlight } ∧
      m1.cursor = (1, 3) ∧ cellAt m1.content 1 0 = letter "d" := by
  obtain ⟨m1, h1, h2, _, h4, h5, _⟩ :=
    put_writes_run sampleEnv sampleGrid 1 1 [["x"], ["y"]] (by decide) rfl (by decide)
      (by decide) (by decide)
  refine ⟨m1, h1, h2 0 "x" rfl, h2 1 "y" rfl, h4, ?_⟩
  rw [h5 1 0 (Or.inr (Or.inl (by decide)))]
  rfl

/-- C2 at the input of the example scenario: H, e, l, l, o written at (0, 0) of
an empty 80 x 24 grid leave the damage rectangle (0, 0, 5, 1). -/
theorem put_narrow_damage_witness :
    ∃ m1, put sampleEnv (blank 24 80) (putArgs [["H"], ["e"], ["l"], ["l"], ["o"]]) = some m1 ∧
      m1.queueRedrawArea = { x0 := 0, y0 := 0, x1 := 5, y1 := 1 } := by
  have h := put_narrow_damage sampleEnv (blank 24 80) 0 0 [["H"], ["e"], ["l"], ["l"], ["o"]]
    (blank_wellFormed 24 80) rfl (by decide) (by decide) (by decide) (by decide)
    (by
      intro j cell _ _ hcell
      simp only [blank] at hcell
      rw [cellAt_replicate_none] at hcell
      exact Option.noConfusion hcell)
    rfl
  exact h

/-- C3 at a concrete input: a wide character written at (0, 1) of an empty
2 x 4 grid leaves columns 1 and 2 of row 0 inside the damage rectangle. -/
theorem put_wide_damage_witness :
    ∃ m1, put sampleEnv { blank 2 4 with cursor := (0, 1) } (putArgs [["あ"]]) = some m1 ∧
      m1.queueRedrawArea.x0 ≤ 1 ∧ 2 < m1.queueRedrawArea.x1 ∧
      m1.queueRedrawArea.y0 ≤ 0 ∧ 0 < m1.queueRedrawArea.y1 := by
  obtain ⟨m1, h1, _, h3, h4, h5, h6⟩ :=
    put_wide_damage sampleEnv { blank 2 4 with cursor := (0, 1) } 0 1 "あ"
      (by decide) rfl (by decide) (by decide) (by decide)
  exact ⟨m1, h1, h3, h4, h5, h6⟩

/-- C4 at a concrete input: `scroll(1)` on the 3 x 3 sample grid moves the
second row to the top, empties the last row and damages the full grid. -/
theorem scroll_up_whole_grid_witness :
    ∃ m1, scroll sampleGrid [Value.arr [Value.int64 1]] = some m1 ∧
      cellAt m1.content 0 0 = letter "d" ∧ cellAt m1.content 1 2 = letter "i" ∧
      cellAt m1.content 2 1 = none ∧
      m1.queueRedrawArea = { x0 := 0, y0 := 0, x1 := 3, y1 := 3 } := by
  obtain ⟨m1, h1, h2, h3, h4, _⟩ :=
    scroll_up_whole_grid sampleGrid 1 (Value.int64 1) (by decide) (by decide) (by decide) rfl
      (by decide) (by decide) (Or.inl rfl) rfl
  refine ⟨m1, h1, ?_, ?_, h3 2 1 (by decide), h4⟩
  · rw [h2 0 0 (by decide)]; rfl
  · rw [h2 1 2 (by decide)]; rfl

/-- C5 at a concrete input: `scroll(-1)` on the 3 x 3 sample grid moves the
first row to the second and empties the top row. -/
theorem scroll_down_whole_grid_witness :
    ∃ m1, scroll sampleGrid [Value.arr [Value.int64 (-1)]] = some m1 ∧
      cellAt m1.content 1 0 = letter "a" ∧ cellAt m1.content 2 2 = letter "f" ∧
      cellAt m1.content 0 1 = none := by
  obtain ⟨m1, h1, h2, h3, _⟩ :=
    scroll_down_whole_grid sampleGrid 1 (by decide) rfl (by decide) (by decide)
  refine ⟨m1, h1, ?_, ?_, h3 0 1 (by decide)⟩
  · rw [h2 1 0 (by decide) (by decide)]; rfl
  · rw [h2 2 2 (by decide) (by decide)]; rfl

/-- C6 (counterexample): on a 1 x 1 grid, `resize` with the arguments
(cols, rows) = (3, 2) leaves a 1 x 1 grid, not a 2 x 3 one. -/
theorem resize_arguments_counterexample :
    ∃ m1, resize (blank 1 1) [Value.arr [Value.int64 3, Value.int64 2]] = some m1 ∧
      m1.content = [[none]] ∧ m1.content.length ≠ 2 ∧
      m1.queueRedrawArea ≠ { x0 := 0, y0 := 0, x1 := 3, y1 := 2 } :=
  ⟨_, rfl, rfl, by decide, by decide⟩

/-- C6 (as amended) at a concrete input: `resize` on the 3 x 3 sample grid. -/
theorem resize_clear_reallocate_witness :
    ∃ m1, resize sampleGrid [Value.arr [Value.int64 3, Value.int64 3]] = some m1 ∧
      clear sampleGrid [] = some m1 ∧ m1.content.length = 3 ∧
      cellAt m1.content 1 1 = none ∧ m1.cursor = (0, 0) ∧
      m1.queueRedrawArea = { x0 := 0, y0 := 0, x1 := 3, y1 := 3 } := by
  obtain ⟨m1, h1, h2, _, _, h5, _, h7, h8, h9, _⟩ :=
    resize_clear_reallocate sampleGrid 3 3 [Value.arr [Value.int64 3, Value.int64 3]] [] rfl rfl
  exact ⟨m1, h1, h2, h5, h7 1 1, h8, h9⟩

/-- C8 (counterexample): a dictionary that has the key `bold` with a nil value,
next to `reverse`, leaves bold unset although the key is present. -/
theorem highlightSet_bold_nil_counterexample :
    ∃ m1, highlightSet sampleEnv sampleGrid
        [Value.arr [Value.dict [("bold", Value.null), ("reverse", Value.bool true)]]] = some m1 ∧
      List.lookup "bold" [("bold", Value.null), ("reverse", Value.bool true)] = some Value.null ∧
      m1.highlight.bold = false :=
  ⟨_, rfl, rfl, rfl⟩

/-- C8 (as amended) at a concrete input: `reverse` with `bold` on the red on blue
style of the sample grid. -/
theorem highlightSet_reverse_witness :
    ∃ m1, highlightSet sampleEnv sampleGrid
        [Value.arr [Value.dict [("reverse", Value.bool true), ("bold", Value.bool true),
          ("foreground", Value.int64 65280)]]] = some m1 ∧
      m1.highlight.foreground = some { R := 0, G := 0, B := 255 } ∧
      m1.highlight.background = some { R := 255, G := 0, B := 0 } ∧
      m1.highlight.bold = true := by
  obtain ⟨m1, h1, h2, h3, h4, _⟩ :=
    highlightSet_reverse sampleEnv sampleGrid
      [("reverse", Value.bool true), ("bold", Value.bool true), ("foreground", Value.int64 65280)]
      (Value.bool true) rfl
  refine ⟨m1, h1, h2, h3, h4.mpr ⟨Value.bool true, rfl, ?_⟩⟩
  intro h
  exact Value.noConfusion h

/-- C9 (counterexample): on the red on blue style, `reverse` applied twice gives
a red foreground again, which differs from the blue foreground one `reverse`
gives (the background of the starting style). -/
theorem highlightSet_reverse_twice_counterexample :
    ∃ m1 m2, highlightSet sampleEnv sampleGrid
        [Value.arr [Value.dict [("reverse", Value.bool true)]]] = some m1 ∧
      highlightSet sampleEnv m1 [Value.arr [Value.dict [("reverse", Value.bool true)]]] = some m2 ∧
      m2.highlight.foreground ≠ m1.highlight.foreground ∧
      m2.highlight.foreground ≠ sampleGrid.highlight.background ∧
      m2.highlight.background ≠ sampleGrid.highlight.foreground :=
  ⟨_, _, rfl, rfl, by decide, by decide, by decide⟩

/-- C9 (as amended) at a concrete input: two reverses on the sample grid. -/
theorem highlightSet_reverse_twice_witness :
    ∃ m1 m2, highlightSet sampleEnv sampleGrid
        [Value.arr [Value.dict [("reverse", Value.bool true)]]] = some m1 ∧
      highlightSet sampleEnv m1 [Value.arr [Value.dict [("reverse", Value.null)]]] = some m2 ∧
      m2.highlight.foreground = some { R := 255, G := 0, B := 0 } ∧
      m2.highlight.background = some { R := 0, G := 0, B := 255 } := by
  obtain ⟨m1, m2, h1, h2, _, _, h5, h6⟩ :=
    highlightSet_reverse_twice sampleEnv sampleGrid [("reverse", Value.bool true)]
      [("reverse", Value.null)] (Value.bool true) Value.null rfl rfl
  exact ⟨m1, m2, h1, h2, h5, h6⟩

/-- C10 (counterexample): the sample grid has no default foreground; an empty
dictionary then leaves the current style without a foreground (and a dictionary
with a nil `bold` leaves bold unset). -/
theorem highlightSet_default_hole_counterexample :
    ∃ m1, highlightSet sampleEnv sampleGrid
        [Value.arr [Value.dict [("bold", Value.null)]]] = some m1 ∧
      sampleGrid.foreground = none ∧
      m1.highlight.foreground = none ∧ m1.highlight.background = none ∧
      m1.highlight.bold = false :=
  ⟨_, rfl, rfl, rfl, rfl, rfl⟩

/-- C10 (as amended) at a concrete input: a dictionary with a foreground and
`italic` on the sample grid. -/
theorem highlightSet_plain_witness :
    ∃ m1, highlightSet sampleEnv sampleGrid
        [Value.arr [Value.dict [("foreground", Value.int64 65280), ("italic", Value.bool true)]]]
        = some m1 ∧
      m1.highlight.foreground = some { R := 0, G := 255, B := 0 } ∧
      m1.highlight.background = none ∧
      m1.highlight.italic = true := by
  obtain ⟨m1, h1, h2, _, _, h5, _, h7, _⟩ :=
    highlightSet_plain sampleEnv sampleGrid
      [("foreground", Value.int64 65280), ("italic", Value.bool true)] rfl
      (by
        intro v hv
        have hv2 : v = Value.int64 65280 := by
          have : some (Value.int64 65280) = some v := hv
          exact (Option.some.inj this).symm
        exact ⟨65280, by rw [hv2]; rfl⟩)
      (by
        intro v hv
        exact Option.noConfusion hv)
  refine ⟨m1, h1, ?_, h5 rfl, h7.mpr ⟨Value.bool true, rfl, ?_⟩⟩
  · rw [h2 (Value.int64 65280) 65280 rfl rfl]
    rfl
  · intro h
    exact Value.noConfusion h

/-! ### Anatomy of the handlers that return -/

theorem putInv_init (ln : List (Option Cell)) (c0 : Int) :
    PutInv ln c0
      { line := ln, col := c0, numChars := 0, lastCell := none, oldNormalWidth := true } :=
  ⟨rfl, le_refl _, Or.inl (le_refl _), by simp, fun _ _ => rfl, fun _ => ⟨rfl, rfl⟩⟩

theorem putChar_inv (env : Env) (hl : Highlight) (ln : List (Option Cell)) (c0 : Int)
    (st st1 : PutState) (v : Value) (hinv : PutInv ln c0 st)
    (h : putChar env hl st v = some st1) : PutInv ln c0 st1 := by
  unfold putChar at h
  by_cases hfull : st.col ≥ (st.line.length : Int)
  · rw [if_pos hfull] at h
    simp only [Option.some.injEq] at h
    rw [← h]
    exact hinv
  · rw [if_neg hfull] at h
    cases hidx : index st.line st.col with
    | none => rw [hidx] at h; exact Option.noConfusion h
    | some cell =>
      rw [hidx] at h
      have hnn : 0 ≤ st.col := by
        by_contra hneg
        simp only [index, hneg, if_false] at hidx
        exact Option.noConfusion hidx
      cases v with
      | str s =>
        simp only [Option.some.injEq] at h
        rw [← h]
        have hlen := hinv.length_eq
        refine ⟨?_, ?_, ?_, ?_, ?_, ?_⟩
        · show (st.line.set st.col.toNat (some (newCell env hl s))).length = ln.length
          rw [List.length_set]; exact hlen
        · show c0 ≤ st.col + 1
          have := hinv.col_ge; omega
        · right
          show st.col + 1 ≤ (ln.length : Int)
          omega
        · show st.numChars + 1 = st.col + 1 - c0
          have := hinv.numChars_eq; omega
        · intro j hj
          have hj2 : (j : Int) < c0 ∨ st.col + 1 ≤ (j : Int) := hj
          have hcg := hinv.col_ge
          show (st.line.set st.col.toNat (some (newCell env hl s)))[j]? = ln[j]?
          rw [List.getElem?_set_ne (by omega)]
          exact hinv.frame j (by omega)
        · intro hc
          have hc2 : st.col + 1 = c0 := hc
          have := hinv.col_ge
          omega
      | null => exact Option.noConfusion h
      | bool _ => exact Option.noConfusion h
      | int64 _ => exact Option.noConfusion h
      | uint64 _ => exact Option.noConfusion h
      | arr _ => exact Option.noConfusion h
      | dict _ => exact Option.noConfusion h

theorem foldlM_inv {α β : Type} (f : β → α → Option β) (P : β → Prop)
    (hstep : ∀ b a b1, P b → f b a = some b1 → P b1) :
    ∀ (xs : List α) (b b1 : β), P b → xs.foldlM f b = some b1 → P b1 := by
  intro xs
  induction xs with
  | nil =>
    intro b b1 hb h
    simp only [List.foldlM_nil] at h
    have : b = b1 := Option.some.inj h
    rw [← this]; exact hb
  | cons a rest ih =>
    intro b b1 hb h
    rw [List.foldlM_cons] at h
    cases hf : f b a with
    | none => rw [hf] at h; exact Option.noConfusion h
    | some b2 =>
      rw [hf] at h
      exact ih b2 b1 (hstep b a b2 hb hf) h

theorem putGroup_inv (env : Env) (hl : Highlight) (ln : List (Option Cell)) (c0 : Int)
    (st st1 : PutState) (v : Value) (hinv : PutInv ln c0 st)
    (h : putGroup env hl st v = some st1) : PutInv ln c0 st1 := by
  cases v with
  | arr chars =>
    exact foldlM_inv (putChar env hl) (PutInv ln c0)
      (fun b a b1 hb hf => putChar_inv env hl ln c0 b b1 a hb hf) chars st st1 hinv h
  | null => exact Option.noConfusion h
  | bool _ => exact Option.noConfusion h
  | int64 _ => exact Option.noConfusion h
  | uint64 _ => exact Option.noConfusion h
  | str _ => exact Option.noConfusion h
  | dict _ => exact Option.noConfusion h

/-- The loop of `put`, for any arguments it survives, ends in a state that
satisfies `PutInv`. -/
theorem putArgs_inv (env : Env) (hl : Highlight) (ln : List (Option Cell)) (c0 : Int)
    (args : List Value) (st : PutState)
    (h : args.foldlM (putGroup env hl)
      { line := ln, col := c0, numChars := 0, lastCell := none, oldNormalWidth := true }
      = some st) : PutInv ln c0 st :=
  foldlM_inv (putGroup env hl) (PutInv ln c0)
    (fun b a b1 hb hf => putGroup_inv env hl ln c0 b b1 a hb hf) args _ st (putInv_init ln c0) h

theorem index_some_bounds {α : Type} (s : List α) (i : Int) (a : α) (h : index s i = some a) :
    0 ≤ i ∧ i < (s.length : Int) ∧ s[i.toNat]? = some a := by
  unfold index at h
  by_cases h0 : 0 ≤ i
  · rw [if_pos h0] at h
    refine ⟨h0, ?_, h⟩
    by_contra hge
    rw [List.getElem?_eq_none (by omega)] at h
    exact Option.noConfusion h
  · rw [if_neg h0] at h
    exact Option.noConfusion h

/-- The span `putSpan` returns is the run itself, or the run widened by one
cell to the left when the start column is positive. -/
theorem putSpan_some (ln : List (Option Cell)) (x n : Int) (old : Bool) (span : Int × Int)
    (h : putSpan ln x n old = some span) :
    span = (x, n) ∨ (0 < x ∧ span = (x - 1, n + 1)) := by
  unfold putSpan at h
  by_cases hx : x > 0
  · rw [if_pos hx] at h
    cases hidx : index ln (x - 1) with
    | none => rw [hidx] at h; exact Option.noConfusion h
    | some cell =>
      rw [hidx] at h
      simp only at h
      split_ifs at h
      · exact Or.inr ⟨hx, (Option.some.inj h).symm⟩
      · exact Or.inr ⟨hx, (Option.some.inj h).symm⟩
      · exact Or.inl (Option.some.inj h).symm
  · rw [if_neg hx] at h
    exact Or.inl (Option.some.inj h).symm

/-- The anatomy of a `put` that returns: either the cursor row is at or past
`rows` and nothing happens, or the row is a line of the buffer, the loop ran to
a state `st`, and the result is the buffer with that line replaced, the cursor
column advanced to `st.col`, and the span of `putSpan` queued. -/
theorem put_some (env : Env) (m m1 : MiniMap) (args : List Value)
    (h : put env m args = some m1) :
    (m.cursor.1 ≥ m.rows ∧ m1 = m) ∨
    (m.cursor.1 < m.rows ∧
      ∃ (ln : List (Option Cell)) (cell : Option Cell) (st : PutState) (span : Int × Int),
        index m.content m.cursor.1 = some ln ∧
        index ln (if m.cursor.2 ≥ ln.length then (ln.length : Int) - 1 else m.cursor.2)
          = some cell ∧
        PutInv ln m.cursor.2 st ∧
        putSpan st.line (if m.cursor.2 ≥ ln.length then (ln.length : Int) - 1 else m.cursor.2)
          (putWidth st) (!isWide cell) = some span ∧
        m1 = queueRedraw
          { m with content := m.content.set m.cursor.1.toNat st.line,
                   cursor := (m.cursor.1, st.col) }
          span.1 m.cursor.1 span.2 1) := by
  unfold put at h
  by_cases hrow : m.cursor.1 ≥ m.rows
  · rw [if_pos hrow] at h
    exact Or.inl ⟨hrow, (Option.some.inj h).symm⟩
  · rw [if_neg hrow] at h
    right
    refine ⟨by omega, ?_⟩
    cases hln : index m.content m.cursor.1 with
    | none => rw [hln] at h; exact Option.noConfusion h
    | some ln =>
      rw [hln] at h
      simp only at h
      cases hcell : index ln (if m.cursor.2 ≥ ln.length then (ln.length : Int) - 1
          else m.cursor.2) with
      | none => rw [hcell] at h; exact Option.noConfusion h
      | some cell =>
        rw [hcell] at h
        simp only at h
        cases hst : args.foldlM (putGroup env m.highlight)
            { line := ln, col := m.cursor.2, numChars := 0, lastCell := none,
              oldNormalWidth := true } with
        | none => rw [hst] at h; exact Option.noConfusion h
        | some st =>
          rw [hst] at h
          simp only at h
          cases hspan : putSpan st.line (if m.cursor.2 ≥ ln.length then (ln.length : Int) - 1
              else m.cursor.2) (putWidth st) (!isWide cell) with
          | none => rw [hspan] at h; exact Option.noConfusion h
          | some span =>
            rw [hspan] at h
            exact ⟨ln, cell, st, span, rfl, hcell, putArgs_inv env m.highlight ln _ args st hst,
              hspan, (Option.some.inj h).symm⟩

theorem putWidth_bounds (st : PutState) :
    st.numChars ≤ putWidth st ∧ putWidth st ≤ st.numChars + 2 := by
  simp only [putWidth]
  constructor <;> split_ifs <;> omega

theorem putWidth_fresh (st : PutState) (h1 : st.lastCell = none) (h2 : st.oldNormalWidth = true) :
    putWidth st = st.numChars := by
  simp [putWidth, h1, h2, isWide]

/-- The loop of `eolClear`, when it returns, keeps the length of the line and
touches only the columns it was asked to clear. -/
theorem clearAt_foldlM_inv (xs : List Int) : ∀ (l l1 : List (Option Cell)),
    xs.foldlM clearAt l = some l1 →
    l1.length = l.length ∧ ∀ j : Nat, (∀ x ∈ xs, x ≠ (j : Int)) → l1[j]? = l[j]? := by
  induction xs with
  | nil =>
    intro l l1 h
    simp only [List.foldlM_nil] at h
    have : l = l1 := Option.some.inj h
    subst this
    exact ⟨rfl, fun _ _ => rfl⟩
  | cons x rest ih =>
    intro l l1 h
    rw [List.foldlM_cons] at h
    cases hc : clearAt l x with
    | none => rw [hc] at h; exact Option.noConfusion h
    | some l2 =>
      rw [hc] at h
      obtain ⟨h1, h2⟩ := ih l2 l1 h
      unfold clearAt at hc
      split_ifs at hc with hx
      have hl2 : l2 = l.set x.toNat none := (Option.some.inj hc).symm
      subst hl2
      refine ⟨by rw [h1, List.length_set], ?_⟩
      intro j hj
      rw [h2 j (fun y hy => hj y (List.mem_cons_of_mem _ hy))]
      have hne : x ≠ (j : Int) := hj x (List.mem_cons_self _ _)
      rw [List.getElem?_set_ne (by omega)]

theorem mem_upTo (lo hi x : Int) (h : x ∈ upTo lo hi) : lo ≤ x ∧ x ≤ hi := by
  unfold upTo at h
  obtain ⟨i, hi1, hi2⟩ := List.mem_map.mp h
  have := List.mem_range.mp hi1
  omega

theorem length_upTo (lo hi : Int) : ((upTo lo hi).length : Int) = max 0 (hi + 1 - lo) := by
  unfold upTo
  rw [List.length_map, List.length_range]
  omega

/-- The anatomy of an `eolClear` that returns. -/
theorem eolClear_some (m m1 : MiniMap) (args : List Value) (h : eolClear m args = some m1) :
    (m.cursor.1 ≥ m.rows ∧ m1 = m) ∨
    (m.cursor.1 < m.rows ∧ ∃ (ln ln1 : List (Option Cell)),
      index m.content m.cursor.1 = some ln ∧ ln1.length = ln.length ∧
      (∀ j : Nat, (j : Int) < m.cursor.2 → ln1[j]? = ln[j]?) ∧
      m1 = queueRedraw { m with content := m.content.set m.cursor.1.toNat ln1 }
        m.cursor.2 m.cursor.1 (max 0 ((ln.length : Int) - m.cursor.2) + 1) 1) := by
  unfold eolClear at h
  by_cases hrow : m.cursor.1 ≥ m.rows
  · rw [if_pos hrow] at h
    exact Or.inl ⟨hrow, (Option.some.inj h).symm⟩
  · rw [if_neg hrow] at h
    right
    refine ⟨by omega, ?_⟩
    cases hln : index m.content m.cursor.1 with
    | none => rw [hln] at h; exact Option.noConfusion h
    | some ln =>
      rw [hln] at h
      simp only at h
      cases hf : (upTo m.cursor.2 ((ln.length : Int) - 1)).foldlM clearAt ln with
      | none => rw [hf] at h; exact Option.noConfusion h
      | some ln1 =>
        rw [hf] at h
        obtain ⟨h1, h2⟩ := clearAt_foldlM_inv _ ln ln1 hf
        refine ⟨ln, ln1, rfl, h1, ?_, ?_⟩
        · intro j hj
          apply h2
          intro x hx
          have := mem_upTo _ _ _ hx
          omega
        · have hlen := length_upTo m.cursor.2 ((ln.length : Int) - 1)
          have : (ln.length : Int) - 1 + 1 - m.cursor.2 = (ln.length : Int) - m.cursor.2 := by
            omega
          rw [this] at hlen
          simp only [Option.some.injEq] at h
          rw [← h, hlen]

/-- A `scrollBy` that returns leaves the cursor, the style, the stored region,
the dimensions and the default colours alone, and its damage rectangle is the
region queued at line 696, possibly extended by the one or two bands queued
after the loops. -/
theorem scrollBy_some (m m1 : MiniMap) (n : Int) (reg : Region)
    (h : scrollBy m n reg = some m1) :
    m1.cursor = m.cursor ∧ m1.highlight = m.highlight ∧ m1.scrollRegion = m.scrollRegion ∧
    m1.rows = m.rows ∧ m1.cols = m.cols ∧
    m1.foreground = m.foreground ∧ m1.background = m.background ∧
    (m1.queueRedrawArea =
        (queueRedraw m reg.left reg.top (reg.right - reg.left + 1)
          (reg.bot - reg.top + 1)).queueRedrawArea ∨
      (0 < n ∧ m1.queueRedrawArea =
        (queueRedraw (queueRedraw m reg.left reg.top (reg.right - reg.left + 1)
          (reg.bot - reg.top + 1)) reg.left (reg.bot - n + 1) (reg.right - reg.left)
          n).queueRedrawArea) ∨
      (0 < n ∧ 0 < reg.top ∧ m1.queueRedrawArea =
        (queueRedraw (queueRedraw (queueRedraw m reg.left reg.top (reg.right - reg.left + 1)
          (reg.bot - reg.top + 1)) reg.left (reg.bot - n + 1) (reg.right - reg.left) n)
          reg.left (reg.top - n) (reg.right - reg.left) n).queueRedrawArea) ∨
      (n ≤ 0 ∧ m1.queueRedrawArea =
        (queueRedraw (queueRedraw m reg.left reg.top (reg.right - reg.left + 1)
          (reg.bot - reg.top + 1)) reg.left reg.top (reg.right - reg.left)
          (-n)).queueRedrawArea) ∨
      (n ≤ 0 ∧ reg.bot < m.rows - 1 ∧ m1.queueRedrawArea =
        (queueRedraw (queueRedraw (queueRedraw m reg.left reg.top (reg.right - reg.left + 1)
          (reg.bot - reg.top + 1)) reg.left reg.top (reg.right - reg.left) (-n))
          reg.left (reg.bot + 1) (reg.right - reg.left) (-n)).queueRedrawArea)) := by
  simp only [scrollBy] at h
  by_cases hn : n > 0
  · rw [if_pos hn] at h
    split at h
    · exact Option.noConfusion h
    · rw [← Option.some.inj h]
      exact ⟨rfl, rfl, rfl, rfl, rfl, rfl, rfl, Or.inl rfl⟩
    · split at h
      · exact Option.noConfusion h
      · rw [← Option.some.inj h]
        exact ⟨rfl, rfl, rfl, rfl, rfl, rfl, rfl, Or.inl rfl⟩
      · by_cases htop : reg.top > 0
        · rw [if_pos htop] at h
          rw [← Option.some.inj h]
          exact ⟨rfl, rfl, rfl, rfl, rfl, rfl, rfl, Or.inr (Or.inr (Or.inl ⟨hn, htop, rfl⟩))⟩
        · rw [if_neg htop] at h
          rw [← Option.some.inj h]
          exact ⟨rfl, rfl, rfl, rfl, rfl, rfl, rfl, Or.inr (Or.inl ⟨hn, rfl⟩)⟩
  · rw [if_neg hn] at h
    split at h
    · exact Option.noConfusion h
    · rw [← Option.some.inj h]
      exact ⟨rfl, rfl, rfl, rfl, rfl, rfl, rfl, Or.inl rfl⟩
    · split at h
      · exact Option.noConfusion h
      · rw [← Option.some.inj h]
        exact ⟨rfl, rfl, rfl, rfl, rfl, rfl, rfl, Or.inl rfl⟩
      · by_cases hb : reg.bot < m.rows - 1
        · rw [if_pos hb] at h
          rw [← Option.some.inj h]
          exact ⟨rfl, rfl, rfl, rfl, rfl, rfl, rfl,
            Or.inr (Or.inr (Or.inr (Or.inr ⟨by omega, hb, rfl⟩)))⟩
        · rw [if_neg hb] at h
          rw [← Option.some.inj h]
          exact ⟨rfl, rfl, rfl, rfl, rfl, rfl, rfl,
            Or.inr (Or.inr (Or.inr (Or.inl ⟨by omega, rfl⟩)))⟩

theorem scroll_some (m m1 : MiniMap) (args : List Value) (h : scroll m args = some m1) :
    ∃ n, scrollCount args = some n ∧ scrollBy m n (effectiveRegion m) = some m1 := by
  unfold scroll at h
  cases hc : scrollCount args with
  | none => rw [hc] at h; exact Option.noConfusion h
  | some n =>
    rw [hc] at h
    exact ⟨n, rfl, h⟩

theorem reallocate_some (m m1 : MiniMap) (h : reallocate m = some m1) :
    0 ≤ m.rows ∧
    m1 = queueRedrawAll
      { m with cursor := (0, 0)
               content := List.replicate m.rows.toNat (List.replicate m.cols.toNat none) } := by
  unfold reallocate at h
  split_ifs at h with h1 h2
  exact ⟨by omega, (Option.some.inj h).symm⟩

theorem highlightSetArg_fields (env : Env) (m m1 : MiniMap) (arg : Value)
    (h : highlightSetArg env m arg = some m1) :
    m1.content = m.content ∧ m1.cursor = m.cursor ∧ m1.scrollRegion = m.scrollRegion ∧
    m1.queueRedrawArea = m.queueRedrawArea ∧ m1.rows = m.rows ∧ m1.cols = m.cols ∧
    m1.foreground = m.foreground ∧ m1.background = m.background := by
  unfold highlightSetArg at h
  split at h
  · simp only at h
    split at h
    · rw [← Option.some.inj h]
      exact ⟨rfl, rfl, rfl, rfl, rfl, rfl, rfl, rfl⟩
    · split at h
      · exact Option.noConfusion h
      · split at h
        · exact Option.noConfusion h
        · rw [← Option.some.inj h]
          exact ⟨rfl, rfl, rfl, rfl, rfl, rfl, rfl, rfl⟩
  · exact Option.noConfusion h

theorem highlightSet_fields (env : Env) (m m1 : MiniMap) (args : List Value)
    (h : highlightSet env m args = some m1) :
    m1.content = m.content ∧ m1.cursor = m.cursor ∧ m1.scrollRegion = m.scrollRegion ∧
    m1.queueRedrawArea = m.queueRedrawArea ∧ m1.rows = m.rows ∧ m1.cols = m.cols ∧
    m1.foreground = m.foreground ∧ m1.background = m.background := by
  refine foldlM_inv (highlightSetArg env)
    (fun x => x.content = m.content ∧ x.cursor = m.cursor ∧ x.scrollRegion = m.scrollRegion ∧
      x.queueRedrawArea = m.queueRedrawArea ∧ x.rows = m.rows ∧ x.cols = m.cols ∧
      x.foreground = m.foreground ∧ x.background = m.background)
    ?_ args m m1 ⟨rfl, rfl, rfl, rfl, rfl, rfl, rfl, rfl⟩ h
  intro b a b1 hb hf
  obtain ⟨h1, h2, h3, h4, h5, h6, h7, h8⟩ := highlightSetArg_fields env b b1 a hf
  obtain ⟨k1, k2, k3, k4, k5, k6, k7, k8⟩ := hb
  exact ⟨h1.trans k1, h2.trans k2, h3.trans k3, h4.trans k4, h5.trans k5, h6.trans k6,
    h7.trans k7, h8.trans k8⟩

theorem setScrollRegion_fields (env : Env) (m m1 : MiniMap) (args : List Value)
    (h : setScrollRegion env m args = some m1) :
    m1.content = m.content ∧ m1.cursor = m.cursor ∧ m1.highlight = m.highlight ∧
    m1.queueRedrawArea = m.queueRedrawArea ∧ m1.rows = m.rows ∧ m1.cols = m.cols ∧
    m1.foreground = m.foreground ∧ m1.background = m.background := by
  unfold setScrollRegion at h
  split at h
  · split at h
    · split at h
      · rw [← Option.some.inj h]
        exact ⟨rfl, rfl, rfl, rfl, rfl, rfl, rfl, rfl⟩
      · exact Option.noConfusion h
    · exact Option.noConfusion h
  · exact Option.noConfusion h

theorem cursorGoto_some (env : Env) (m m1 : MiniMap) (args : List Value)
    (h : cursorGoto env m args = some m1) :
    ∃ r c, m1 = { m with cursor := (r, c) } := by
  unfold cursorGoto at h
  split at h
  · exact Option.noConfusion h
  · simp only at h
    split at h
    · exact Option.noConfusion h
    · split at h
      · exact Option.noConfusion h
      · split at h
        · exact Option.noConfusion h
        · split at h
          · exact Option.noConfusion h
          · exact ⟨_, _, (Option.some.inj h).symm⟩

/-! ### The cursor -/

theorem handleUpdate_cursor_goto (env : Env) (m : MiniMap) (args : List Value) :
    handleUpdate env m (Value.str "cursor_goto" :: args) = cursorGoto env m args := rfl

theorem handleUpdate_put (env : Env) (m : MiniMap) (args : List Value) :
    handleUpdate env m (Value.str "put" :: args) = put env m args := rfl

theorem handleUpdate_eol_clear (env : Env) (m : MiniMap) (args : List Value) :
    handleUpdate env m (Value.str "eol_clear" :: args) = eolClear m args := rfl

theorem handleUpdate_clear (env : Env) (m : MiniMap) (args : List Value) :
    handleUpdate env m (Value.str "clear" :: args) = clear m args := rfl

theorem handleUpdate_resize (env : Env) (m : MiniMap) (args : List Value) :
    handleUpdate env m (Value.str "resize" :: args) = resize m args := rfl

theorem handleUpdate_highlight_set (env : Env) (m : MiniMap) (args : List Value) :
    handleUpdate env m (Value.str "highlight_set" :: args) = highlightSet env m args := rfl

theorem handleUpdate_set_scroll_region (env : Env) (m : MiniMap) (args : List Value) :
    handleUpdate env m (Value.str "set_scroll_region" :: args) = setScrollRegion env m args := rfl

theorem handleUpdate_scroll (env : Env) (m : MiniMap) (args : List Value) :
    handleUpdate env m (Value.str "scroll" :: args) = scroll m args := rfl

theorem line_length_of_index (m : MiniMap) (hwf : WellFormed m) (r : Int)
    (ln : List (Option Cell)) (h : index m.content r = some ln) :
    (ln.length : Int) = m.cols ∧ 0 ≤ r ∧ r < m.rows := by
  obtain ⟨h1, h2, h3⟩ := index_some_bounds _ _ _ h
  exact ⟨hwf.2 ln (List.getElem?_mem h3), h1, by rw [← hwf.1]; exact h2⟩

theorem put_cursor (env : Env) (m m1 : MiniMap) (args : List Value) (hwf : WellFormed m)
    (hinv : CursorInv m) (h : put env m args = some m1) :
    CursorInv m1 ∧ m1.rows = m.rows ∧ m1.cols = m.cols := by
  obtain ⟨k1, k2, k3, k4⟩ := hinv
  rcases put_some env m m1 args h with ⟨_, e⟩ | ⟨_, ln, cell, st, span, hln, _, hst, _, e⟩
  · rw [e]; exact ⟨⟨k1, k2, k3, k4⟩, rfl, rfl⟩
  · obtain ⟨hlen, _, _⟩ := line_length_of_index m hwf _ ln hln
    rw [e]
    refine ⟨⟨k1, k2, ?_, ?_⟩, rfl, rfl⟩
    · show 0 ≤ st.col
      have := hst.col_ge; omega
    · show st.col ≤ m.cols
      have := hst.col_le; omega

/-- C14 (as amended): on a well-formed grid every command other than
`cursor_goto` that returns preserves the cursor invariant `0 ≤ row < rows`,
`0 ≤ col ≤ cols` (and the dimensions), whatever its arguments; `cursor_goto`
stores the two integers it is given unchecked, so after it the invariant holds
exactly when they satisfy `0 ≤ row < rows` and `0 ≤ col ≤ cols`. -/
theorem cursor_invariant_preserved (env : Env) (m m1 : MiniMap) (event : String)
    (args : List Value) (hwf : WellFormed m) (hinv : CursorInv m)
    (hev : event ∈ ["put", "eol_clear", "clear", "resize", "highlight_set",
      "set_scroll_region", "scroll"])
    (h : handleUpdate env m (Value.str event :: args) = some m1) :
    (CursorInv m1 ∧ m1.rows = m.rows ∧ m1.cols = m.cols) ∧
    (∀ (a b : Value) (r c : Int), env.ReflectToInt a = some r → env.ReflectToInt b = some c →
      ∃ m2, handleUpdate env m [Value.str "cursor_goto", Value.arr [a, b]] = some m2 ∧
        m2.cursor = (r, c) ∧
        (CursorInv m2 ↔ (0 ≤ r ∧ r < m.rows ∧ 0 ≤ c ∧ c ≤ m.cols))) := by
  constructor
  · obtain ⟨k1, k2, k3, k4⟩ := hinv
    simp only [List.mem_cons, List.mem_singleton, List.not_mem_nil, or_false] at hev
    rcases hev with e | e | e | e | e | e | e <;> subst e
    · rw [handleUpdate_put] at h
      exact put_cursor env m m1 args hwf ⟨k1, k2, k3, k4⟩ h
    · rw [handleUpdate_eol_clear] at h
      rcases eolClear_some m m1 args h with ⟨_, e⟩ | ⟨_, ln, ln1, _, _, _, e⟩
      · rw [e]; exact ⟨⟨k1, k2, k3, k4⟩, rfl, rfl⟩
      · rw [e]; exact ⟨⟨k1, k2, k3, k4⟩, rfl, rfl⟩
    · rw [handleUpdate_clear] at h
      obtain ⟨_, e⟩ := reallocate_some m m1 h
      rw [e]
      exact ⟨⟨le_refl _, by show (0 : Int) < m.rows; omega, le_refl _,
        by show (0 : Int) ≤ m.cols; omega⟩, rfl, rfl⟩
    · rw [handleUpdate_resize] at h
      obtain ⟨_, e⟩ := reallocate_some m m1 h
      rw [e]
      exact ⟨⟨le_refl _, by show (0 : Int) < m.rows; omega, le_refl _,
        by show (0 : Int) ≤ m.cols; omega⟩, rfl, rfl⟩
    · rw [handleUpdate_highlight_set] at h
      obtain ⟨_, h2, _, _, h5, h6, _⟩ := highlightSet_fields env m m1 args h
      exact ⟨by unfold CursorInv; rw [h2, h5, h6]; exact ⟨k1, k2, k3, k4⟩, h5, h6⟩
    · rw [handleUpdate_set_scroll_region] at h
      obtain ⟨_, h2, _, _, h5, h6, _⟩ := setScrollRegion_fields env m m1 args h
      exact ⟨by unfold CursorInv; rw [h2, h5, h6]; exact ⟨k1, k2, k3, k4⟩, h5, h6⟩
    · rw [handleUpdate_scroll] at h
      obtain ⟨n, _, hs⟩ := scroll_some m m1 args h
      obtain ⟨h2, _, _, h5, h6, _⟩ := scrollBy_some m m1 n _ hs
      exact ⟨by unfold CursorInv; rw [h2, h5, h6]; exact ⟨k1, k2, k3, k4⟩, h5, h6⟩
  · intro a b r c ha hb
    refine ⟨{ m with cursor := (r, c) }, ?_, rfl, Iff.rfl⟩
    rw [handleUpdate_cursor_goto]
    simp [cursorGoto, index, ha, hb]

/-- C14 (counterexample): on the 3 x 3 sample grid, whose cursor (1, 1) satisfies
the invariant, `cursor_goto(100, 100)` leaves the cursor at (100, 100), outside
the grid. -/
theorem cursorGoto_counterexample :
    CursorInv sampleGrid ∧
    ∃ m1, handleUpdate sampleEnv sampleGrid
        [Value.str "cursor_goto", Value.arr [Value.int64 100, Value.int64 100]] = some m1 ∧
      m1.cursor = (100, 100) ∧ ¬ CursorInv m1 :=
  ⟨by unfold CursorInv; decide, _, rfl, rfl, by unfold CursorInv; decide⟩

/-- C14 (as amended) at a concrete input: a `put` of three characters at (1, 1)
of the sample grid stops the cursor at column 3, one past the last column. -/
theorem cursor_invariant_preserved_witness :
    ∃ m1, handleUpdate sampleEnv sampleGrid
        [Value.str "put", Value.arr [Value.str "x"], Value.arr [Value.str "y"],
          Value.arr [Value.str "z"]] = some m1 ∧
      m1.cursor = (1, 3) ∧ CursorInv m1 :=
  ⟨_, rfl, rfl,
    (cursor_invariant_preserved sampleEnv sampleGrid _ "put"
      [Value.arr [Value.str "x"], Value.arr [Value.str "y"], Value.arr [Value.str "z"]]
      (by decide) (by unfold CursorInv; decide) (by decide) rfl).1.1⟩

/-! ### Malformed commands -/

theorem index_short {α : Type} (s : List α) (i : Nat) (h : s.length ≤ i) :
    index s (i : Int) = none := by
  rw [index_natCast]
  exact List.getElem?_eq_none h

theorem malformed_faults (env : Env) (u : List Value) (h : Malformed env u) (s : MiniMap) :
    handleUpdate env s u = none := by
  cases h with
  | cursor_goto_no_args => rfl
  | cursor_goto_short pos rest h =>
    rw [handleUpdate_cursor_goto]
    match pos, h with
    | [], _ => rfl
    | [a], _ =>
      have h0 : index [a] 0 = some a := rfl
      have h1 : index [a] 1 = none := rfl
      simp only [cursorGoto, h0, h1]
      cases env.ReflectToInt a <;> rfl
  | cursor_goto_not_list v rest h =>
    rw [handleUpdate_cursor_goto]
    cases v with
    | arr xs => exact absurd rfl (h xs)
    | null => rfl
    | bool _ => rfl
    | int64 _ => rfl
    | uint64 _ => rfl
    | str _ => rfl
    | dict _ => rfl
  | cursor_goto_not_int a b more rest h =>
    rw [handleUpdate_cursor_goto]
    have h0 : index (a :: b :: more) 0 = some a := rfl
    have h1 : index (a :: b :: more) 1 = some b := by
      have := index_natCast (a :: b :: more) 1
      simpa using this
    simp only [cursorGoto, h0, h1]
    rcases h with h | h
    · rw [h]
    · rw [h]
      cases env.ReflectToInt a <;> rfl
  | scroll_no_args => rfl
  | scroll_empty_list rest => rfl
  | scroll_not_list v rest h =>
    rw [handleUpdate_scroll]
    cases v with
    | arr xs => exact absurd rfl (h xs)
    | null => rfl
    | bool _ => rfl
    | int64 _ => rfl
    | uint64 _ => rfl
    | str _ => rfl
    | dict _ => rfl
  | set_scroll_region_no_args => rfl
  | set_scroll_region_short arg rest h =>
    rw [handleUpdate_set_scroll_region]
    have h3 : index arg 3 = none := index_short arg 3 (by omega)
    simp only [setScrollRegion, h3]
    split <;> first | rfl | simp_all
  | set_scroll_region_not_list v rest h =>
    rw [handleUpdate_set_scroll_region]
    cases v with
    | arr xs => exact absurd rfl (h xs)
    | null => rfl
    | bool _ => rfl
    | int64 _ => rfl
    | uint64 _ => rfl
    | str _ => rfl
    | dict _ => rfl
  | highlight_set_not_list v rest h =>
    rw [handleUpdate_highlight_set]
    cases v with
    | arr xs => exact absurd rfl (h xs)
    | null => rfl
    | bool _ => rfl
    | int64 _ => rfl
    | uint64 _ => rfl
    | str _ => rfl
    | dict _ => rfl
  | highlight_set_empty_list rest => rfl
  | highlight_set_not_dict v more rest h =>
    rw [handleUpdate_highlight_set]
    cases v with
    | dict kvs => exact absurd rfl (h kvs)
    | null => rfl
    | bool _ => rfl
    | int64 _ => rfl
    | uint64 _ => rfl
    | str _ => rfl
    | arr _ => rfl
  | not_named v rest h =>
    cases v with
    | str s => exact absurd rfl (h s)
    | null => rfl
    | bool _ => rfl
    | int64 _ => rfl
    | uint64 _ => rfl
    | arr _ => rfl
    | dict _ => rfl
  | empty => rfl

theorem foldlM_abort {α β : Type} (f : β → α → Option β) (pre post : List α) (bad : α) (b : β)
    (h : ∀ s, f s bad = none) : (pre ++ bad :: post).foldlM f b = none := by
  rw [List.foldlM_append]
  cases pre.foldlM f b with
  | none => rfl
  | some b1 =>
    show (bad :: post).foldlM f b1 = none
    rw [List.foldlM_cons, h b1]
    rfl

/-- A `put` on a well-formed grid with the cursor inside it faults as soon as
its loop faults. -/
theorem put_loop_fault (env : Env) (s : MiniMap) (args : List Value) (hwf : WellFormed s)
    (hinv : CursorInv s) (hpos : 0 < s.cols)
    (hf : ∀ ln : List (Option Cell), (ln.length : Int) = s.cols →
      args.foldlM (putGroup env s.highlight)
        { line := ln, col := s.cursor.2, numChars := 0, lastCell := none,
          oldNormalWidth := true } = none) :
    put env s args = none := by
  obtain ⟨k1, k2, k3, k4⟩ := hinv
  obtain ⟨r, hr⟩ : ∃ r : Nat, (r : Int) = s.cursor.1 := ⟨s.cursor.1.toNat, by omega⟩
  have hrlt : r < s.content.length := by have := hwf.1; omega
  obtain ⟨ln, hln⟩ : ∃ l, s.content[r]? = some l := ⟨s.content[r], List.getElem?_eq_getElem hrlt⟩
  have hlen : (ln.length : Int) = s.cols := hwf.2 ln (List.getElem?_mem hln)
  obtain ⟨x, hx⟩ : ∃ x : Nat, (x : Int) =
      (if s.cursor.2 ≥ (ln.length : Int) then (ln.length : Int) - 1 else s.cursor.2) ∧
      x < ln.length := by
    by_cases hc : s.cursor.2 ≥ (ln.length : Int)
    · exact ⟨ln.length - 1, by rw [if_pos hc]; omega, by omega⟩
    · exact ⟨s.cursor.2.toNat, by rw [if_neg hc]; omega, by omega⟩
  obtain ⟨cell, hcell⟩ : ∃ cell, ln[x]? = some cell := ⟨ln[x], List.getElem?_eq_getElem hx.2⟩
  have hnot : ¬ ((r : Int) ≥ s.rows) := by omega
  have hloop := hf ln hlen
  simp only [put, ← hr, hnot, if_false, index_natCast, hln, ← hx.1, hcell, hloop]

/-- C15 (as amended): the handlers do not check the shape of their arguments.
For the shapes of `Malformed`, for a `put` whose first group is not a list (on a
well-formed grid with the cursor in bounds and at least one column) and for a
`put` whose first character is not a string (cursor column inside the row), the
handler faults on the unchecked assertion or index, `handleRedraw` has no
recovery, and the batch fails as a whole: no later command is applied and
`update` does not run.  A mismatch the handler does not look at passes without a
fault: a `scroll` whose count is not an integer scrolls by 0, `highlight_set`
with no argument leaves the state as it is, `eol_clear`, `clear` and `resize` do
not read their arguments, and a `put` whose cursor row is at or past `rows`
returns at once whatever its arguments.  A command with a name that has no case
is skipped without effect. -/
theorem malformed_command_aborts (env : Env) (m : MiniMap) (pre post : List (List Value))
    (bad : List Value) (hbad : Malformed env bad) :
    (∀ s, handleUpdate env s bad = none) ∧
    handleRedraw env m (pre ++ bad :: post) = none ∧
    (∀ (s : MiniMap) (v : Value) (rest : List Value), (∀ xs, v ≠ Value.arr xs) →
      WellFormed s → CursorInv s → 0 < s.cols →
      handleUpdate env s (Value.str "put" :: v :: rest) = none) ∧
    (∀ (s : MiniMap) (v : Value) (chars rest : List Value), (∀ t, v ≠ Value.str t) →
      WellFormed s → CursorInv s → s.cursor.2 < s.cols →
      handleUpdate env s (Value.str "put" :: Value.arr (v :: chars) :: rest) = none) ∧
    (∀ (s : MiniMap) (v : Value) (more rest : List Value),
      (∀ i, v ≠ Value.int64 i) → (∀ k, v ≠ Value.uint64 k) →
      handleUpdate env s (Value.str "scroll" :: Value.arr (v :: more) :: rest) =
        scrollBy s 0 (effectiveRegion s)) ∧
    (∀ s : MiniMap, handleUpdate env s [Value.str "highlight_set"] = some s) ∧
    (∀ (s : MiniMap) (args : List Value),
      handleUpdate env s (Value.str "eol_clear" :: args) = eolClear s [] ∧
      handleUpdate env s (Value.str "clear" :: args) = reallocate s ∧
      handleUpdate env s (Value.str "resize" :: args) = reallocate s) ∧
    (∀ (s : MiniMap) (args : List Value), s.cursor.1 ≥ s.rows →
      handleUpdate env s (Value.str "put" :: args) = some s) ∧
    (∀ (s : MiniMap) (name : String) (args : List Value),
      name ∉ ["cursor_goto", "put", "eol_clear", "clear", "resize", "highlight_set",
        "set_scroll_region", "scroll"] →
      handleUpdate env s (Value.str name :: args) = some s) := by
  refine ⟨malformed_faults env bad hbad, ?_, ?_, ?_, ?_, ?_, ?_, ?_, ?_⟩
  · unfold handleRedraw
    rw [foldlM_abort (handleUpdate env) pre post bad m (malformed_faults env bad hbad)]
    rfl
  · intro s v rest hv hwf hinv hpos
    rw [handleUpdate_put]
    apply put_loop_fault env s _ hwf hinv hpos
    intro ln _
    rw [List.foldlM_cons]
    cases v with
    | arr xs => exact absurd rfl (hv xs)
    | null => rfl
    | bool _ => rfl
    | int64 _ => rfl
    | uint64 _ => rfl
    | str _ => rfl
    | dict _ => rfl
  · intro s v chars rest hv hwf hinv hc
    have h0 := hinv.2.2.1
    rw [handleUpdate_put]
    apply put_loop_fault env s _ hwf hinv (by omega)
    intro ln hlen
    obtain ⟨c, hcn⟩ : ∃ c : Nat, (c : Int) = s.cursor.2 := ⟨s.cursor.2.toNat, by omega⟩
    have hnot : ¬ ((c : Int) ≥ (ln.length : Int)) := by omega
    have hclt : c < ln.length := by omega
    obtain ⟨cell, hcell⟩ : ∃ cell, ln[c]? = some cell := ⟨ln[c], List.getElem?_eq_getElem hclt⟩
    simp only [List.foldlM_cons, putGroup, putChar, ← hcn, hnot, if_false, index_natCast, hcell]
    cases v with
    | str t => exact absurd rfl (hv t)
    | null => rfl
    | bool _ => rfl
    | int64 _ => rfl
    | uint64 _ => rfl
    | arr _ => rfl
    | dict _ => rfl
  · intro s v more rest h1 h2
    rw [handleUpdate_scroll]
    cases v with
    | int64 i => exact absurd rfl (h1 i)
    | uint64 k => exact absurd rfl (h2 k)
    | null => rfl
    | bool _ => rfl
    | str _ => rfl
    | arr _ => rfl
    | dict _ => rfl
  · intro s
    rfl
  · intro s args
    exact ⟨rfl, rfl, rfl⟩
  · intro s args hrow
    rw [handleUpdate_put]
    simp only [put, hrow, if_true]
  · intro s name args hname
    simp only [List.mem_cons, List.mem_singleton, List.not_mem_nil, or_false, not_or] at hname
    obtain ⟨h1, h2, h3, h4, h5, h6, h7, h8⟩ := hname
    simp only [handleUpdate, h1, h2, h3, h4, h5, h6, h7, h8, if_false]

/-- C15 (counterexample): a batch whose first command is `cursor_goto` with one
element and whose second is a well-formed `put` fails as a whole; the later
`put` is not applied. -/
theorem malformed_batch_counterexample :
    handleRedraw sampleEnv sampleGrid
      [[Value.str "cursor_goto", Value.arr [Value.int64 0]],
       [Value.str "put", Value.arr [Value.str "x"]]] = none ∧
    ∃ m1, handleRedraw sampleEnv sampleGrid [[Value.str "put", Value.arr [Value.str "x"]]]
        = some m1 ∧ cellAt m1.content 1 1 ≠ cellAt sampleGrid.content 1 1 :=
  ⟨rfl, _, rfl, by decide⟩

/-- C15 (as amended) at a concrete input: a `scroll` with no arguments between
two well-formed commands makes the batch fail. -/
theorem malformed_command_aborts_witness :
    handleRedraw sampleEnv sampleGrid
      ([[Value.str "eol_clear"]] ++ [Value.str "scroll"] ::
        [[Value.str "put", Value.arr [Value.str "x"]]]) = none :=
  (malformed_command_aborts sampleEnv sampleGrid [[Value.str "eol_clear"]]
    [[Value.str "put", Value.arr [Value.str "x"]]] [Value.str "scroll"]
    Malformed.scroll_no_args).2.1

/-! ### Writes past the end of a row -/

/-- The value of `put` on a well-formed grid with the cursor row inside it and at
least one column, once the result `st` of its loop is known. -/
theorem put_eval (env : Env) (m : MiniMap) (r c : Nat) (args : List Value)
    (ln : List (Option Cell)) (st : PutState)
    (hcur : m.cursor = ((r : Int), (c : Int))) (hr : (r : Int) < m.rows)
    (hln : m.content[r]? = some ln) (hpos : 0 < ln.length)
    (hst : args.foldlM (putGroup env m.highlight)
      { line := ln, col := (c : Int), numChars := 0, lastCell := none, oldNormalWidth := true }
      = some st) :
    put env m args =
      (putSpan st.line (((if ln.length ≤ c then ln.length - 1 else c : Nat)) : Int) (putWidth st)
        (!isWide (ln[if ln.length ≤ c then ln.length - 1 else c]?.join))).map
        (fun span => queueRedraw
          { m with content := m.content.set r st.line, cursor := ((r : Int), st.col) }
          span.1 r span.2 1) := by
  have hx : (if ln.length ≤ c then ln.length - 1 else c) < ln.length := by
    split_ifs <;> omega
  have hxcast : (if (c : Int) ≥ (ln.length : Int) then (ln.length : Int) - 1 else (c : Int)) =
      (((if ln.length ≤ c then ln.length - 1 else c) : Nat) : Int) := by
    split_ifs <;> omega
  obtain ⟨cell, hcell⟩ : ∃ cell, ln[if ln.length ≤ c then ln.length - 1 else c]? = some cell :=
    ⟨ln[if ln.length ≤ c then ln.length - 1 else c], List.getElem?_eq_getElem hx⟩
  have hnot : ¬ ((r : Int) ≥ m.rows) := by omega
  simp only [put, hcur, hnot, if_false, index_natCast, hln, hxcast, hcell, hst,
    Int.toNat_ofNat, Option.join, Option.some_bind, id]
  generalize putSpan st.line _ (putWidth st) (!isWide cell) = sp
  cases sp <;> rfl

/-- Once the column has reached the end of the line, the character loop skips
every further element, whatever it is. -/
theorem putChar_full (env : Env) (hl : Highlight) (vs : List Value) (st : PutState)
    (h : st.col ≥ (st.line.length : Int)) : vs.foldlM (putChar env hl) st = some st := by
  induction vs with
  | nil => rfl
  | cons v rest ih =>
    rw [List.foldlM_cons]
    have : putChar env hl st v = some st := by
      simp only [putChar, h, if_true]
    rw [this]
    exact ih

/-- The character loop of `put` over a run that may pass the end of the line:
the characters that fit are written, the others are skipped. -/
theorem putChar_fold_overflow (env : Env) (hl : Highlight) (chars : List String)
    (st : PutState) (c : Nat) (hc : st.col = (c : Int)) (hle : c ≤ st.line.length) :
    ∃ st1, (chars.map Value.str).foldlM (putChar env hl) st = some st1 ∧
      st1.line.length = st.line.length ∧
      st1.col = ((min (c + chars.length) st.line.length : Nat) : Int) ∧
      (∀ j, j < c ∨ c + chars.length ≤ j → st1.line[j]? = st.line[j]?) ∧
      (∀ i s, chars[i]? = some s → c + i < st.line.length →
        st1.line[c + i]? = some (some (newCell env hl s))) := by
  have hsplit : chars = chars.take (st.line.length - c) ++ chars.drop (st.line.length - c) :=
    (List.take_append_drop _ _).symm
  have htl : (chars.take (st.line.length - c)).length = min (st.line.length - c) chars.length :=
    List.length_take _ _
  obtain ⟨st1, h1, h2, h3, _, h5, h6, _, _⟩ := putChar_fold env hl
    (chars.take (st.line.length - c)) st c hc (by rw [htl]; omega)
  have hover : ((chars.drop (st.line.length - c)).map Value.str).foldlM (putChar env hl) st1
      = some st1 := by
    by_cases hk : chars.length ≤ st.line.length - c
    · rw [List.drop_of_length_le hk]
      rfl
    · apply putChar_full
      rw [h3, h2, htl]
      have : min (st.line.length - c) chars.length = st.line.length - c := by omega
      rw [this]
      push_cast
      omega
  refine ⟨st1, ?_, h2, ?_, ?_, ?_⟩
  · rw [hsplit, List.map_append, List.foldlM_append, h1]
    exact hover
  · rw [h3, htl]
    congr 1
    omega
  · intro j hj
    apply h5
    rw [htl]
    rcases hj with hj | hj
    · exact Or.inl hj
    · right
      omega
  · intro i s hi hlt
    apply h6
    rw [List.getElem?_take_of_lt (by omega)]
    exact hi

theorem putSpan_origin (ln : List (Option Cell)) (n : Int) (old : Bool) :
    putSpan ln 0 n old = some (0, n) := by
  simp [putSpan]

theorem set_of_getElem? {α : Type} (l : List α) (i : Nat) (a : α) (h : l[i]? = some a) :
    l.set i a = l := by
  apply List.ext_getElem?
  intro j
  by_cases hj : i = j
  · subst hj
    have hlt : i < l.length := by
      rcases Nat.lt_or_ge i l.length with h1 | h1
      · exact h1
      · rw [List.getElem?_eq_none h1] at h
        cases h
    rw [List.getElem?_set_self hlt, h]
  · rw [List.getElem?_set_ne hj]

/-- C16 (amended): on a well-formed grid with at least one column, a put whose
cursor row is at or past the last row returns with the state unchanged; a put
whose cursor column is at or past the last column writes no cell and leaves the
cursor where it is, but still queues a span at the end of the row (of width 0 at
column `cols - 1`, or of width 1 at column `cols - 2`); and a put that starts in
range writes the characters that fit, discards the others without writing any
cell, keeps the size of the buffer and leaves the cursor at `min (c + k) cols`. -/
theorem put_past_the_grid (env : Env) (m : MiniMap) (r c : Nat) (groups : List (List String))
    (hwf : WellFormed m) (hcur : m.cursor = ((r : Int), (c : Int))) (hpos : 0 < m.cols) :
    (m.rows ≤ (r : Int) → ∀ args, put env m args = some m) ∧
    ((r : Int) < m.rows → m.cols ≤ (c : Int) →
      ∃ m1, put env m (putArgs groups) = some m1 ∧
        m1.content = m.content ∧ m1.cursor = m.cursor ∧
        (m1.queueRedrawArea = (queueRedraw m (m.cols - 1) r 0 1).queueRedrawArea ∨
          (1 < m.cols ∧
            m1.queueRedrawArea = (queueRedraw m (m.cols - 2) r 1 1).queueRedrawArea))) ∧
    ((r : Int) < m.rows → (c : Int) < m.cols →
      ∃ m1, put env m (putArgs groups) = some m1 ∧
        WellFormed m1 ∧ m1.rows = m.rows ∧ m1.cols = m.cols ∧
        m1.cursor = ((r : Int), min ((c : Int) + groups.flatten.length) m.cols) ∧
        (∀ i s, groups.flatten[i]? = some s → ((c + i : Nat) : Int) < m.cols →
          cellAt m1.content r (c + i) = some (newCell env m.highlight s)) ∧
        (∀ r1 c1, r1 ≠ r ∨ c1 < c ∨ c + groups.flatten.length ≤ c1 →
          cellAt m1.content r1 c1 = cellAt m.content r1 c1)) := by
  refine ⟨?_, ?_, ?_⟩
  · intro hrow args
    have hge : m.cursor.1 ≥ m.rows := by rw [hcur]; exact hrow
    simp only [put, hge, if_true]
  · intro hr hc
    obtain ⟨hrows, hcols⟩ := hwf
    have hrlt : r < m.content.length := by omega
    obtain ⟨ln, hln⟩ : ∃ l, m.content[r]? = some l :=
      ⟨m.content[r], List.getElem?_eq_getElem hrlt⟩
    have hlen : (ln.length : Int) = m.cols := hcols ln (List.getElem?_mem hln)
    have hst : (putArgs groups).foldlM (putGroup env m.highlight)
        { line := ln, col := (c : Int), numChars := 0, lastCell := none, oldNormalWidth := true }
        = some { line := ln, col := (c : Int), numChars := 0, lastCell := none,
                 oldNormalWidth := true } := by
      rw [putGroup_fold]
      apply putChar_full
      show (c : Int) ≥ (ln.length : Int)
      omega
    have hev := put_eval env m r c (putArgs groups) ln _ hcur hr hln (by omega) hst
    have hle : ln.length ≤ c := by omega
    simp only [hle, if_true] at hev
    have hw : putWidth (⟨ln, (c : Int), 0, none, true⟩ : PutState) = 0 := rfl
    rw [hw] at hev
    have hset : m.content.set r ln = m.content := set_of_getElem? _ _ _ hln
    have hsame : ({ m with content := m.content.set r ln, cursor := ((r : Int), (c : Int)) }
        : MiniMap) = m := by
      rw [hset, ← hcur]
    rw [hsame] at hev
    have hxlt : ln.length - 1 < ln.length := by omega
    by_cases hone : ln.length = 1
    · have hx0 : ((ln.length - 1 : Nat) : Int) = 0 := by omega
      rw [hx0, putSpan_origin] at hev
      refine ⟨_, hev, rfl, rfl, Or.inl ?_⟩
      have : m.cols - 1 = 0 := by omega
      rw [this]
    · obtain ⟨span, hspan, hcase⟩ := putSpan_cases ln (ln.length - 1) 0
        (!isWide (ln[ln.length - 1]?.join)) hxlt
      rw [hspan] at hev
      have hx : ((ln.length - 1 : Nat) : Int) = m.cols - 1 := by omega
      refine ⟨_, hev, rfl, rfl, ?_⟩
      rcases hcase with h | h
      · left
        rw [h, hx]
      · right
        refine ⟨by omega, ?_⟩
        rw [h, hx]
        have : m.cols - 1 - 1 = m.cols - 2 := by omega
        show (queueRedraw m (m.cols - 1 - 1) r (0 + 1) 1).queueRedrawArea = _
        rw [this]
        rfl
  · intro hr hc
    have hwf0 := hwf
    obtain ⟨hrows, hcols⟩ := hwf
    have hrlt : r < m.content.length := by omega
    obtain ⟨ln, hln⟩ : ∃ l, m.content[r]? = some l :=
      ⟨m.content[r], List.getElem?_eq_getElem hrlt⟩
    have hlen : (ln.length : Int) = m.cols := hcols ln (List.getElem?_mem hln)
    obtain ⟨st, h1, h2, h3, h4, h5⟩ := putChar_fold_overflow env m.highlight groups.flatten
      { line := ln, col := (c : Int), numChars := 0, lastCell := none, oldNormalWidth := true }
      c rfl (by show c ≤ ln.length; omega)
    have h2a : st.line.length = ln.length := h2
    have hst : (putArgs groups).foldlM (putGroup env m.highlight)
        { line := ln, col := (c : Int), numChars := 0, lastCell := none, oldNormalWidth := true }
        = some st := by
      rw [putGroup_fold]
      exact h1
    have hev := put_eval env m r c (putArgs groups) ln st hcur hr hln (by omega) hst
    have hle : ¬ ln.length ≤ c := by omega
    simp only [hle, if_false] at hev
    obtain ⟨span, hspan, _⟩ := putSpan_cases st.line c (putWidth st) (!isWide (ln[c]?.join))
      (by omega)
    rw [hspan] at hev
    refine ⟨_, hev, ?_, rfl, rfl, ?_, ?_, ?_⟩
    · refine ⟨?_, ?_⟩
      · show (((m.content.set r st.line).length : Nat) : Int) = m.rows
        rw [List.length_set]
        exact hrows
      · intro l hl
        show ((l.length : Nat) : Int) = m.cols
        rcases List.mem_or_eq_of_mem_set hl with h | h
        · exact hcols l h
        · rw [h, h2a]
          exact hlen
    · show ((r : Int), st.col) = _
      rw [h3]
      congr 1
      show ((min (c + groups.flatten.length) ln.length : Nat) : Int) = _
      omega
    · intro i s hi hlt
      show cellAt (m.content.set r st.line) r (c + i) = _
      rw [cellAt_set_eq _ _ _ _ hrlt, h5 i s hi (by show c + i < ln.length; omega)]
      rfl
    · intro r1 c1 hout
      show cellAt (m.content.set r st.line) r1 c1 = _
      by_cases hr1 : r1 = r
      · subst hr1
        rw [cellAt_set_eq _ _ _ _ hrlt, cellAt_of_getElem? _ _ _ _ hln]
        have : c1 < c ∨ c + groups.flatten.length ≤ c1 := by
          rcases hout with h | h
          · exact absurd rfl h
          · exact h
        rw [h4 c1 this]
      · exact cellAt_set_ne _ _ _ _ _ hr1

/-- C16 (counterexample): on the 3 x 3 sample grid with the cursor at (1, 3), one
column past the last, a put of one character writes no cell and leaves the cursor
in place, yet the damage rectangle goes from the empty sentinel (3, 3, 0, 0) to
(2, 1, 2, 2). -/
theorem put_past_last_column_counterexample :
    WellFormed { sampleGrid with cursor := (1, 3) } ∧
    ∃ m1, put sampleEnv { sampleGrid with cursor := (1, 3) } (putArgs [["x"]]) = some m1 ∧
      m1.content = sampleGrid.content ∧ m1.cursor = (1, 3) ∧
      m1.queueRedrawArea = { x0 := 2, y0 := 1, x1 := 2, y1 := 2 } ∧
      m1.queueRedrawArea ≠ sampleGrid.queueRedrawArea :=
  ⟨by decide, _, rfl, by decide, by decide, by decide, by decide⟩

/-- C16 (as amended) at a concrete input: x, y, z written from (1, 1) of the 3 x 3
sample grid; x and y are stored, z is discarded, the cursor stops at column 3. -/
theorem put_past_the_grid_witness :
    ∃ m1, put sampleEnv sampleGrid (putArgs [["x", "y", "z"]]) = some m1 ∧
      WellFormed m1 ∧ m1.cursor = (1, 3) ∧
      cellAt m1.content 1 1 = some (newCell sampleEnv sampleGrid.highlight "x") ∧
      cellAt m1.content 1 2 = some (newCell sampleEnv sampleGrid.highlight "y") ∧
      cellAt m1.content 1 0 = letter "d" ∧ cellAt m1.content 2 0 = letter "g" := by
  obtain ⟨m1, h1, h2, _, _, h3, h4, h5⟩ :=
    (put_past_the_grid sampleEnv sampleGrid 1 1 [["x", "y", "z"]] (by decide) rfl
      (by decide)).2.2 (by decide) (by decide)
  refine ⟨m1, h1, h2, ?_, h4 0 "x" rfl (by decide), h4 1 "y" rfl (by decide), ?_, ?_⟩
  · rw [h3]
    rfl
  · rw [h5 1 0 (Or.inr (Or.inl (by decide)))]
    rfl
  · rw [h5 2 0 (Or.inl (by decide))]
    rfl

/-! ### The damage rectangle as a bounding box -/

theorem isMinOver_unique (v w d : Int) (xs ys : List Int) (h : ∀ x, x ∈ xs ↔ x ∈ ys)
    (hv : IsMinOver v d xs) (hw : IsMinOver w d ys) : v = w := by
  obtain ⟨v1, v2, v3⟩ := hv
  obtain ⟨w1, w2, w3⟩ := hw
  apply le_antisymm
  · rcases w3 with e | e
    · omega
    · exact v2 w ((h w).mpr e)
  · rcases v3 with e | e
    · omega
    · exact w2 v ((h v).mp e)

theorem isMaxOver_unique (v w d : Int) (xs ys : List Int) (h : ∀ x, x ∈ xs ↔ x ∈ ys)
    (hv : IsMaxOver v d xs) (hw : IsMaxOver w d ys) : v = w := by
  obtain ⟨v1, v2, v3⟩ := hv
  obtain ⟨w1, w2, w3⟩ := hw
  apply le_antisymm
  · rcases v3 with e | e
    · omega
    · exact w2 v ((h v).mp e)
  · rcases w3 with e | e
    · omega
    · exact v2 w ((h w).mpr e)

theorem isMinOver_cons (v d x : Int) (xs : List Int)
    (h : IsMinOver v (if x < d then x else d) xs) : IsMinOver v d (x :: xs) := by
  obtain ⟨h1, h2, h3⟩ := h
  refine ⟨?_, ?_, ?_⟩
  · split_ifs at h1 <;> omega
  · intro z hz
    rcases List.mem_cons.mp hz with e | e
    · subst e; split_ifs at h1 <;> omega
    · exact h2 z e
  · rcases h3 with e | e
    · split_ifs at e with hlt
      · exact Or.inr (by rw [e]; exact List.mem_cons_self _ _)
      · exact Or.inl e
    · exact Or.inr (List.mem_cons_of_mem _ e)

theorem isMaxOver_cons (v d x : Int) (xs : List Int)
    (h : IsMaxOver v (if x > d then x else d) xs) : IsMaxOver v d (x :: xs) := by
  obtain ⟨h1, h2, h3⟩ := h
  refine ⟨?_, ?_, ?_⟩
  · split_ifs at h1 <;> omega
  · intro z hz
    rcases List.mem_cons.mp hz with e | e
    · subst e; split_ifs at h1 <;> omega
    · exact h2 z e
  · rcases h3 with e | e
    · split_ifs at e with hlt
      · exact Or.inr (by rw [e]; exact List.mem_cons_self _ _)
      · exact Or.inl e
    · exact Or.inr (List.mem_cons_of_mem _ e)

/-- After a sequence of `queueRedraw` calls each corner of the damage rectangle
is the extreme of its old value and the corners of the queued rectangles. -/
theorem queueAll_spec (rects : List Rect) : ∀ m : MiniMap,
    IsMinOver (queueAll m rects).queueRedrawArea.x0 m.queueRedrawArea.x0
      (rects.map (fun q => q.x)) ∧
    IsMinOver (queueAll m rects).queueRedrawArea.y0 m.queueRedrawArea.y0
      (rects.map (fun q => q.y)) ∧
    IsMaxOver (queueAll m rects).queueRedrawArea.x1 m.queueRedrawArea.x1
      (rects.map (fun q => q.x + q.width)) ∧
    IsMaxOver (queueAll m rects).queueRedrawArea.y1 m.queueRedrawArea.y1
      (rects.map (fun q => q.y + q.height)) := by
  induction rects with
  | nil =>
    intro m
    simp [queueAll, IsMinOver, IsMaxOver]
  | cons q rest ih =>
    intro m
    obtain ⟨h1, h2, h3, h4⟩ := ih (queueRedraw m q.x q.y q.width q.height)
    exact ⟨isMinOver_cons _ _ _ _ h1, isMinOver_cons _ _ _ _ h2,
      isMaxOver_cons _ _ _ _ h3, isMaxOver_cons _ _ _ _ h4⟩

/-- C11: `update` leaves the empty sentinel (cols, rows, 0, 0); from it, after
any sequence of `queueRedraw` calls with non-empty rectangles inside the grid,
the damage rectangle is their bounding box: it contains every queued rectangle,
each of its corners is attained by one of them (the least start column and row,
the greatest end column and row), and it is the same for every order of the
calls.  With no call it stays the sentinel. -/
theorem damage_is_bounding_box (m : MiniMap) (rects rects2 : List Rect)
    (hin : ∀ q ∈ rects, 0 ≤ q.x ∧ 0 ≤ q.y ∧ 0 < q.width ∧ 0 < q.height ∧
      q.x + q.width ≤ m.cols ∧ q.y + q.height ≤ m.rows)
    (hperm : rects2.Perm rects) :
    (update m).queueRedrawArea = { x0 := m.cols, y0 := m.rows, x1 := 0, y1 := 0 } ∧
    (rects = [] → (queueAll (update m) rects).queueRedrawArea =
      { x0 := m.cols, y0 := m.rows, x1 := 0, y1 := 0 }) ∧
    (∀ q ∈ rects,
      (queueAll (update m) rects).queueRedrawArea.x0 ≤ q.x ∧
      (queueAll (update m) rects).queueRedrawArea.y0 ≤ q.y ∧
      q.x + q.width ≤ (queueAll (update m) rects).queueRedrawArea.x1 ∧
      q.y + q.height ≤ (queueAll (update m) rects).queueRedrawArea.y1) ∧
    (rects ≠ [] →
      (∃ q ∈ rects, (queueAll (update m) rects).queueRedrawArea.x0 = q.x) ∧
      (∃ q ∈ rects, (queueAll (update m) rects).queueRedrawArea.y0 = q.y) ∧
      (∃ q ∈ rects, (queueAll (update m) rects).queueRedrawArea.x1 = q.x + q.width) ∧
      (∃ q ∈ rects, (queueAll (update m) rects).queueRedrawArea.y1 = q.y + q.height)) ∧
    (queueAll (update m) rects2).queueRedrawArea =
      (queueAll (update m) rects).queueRedrawArea := by
  obtain ⟨a1, a2, a3, a4⟩ := queueAll_spec rects (update m)
  obtain ⟨b1, b2, b3, b4⟩ := queueAll_spec rects2 (update m)
  have hmem : ∀ (f : Rect → Int) (z : Int), z ∈ rects2.map f ↔ z ∈ rects.map f := by
    intro f z
    exact (hperm.map f).mem_iff
  refine ⟨rfl, ?_, ?_, ?_, ?_⟩
  · intro h
    subst h
    rfl
  · intro q hq
    exact ⟨a1.2.1 _ (List.mem_map_of_mem (fun q => q.x) hq),
      a2.2.1 _ (List.mem_map_of_mem (fun q => q.y) hq),
      a3.2.1 _ (List.mem_map_of_mem (fun q => q.x + q.width) hq),
      a4.2.1 _ (List.mem_map_of_mem (fun q => q.y + q.height) hq)⟩
  · intro hne
    obtain ⟨q0, hq0⟩ := List.exists_mem_of_ne_nil _ hne
    obtain ⟨k1, k2, k3, k4, k5, k6⟩ := hin q0 hq0
    have e1 := a1.2.1 _ (List.mem_map_of_mem (fun q => q.x) hq0)
    have e2 := a2.2.1 _ (List.mem_map_of_mem (fun q => q.y) hq0)
    have e3 := a3.2.1 _ (List.mem_map_of_mem (fun q => q.x + q.width) hq0)
    have e4 := a4.2.1 _ (List.mem_map_of_mem (fun q => q.y + q.height) hq0)
    simp only [update] at a1 a2 a3 a4 e1 e2 e3 e4
    refine ⟨?_, ?_, ?_, ?_⟩
    · rcases a1.2.2 with e | e
      · simp only [update] at e ⊢; omega
      · obtain ⟨q, hq, hqe⟩ := List.mem_map.mp e
        exact ⟨q, hq, hqe.symm⟩
    · rcases a2.2.2 with e | e
      · simp only [update] at e ⊢; omega
      · obtain ⟨q, hq, hqe⟩ := List.mem_map.mp e
        exact ⟨q, hq, hqe.symm⟩
    · rcases a3.2.2 with e | e
      · simp only [update] at e ⊢; omega
      · obtain ⟨q, hq, hqe⟩ := List.mem_map.mp e
        exact ⟨q, hq, hqe.symm⟩
    · rcases a4.2.2 with e | e
      · simp only [update] at e ⊢; omega
      · obtain ⟨q, hq, hqe⟩ := List.mem_map.mp e
        exact ⟨q, hq, hqe.symm⟩
  · have e1 := isMinOver_unique _ _ _ _ _ (hmem (fun q => q.x)) b1 a1
    have e2 := isMinOver_unique _ _ _ _ _ (hmem (fun q => q.y)) b2 a2
    have e3 := isMaxOver_unique _ _ _ _ _ (hmem (fun q => q.x + q.width)) b3 a3
    have e4 := isMaxOver_unique _ _ _ _ _ (hmem (fun q => q.y + q.height)) b4 a4
    cases h1 : (queueAll (update m) rects2).queueRedrawArea
    cases h2 : (queueAll (update m) rects).queueRedrawArea
    rw [h1, h2] at e1 e2 e3 e4
    simp only at e1 e2 e3 e4
    rw [e1, e2, e3, e4]

/-- C11 at a concrete input: three rectangles queued on the 3 x 3 sample grid in
two different orders give the bounding box (0, 0, 3, 2). -/
theorem damage_is_bounding_box_witness :
    (queueAll (update sampleGrid)
      [{ x := 1, y := 1, width := 2, height := 1 }, { x := 0, y := 0, width := 1, height := 1 },
       { x := 2, y := 0, width := 1, height := 2 }]).queueRedrawArea =
      { x0 := 0, y0 := 0, x1 := 3, y1 := 2 } ∧
    (queueAll (update sampleGrid)
      [{ x := 2, y := 0, width := 1, height := 2 }, { x := 1, y := 1, width := 2, height := 1 },
       { x := 0, y := 0, width := 1, height := 1 }]).queueRedrawArea =
    (queueAll (update sampleGrid)
      [{ x := 1, y := 1, width := 2, height := 1 }, { x := 0, y := 0, width := 1, height := 1 },
       { x := 2, y := 0, width := 1, height := 2 }]).queueRedrawArea := by
  have h := damage_is_bounding_box sampleGrid
    [{ x := 1, y := 1, width := 2, height := 1 }, { x := 0, y := 0, width := 1, height := 1 },
     { x := 2, y := 0, width := 1, height := 2 }]
    [{ x := 2, y := 0, width := 1, height := 2 }, { x := 1, y := 1, width := 2, height := 1 },
     { x := 0, y := 0, width := 1, height := 1 }]
    (by decide) (by decide)
  exact ⟨by decide, h.2.2.2.2⟩

/-! ### Scrolling inside a stored region -/

theorem scrollCount_encoded (n : Int) (v : Value)
    (hv : v = Value.int64 n ∨ ∃ k : Nat, v = Value.uint64 k ∧ (k : Int) = n ∧ k < 2 ^ 63) :
    scrollCount [Value.arr [v]] = some n := by
  rcases hv with h | ⟨k, h, hk, hlt⟩
  · rw [h]; rfl
  · rw [h]
    have h64 : k % 2 ^ 64 = k := Nat.mod_eq_of_lt (by omega)
    show (if k % 2 ^ 64 > 0 then some (intOfUint k) else some 0) = some n
    by_cases hpos : k % 2 ^ 64 > 0
    · rw [if_pos hpos]
      unfold intOfUint
      rw [h64, if_pos hlt, hk]
    · rw [if_neg hpos]
      have : k = 0 := by omega
      subst this
      simp at hk
      rw [← hk]

theorem effectiveRegion_stored (m : MiniMap)
    (hnz : ¬ (m.scrollRegion.top = 0 ∧ m.scrollRegion.bot = 0 ∧
      m.scrollRegion.left = 0 ∧ m.scrollRegion.right = 0)) :
    effectiveRegion m = m.scrollRegion := by
  simp only [effectiveRegion, hnz, if_false]

/-- C18: with a stored scroll region (top, bot, left, right) inside the grid and
not all zero, and a count `n` with `0 < |n| ≤ bot - top + 1`, `scroll(n)`
returns; inside the columns `left..right` each row `r` of the region takes the
old content of row `r + n` when that row is in the region and is empty
otherwise (the `|n|` rows at the trailing edge); every cell outside the region
is unchanged, as are the cursor, the current style and the stored region. -/
theorem scroll_region_frame (m : MiniMap) (top bot left right : Nat) (n : Int) (v : Value)
    (hwf : WellFormed m)
    (hreg : m.scrollRegion = { top := top, bot := bot, left := left, right := right })
    (hnz : ¬ (top = 0 ∧ bot = 0 ∧ left = 0 ∧ right = 0))
    (htb : top ≤ bot) (hbot : (bot : Int) < m.rows)
    (hlr : left ≤ right) (hright : (right : Int) < m.cols)
    (hn0 : n ≠ 0) (hn : |n| ≤ (bot : Int) - top + 1)
    (hv : v = Value.int64 n ∨ ∃ k : Nat, v = Value.uint64 k ∧ (k : Int) = n ∧ k < 2 ^ 63) :
    ∃ m1, scroll m [Value.arr [v]] = some m1 ∧
      (∀ r c : Nat, top ≤ r → r ≤ bot → left ≤ c → c ≤ right →
        ((top : Int) ≤ r + n ∧ (r : Int) + n ≤ bot →
          cellAt m1.content r c = cellAt m.content ((r : Int) + n).toNat c) ∧
        (¬ ((top : Int) ≤ r + n ∧ (r : Int) + n ≤ bot) → cellAt m1.content r c = none)) ∧
      (∀ r c : Nat, ¬ (top ≤ r ∧ r ≤ bot ∧ left ≤ c ∧ c ≤ right) →
        cellAt m1.content r c = cellAt m.content r c) ∧
      m1.cursor = m.cursor ∧ m1.highlight = m.highlight ∧
      m1.scrollRegion = m.scrollRegion ∧ m1.rows = m.rows ∧ m1.cols = m.cols := by
  obtain ⟨hdim, _, _⟩ := dim_of_wellFormed m hwf
  have hcount := scrollCount_encoded n v hv
  have heff : effectiveRegion m =
      { top := (top : Int), bot := (bot : Int), left := (left : Int), right := (right : Int) } := by
    rw [effectiveRegion_stored m (by rw [hreg]; simp only; omega), hreg]
  have habs := abs_le.mp hn
  by_cases hpos : 0 < n
  · obtain ⟨g2, m1, hs, hcontent, hdim2, hspec, _, hcur, hhl, hsr, hr1, hc1⟩ :=
      scrollBy_up m m.rows.toNat m.cols.toNat n top left bot right hdim hpos
        (by omega) (by omega) (by omega)
    refine ⟨m1, ?_, ?_, ?_, hcur, hhl, hsr, hr1, hc1⟩
    · simp only [scroll, hcount, heff]
      exact hs
    · intro r c h1 h2 h3 h4
      have hin : (top ≤ r ∧ (r : Int) ≤ bot) ∧ (left ≤ c ∧ (c : Int) ≤ right) :=
        ⟨⟨h1, by omega⟩, ⟨h3, by omega⟩⟩
      rw [hcontent, cellAt_eq_getCell, hspec r c, if_pos hin]
      constructor
      · intro hrow
        rw [if_pos (by omega), cellAt_eq_getCell]
        have hcast : (((r : Int) + n).toNat : Int) = (r : Int) + n := by omega
        simp only [shifted, Option.join, Option.some_bind, id, hcast]
      · intro hrow
        rw [if_neg (by omega)]
        rfl
    · intro r c hout
      rw [hcontent, cellAt_eq_getCell, cellAt_eq_getCell, hspec r c, if_neg]
      intro h
      apply hout
      exact ⟨h.1.1, by omega, h.2.1, by omega⟩
  · have hneg : n < 0 := by omega
    obtain ⟨g2, m1, hs, hcontent, hdim2, hspec, _, hcur, hhl, hsr, hr1, hc1⟩ :=
      scrollBy_down m m.rows.toNat m.cols.toNat n top left bot right hdim hneg
        (by omega) (by omega) (by omega)
    refine ⟨m1, ?_, ?_, ?_, hcur, hhl, hsr, hr1, hc1⟩
    · simp only [scroll, hcount, heff]
      exact hs
    · intro r c h1 h2 h3 h4
      have hin : (top ≤ r ∧ (r : Int) ≤ bot) ∧ (left ≤ c ∧ (c : Int) ≤ right) :=
        ⟨⟨h1, by omega⟩, ⟨h3, by omega⟩⟩
      rw [hcontent, cellAt_eq_getCell, hspec r c, if_pos hin]
      constructor
      · intro hrow
        rw [if_pos (by omega), cellAt_eq_getCell]
        have hcast : (((r : Int) + n).toNat : Int) = (r : Int) + n := by omega
        simp only [shifted, Option.join, Option.some_bind, id, hcast]
      · intro hrow
        rw [if_neg (by omega)]
        rfl
    · intro r c hout
      rw [hcontent, cellAt_eq_getCell, cellAt_eq_getCell, hspec r c, if_neg]
      intro h
      apply hout
      exact ⟨h.1.1, by omega, h.2.1, by omega⟩

/-- C18 at a concrete input: with the region rows 1..2, columns 0..1 stored on
the sample grid, `scroll(1)` moves g, h up one row inside the region, empties
their old cells and leaves the first row and the last column alone. -/
theorem scroll_region_frame_witness :
    ∃ m1, scroll { sampleGrid with scrollRegion := { top := 1, bot := 2, left := 0, right := 1 } }
        [Value.arr [Value.int64 1]] = some m1 ∧
      cellAt m1.content 1 0 = letter "g" ∧ cellAt m1.content 1 1 = letter "h" ∧
      cellAt m1.content 2 0 = none ∧ cellAt m1.content 1 2 = letter "f" ∧
      cellAt m1.content 0 0 = letter "a" ∧ m1.cursor = (1, 1) := by
  obtain ⟨m1, h1, h2, h3, h4, _⟩ :=
    scroll_region_frame
      { sampleGrid with scrollRegion := { top := 1, bot := 2, left := 0, right := 1 } }
      1 2 0 1 1 (Value.int64 1) (by decide) rfl (by decide) (by decide) (by decide)
      (by decide) (by decide) (by decide) (by decide) (Or.inl rfl)
  refine ⟨m1, h1, ?_, ?_, ?_, ?_, ?_, h4⟩
  · rw [(h2 1 0 (by decide) (by decide) (by decide) (by decide)).1 (by decide)]; rfl
  · rw [(h2 1 1 (by decide) (by decide) (by decide) (by decide)).1 (by decide)]; rfl
  · exact (h2 2 0 (by decide) (by decide) (by decide) (by decide)).2 (by decide)
  · rw [h3 1 2 (by decide)]; rfl
  · rw [h3 0 0 (by decide)]; rfl

/-! ### Index faults -/

/-- C19 (failing inputs): on the well-formed 3 x 3 sample grid, whose stored scroll
region is all zero, a scroll by 5 or by -5 faults (the clear loop addresses row -2,
respectively row 3); a scroll by 1 with the stored region (0, 5, 0, 2) faults (the
clear loop addresses row 5); after `cursor_goto` to (1, -1) an `eol_clear` faults
(it writes `line[-1]`); after `cursor_goto` to (-1, 0) a `put` faults (it reads
`content[-1]`); and on a grid of one empty line a `put` of one character faults
(it reads `line[-1]`). -/
theorem index_arithmetic_faults :
    WellFormed sampleGrid ∧
    scroll sampleGrid [Value.arr [Value.int64 5]] = none ∧
    scroll sampleGrid [Value.arr [Value.int64 (-5)]] = none ∧
    scroll { sampleGrid with scrollRegion := { top := 0, bot := 5, left := 0, right := 2 } }
      [Value.arr [Value.int64 1]] = none ∧
    handleRedraw sampleEnv sampleGrid
      [[Value.str "cursor_goto", Value.arr [Value.int64 1, Value.int64 (-1)]],
       [Value.str "eol_clear"]] = none ∧
    handleRedraw sampleEnv sampleGrid
      [[Value.str "cursor_goto", Value.arr [Value.int64 (-1), Value.int64 0]],
       [Value.str "put", Value.arr [Value.str "x"]]] = none ∧
    WellFormed (blank 1 0) ∧
    put sampleEnv (blank 1 0) (putArgs [["x"]]) = none := by
  decide

/-! ### Batches and the damage rectangle -/

theorem forget_eq_iff (a b : MiniMap) :
    forget a = forget b ↔ b = { a with queueRedrawArea := b.queueRedrawArea } := by
  cases a; cases b
  simp only [forget, MiniMap.mk.injEq]
  tauto

theorem visible_of_forget (a b : MiniMap) (h : forget a = forget b) : visible a = visible b := by
  cases a; cases b
  simp only [forget, MiniMap.mk.injEq] at h
  simp only [visible, Prod.mk.injEq]
  tauto

theorem forget_queueRedraw (m : MiniMap) (x y w h : Int) :
    forget (queueRedraw m x y w h) = forget m := rfl

theorem forget_update (m : MiniMap) : forget (update m) = forget m := rfl

theorem cursorGoto_forget (env : Env) (m : MiniMap) (a : Area) (args : List Value) :
    (cursorGoto env { m with queueRedrawArea := a } args).map forget =
      (cursorGoto env m args).map forget := by
  unfold cursorGoto
  cases args with
  | nil => rfl
  | cons x rest =>
    simp only []
    split
    · rfl
    · split
      · rfl
      · split
        · rfl
        · split
          · rfl
          · rfl

theorem put_forget (env : Env) (m : MiniMap) (a : Area) (args : List Value) :
    (put env { m with queueRedrawArea := a } args).map forget = (put env m args).map forget := by
  unfold put
  simp only []
  split_ifs
  · rfl
  · split
    · rfl
    · split
      · rfl
      · split
        · rfl
        · split
          · rfl
          · rfl

theorem eolClear_forget (m : MiniMap) (a : Area) (args : List Value) :
    (eolClear { m with queueRedrawArea := a } args).map forget =
      (eolClear m args).map forget := by
  unfold eolClear
  simp only []
  split_ifs
  · rfl
  · split
    · rfl
    · split
      · rfl
      · rfl

theorem reallocate_forget (m : MiniMap) (a : Area) :
    (reallocate { m with queueRedrawArea := a }).map forget = (reallocate m).map forget := by
  unfold reallocate
  simp only []
  split_ifs
  · rfl
  · rfl
  · rfl

theorem setScrollRegion_forget (env : Env) (m : MiniMap) (a : Area) (args : List Value) :
    (setScrollRegion env { m with queueRedrawArea := a } args).map forget =
      (setScrollRegion env m args).map forget := by
  unfold setScrollRegion
  split
  · split
    · split
      · rfl
      · rfl
    · rfl
  · rfl

theorem highlightSetArg_forget (env : Env) (m : MiniMap) (a : Area) (arg : Value) :
    (highlightSetArg env { m with queueRedrawArea := a } arg).map forget =
      (highlightSetArg env m arg).map forget := by
  unfold highlightSetArg
  split
  · simp only []
    split
    · rfl
    · split
      · rfl
      · split
        · rfl
        · rfl
  · rfl

theorem scrollBy_forget (m : MiniMap) (a : Area) (n : Int) (reg : Region) :
    (scrollBy { m with queueRedrawArea := a } n reg).map forget =
      (scrollBy m n reg).map forget := by
  unfold scrollBy
  simp only [queueRedraw_content]
  split_ifs
  · split
    · rfl
    · rfl
    · split
      · rfl
      · rfl
      · rfl
  · split
    · rfl
    · rfl
    · split
      · rfl
      · rfl
      · rfl
  · split
    · rfl
    · rfl
    · split
      · rfl
      · rfl
      · rfl
  · split
    · rfl
    · rfl
    · split
      · rfl
      · rfl
      · rfl

theorem effectiveRegion_forget (m : MiniMap) (a : Area) :
    effectiveRegion { m with queueRedrawArea := a } = effectiveRegion m := rfl

theorem scroll_forget (m : MiniMap) (a : Area) (args : List Value) :
    (scroll { m with queueRedrawArea := a } args).map forget = (scroll m args).map forget := by
  unfold scroll
  split
  · rfl
  · rw [effectiveRegion_forget]
    exact scrollBy_forget m a _ _

/-- A loop of steps that do not read the damage rectangle does not read it either. -/
theorem foldlM_forget {β : Type} (f : MiniMap → β → Option MiniMap)
    (hf : ∀ m a x, (f { m with queueRedrawArea := a } x).map forget = (f m x).map forget)
    (xs : List β) : ∀ m1 m2 : MiniMap, forget m1 = forget m2 →
      (xs.foldlM f m1).map forget = (xs.foldlM f m2).map forget := by
  induction xs with
  | nil =>
    intro m1 m2 h
    show some (forget m1) = some (forget m2)
    rw [h]
  | cons x rest ih =>
    intro m1 m2 h
    rw [List.foldlM_cons, List.foldlM_cons]
    have h2 := hf m1 m2.queueRedrawArea x
    rw [← (forget_eq_iff m1 m2).mp h] at h2
    cases h3 : f m1 x with
    | none =>
      rw [h3] at h2
      cases h4 : f m2 x with
      | none => rfl
      | some v => rw [h4] at h2; cases h2
    | some v1 =>
      rw [h3] at h2
      cases h4 : f m2 x with
      | none => rw [h4] at h2; cases h2
      | some v2 =>
        rw [h4] at h2
        exact ih v1 v2 (Option.some.inj h2).symm

theorem highlightSet_forget (env : Env) (m : MiniMap) (a : Area) (args : List Value) :
    (highlightSet env { m with queueRedrawArea := a } args).map forget =
      (highlightSet env m args).map forget :=
  foldlM_forget (highlightSetArg env) (highlightSetArg_forget env) args _ _ rfl

theorem handleUpdate_forget (env : Env) (m : MiniMap) (a : Area) (upd : List Value) :
    (handleUpdate env { m with queueRedrawArea := a } upd).map forget =
      (handleUpdate env m upd).map forget := by
  unfold handleUpdate
  split
  · split_ifs
    · exact cursorGoto_forget env m a _
    · exact put_forget env m a _
    · exact eolClear_forget m a _
    · exact reallocate_forget m a
    · exact reallocate_forget m a
    · exact highlightSet_forget env m a _
    · exact setScrollRegion_forget env m a _
    · exact scroll_forget m a _
    · rfl
  · rfl

/-- C20: `handleRedraw` applies the commands of a batch from left to right, each to
the state the previous one left (a fault ends the batch), and resets the damage
rectangle at the end; and for all batches `A` and `B`, applying `A ++ B` as one
batch faults exactly when applying `A` and then `B` as two batches does, and
otherwise yields the same grid, cursor, current style and scroll region. -/
theorem batch_in_arrival_order (env : Env) (m : MiniMap) (u : List Value)
    (A B : List (List Value)) :
    handleRedraw env m [] = some (update m) ∧
    handleRedraw env m (u :: A) = (handleUpdate env m u).bind (fun m1 => handleRedraw env m1 A) ∧
    (handleRedraw env m (A ++ B)).map visible =
      ((handleRedraw env m A).bind (fun m1 => handleRedraw env m1 B)).map visible := by
  refine ⟨rfl, ?_, ?_⟩
  · simp only [handleRedraw, List.foldlM_cons]
    cases handleUpdate env m u <;> rfl
  · simp only [handleRedraw, List.foldlM_append]
    cases hA : A.foldlM (handleUpdate env) m with
    | none => rfl
    | some mA =>
      have h := foldlM_forget (handleUpdate env) (handleUpdate_forget env) B mA (update mA)
        (forget_update mA).symm
      show (Option.map update (B.foldlM (handleUpdate env) mA)).map visible =
        (Option.map update (B.foldlM (handleUpdate env) (update mA))).map visible
      cases h1 : B.foldlM (handleUpdate env) mA with
      | none =>
        rw [h1] at h
        cases h2 : B.foldlM (handleUpdate env) (update mA) with
        | none => rfl
        | some v => rw [h2] at h; cases h
      | some v1 =>
        rw [h1] at h
        cases h2 : B.foldlM (handleUpdate env) (update mA) with
        | none => rw [h2] at h; cases h
        | some v2 =>
          rw [h2] at h
          have h3 : forget v1 = forget v2 := Option.some.inj h
          show some (visible (update v1)) = some (visible (update v2))
          rw [visible_of_forget (update v1) (update v2) h3]

/-! ### Changed cells and the damage rectangle -/

theorem covers_queueRedraw (m : MiniMap) (x y w h : Int) (r c : Nat)
    (hc : x ≤ (c : Int) ∧ (c : Int) < x + w) (hr : y ≤ (r : Int) ∧ (r : Int) < y + h) :
    covers (queueRedraw m x y w h).queueRedrawArea r c := by
  obtain ⟨h1, h2, h3, h4⟩ := queueRedraw_covers m x y w h
  exact ⟨by omega, by omega, by omega, by omega⟩

/-- On a well-formed grid with the scroll region inside it, the copy loop of an
upward scroll by at most the height of the region runs to its end: the early
`return` of line 706 is not taken. -/
theorem scroll_copy_runs_through (m : MiniMap) (n : Int) (hwf : WellFormed m)
    (hreg : RegionInside m) (hn : 0 < n)
    (hfit : n ≤ (effectiveRegion m).bot - (effectiveRegion m).top + 1) :
    ∃ g1, forEach (upTo (effectiveRegion m).top ((effectiveRegion m).bot - n))
      (fun g row => forEach (upTo (effectiveRegion m).left (effectiveRegion m).right)
        (copyUpCell n row) g) m.content = Flow.running g1 := by
  obtain ⟨hdim, _, _⟩ := dim_of_wellFormed m hwf
  obtain ⟨r1, r2, r3, r4, r5, r6⟩ := hreg
  obtain ⟨g1, _, h1, _⟩ := scrollUp_loops m.rows.toNat m.cols.toNat n
    (effectiveRegion m).top.toNat (effectiveRegion m).left.toNat
    (effectiveRegion m).bot (effectiveRegion m).right hn (by omega) (by omega) (by omega)
    m.content hdim
  have ht : (((effectiveRegion m).top.toNat : Nat) : Int) = (effectiveRegion m).top := by omega
  have hl : (((effectiveRegion m).left.toNat : Nat) : Int) = (effectiveRegion m).left := by
    omega
  rw [ht, hl] at h1
  exact ⟨g1, h1⟩

theorem damageBound_queueRedraw (m : MiniMap) (x y w h : Int) (hb : DamageBound m)
    (hx : 0 ≤ x) (hy : -m.rows ≤ y) (hw : x + w ≤ m.cols + 2) (hh : y + h ≤ 2 * m.rows) :
    DamageBound (queueRedraw m x y w h) := by
  obtain ⟨h1, h2, h3, h4⟩ := hb
  simp only [DamageBound, queueRedraw]
  refine ⟨?_, ?_, ?_, ?_⟩ <;> split_ifs <;> omega

theorem damageBound_of_area (m m1 : MiniMap) (h : DamageBound m)
    (ha : m1.queueRedrawArea = m.queueRedrawArea) (hr : m1.rows = m.rows)
    (hc : m1.cols = m.cols) : DamageBound m1 := by
  unfold DamageBound
  rw [ha, hr, hc]
  exact h

/-- One command of a run keeps the dimensions and the margins of the damage
rectangle. -/
theorem damageBound_step (env : Env) (m m1 : MiniMap) (event : String) (args : List Value)
    (hwf : WellFormed m) (hcur : CursorInv m) (hreg : RegionInside m)
    (hev : event ∈ ["put", "eol_clear", "scroll", "clear", "resize", "cursor_goto",
      "set_scroll_region"])
    (hn : event = "scroll" → ∀ n, scrollCount args = some n →
      |n| ≤ (effectiveRegion m).bot - (effectiveRegion m).top + 1)
    (h : handleUpdate env m (Value.str event :: args) = some m1) (hb : DamageBound m) :
    DamageBound m1 ∧ m1.rows = m.rows ∧ m1.cols = m.cols := by
  obtain ⟨k1, k2, k3, k4⟩ := hcur
  have hcols : 0 ≤ m.cols := by omega
  simp only [List.mem_cons, List.mem_singleton, List.not_mem_nil, or_false] at hev
  rcases hev with e | e | e | e | e | e | e <;> subst e
  · rw [handleUpdate_put] at h
    rcases put_some env m m1 args h with ⟨_, e⟩ | ⟨_, ln, cell, st, span, hln, hcell, hst, hspan, e⟩
    · rw [e]; exact ⟨hb, rfl, rfl⟩
    · obtain ⟨hlen, _, _⟩ := line_length_of_index m hwf _ ln hln
      obtain ⟨c1, c2, _⟩ := index_some_bounds _ _ _ hcell
      have hle := hst.col_le
      have hge := hst.col_ge
      have hnum := hst.numChars_eq
      have hw := putWidth_bounds st
      rw [e]
      refine ⟨?_, rfl, rfl⟩
      apply damageBound_queueRedraw _ _ _ _ _ hb
      · rcases putSpan_some _ _ _ _ _ hspan with hs | ⟨hpos, hs⟩
        · rw [hs]; exact c1
        · rw [hs]
          show 0 ≤ (if m.cursor.2 ≥ (ln.length : Int) then (ln.length : Int) - 1
            else m.cursor.2) - 1
          omega
      · show -m.rows ≤ m.cursor.1
        omega
      · show span.1 + span.2 ≤ m.cols + 2
        rcases putSpan_some _ _ _ _ _ hspan with hs | ⟨hpos, hs⟩
        · rw [hs]
          show (if m.cursor.2 ≥ (ln.length : Int) then (ln.length : Int) - 1
            else m.cursor.2) + putWidth st ≤ m.cols + 2
          split_ifs <;> omega
        · rw [hs]
          show (if m.cursor.2 ≥ (ln.length : Int) then (ln.length : Int) - 1
            else m.cursor.2) - 1 + (putWidth st + 1) ≤ m.cols + 2
          split_ifs <;> omega
      · show m.cursor.1 + 1 ≤ 2 * m.rows
        omega
  · rw [handleUpdate_eol_clear] at h
    rcases eolClear_some m m1 args h with ⟨_, e⟩ | ⟨_, ln, ln1, hln, _, _, e⟩
    · rw [e]; exact ⟨hb, rfl, rfl⟩
    · obtain ⟨hlen, _, _⟩ := line_length_of_index m hwf _ ln hln
      rw [e]
      refine ⟨?_, rfl, rfl⟩
      apply damageBound_queueRedraw _ _ _ _ _ hb
      · exact k3
      · show -m.rows ≤ m.cursor.1
        omega
      · show m.cursor.2 + (max 0 ((ln.length : Int) - m.cursor.2) + 1) ≤ m.cols + 2
        omega
      · show m.cursor.1 + 1 ≤ 2 * m.rows
        omega
  · rw [handleUpdate_scroll] at h
    obtain ⟨n, hcount, hs⟩ := scroll_some m m1 args h
    have habs := abs_le.mp (hn rfl n hcount)
    obtain ⟨r1, r2, r3, r4, r5, r6⟩ := hreg
    obtain ⟨_, _, _, hrows, hcolsEq, _, _, harea⟩ := scrollBy_some m m1 n _ hs
    have hbase : DamageBound (queueRedraw m (effectiveRegion m).left (effectiveRegion m).top
        ((effectiveRegion m).right - (effectiveRegion m).left + 1)
        ((effectiveRegion m).bot - (effectiveRegion m).top + 1)) :=
      damageBound_queueRedraw _ _ _ _ _ hb (by omega) (by omega) (by omega) (by omega)
    refine ⟨?_, hrows, hcolsEq⟩
    rcases harea with e | ⟨hp, e⟩ | ⟨hp, htop, e⟩ | ⟨hp, e⟩ | ⟨hp, hbot, e⟩
    · exact damageBound_of_area _ m1 hbase e hrows hcolsEq
    · refine damageBound_of_area _ m1 (damageBound_queueRedraw _ _ _ _ _ hbase ?_ ?_ ?_ ?_)
        e hrows hcolsEq
      · exact r4
      · show -m.rows ≤ (effectiveRegion m).bot - n + 1
        omega
      · show (effectiveRegion m).left + ((effectiveRegion m).right - (effectiveRegion m).left)
          ≤ m.cols + 2
        omega
      · show (effectiveRegion m).bot - n + 1 + n ≤ 2 * m.rows
        omega
    · refine damageBound_of_area _ m1
        (damageBound_queueRedraw _ _ _ _ _ (damageBound_queueRedraw _ _ _ _ _ hbase ?_ ?_ ?_ ?_)
          ?_ ?_ ?_ ?_) e hrows hcolsEq
      · exact r4
      · show -m.rows ≤ (effectiveRegion m).bot - n + 1
        omega
      · show (effectiveRegion m).left + ((effectiveRegion m).right - (effectiveRegion m).left)
          ≤ m.cols + 2
        omega
      · show (effectiveRegion m).bot - n + 1 + n ≤ 2 * m.rows
        omega
      · exact r4
      · show -m.rows ≤ (effectiveRegion m).top - n
        omega
      · show (effectiveRegion m).left + ((effectiveRegion m).right - (effectiveRegion m).left)
          ≤ m.cols + 2
        omega
      · show (effectiveRegion m).top - n + n ≤ 2 * m.rows
        omega
    · refine damageBound_of_area _ m1 (damageBound_queueRedraw _ _ _ _ _ hbase ?_ ?_ ?_ ?_)
        e hrows hcolsEq
      · exact r4
      · show -m.rows ≤ (effectiveRegion m).top
        omega
      · show (effectiveRegion m).left + ((effectiveRegion m).right - (effectiveRegion m).left)
          ≤ m.cols + 2
        omega
      · show (effectiveRegion m).top + -n ≤ 2 * m.rows
        omega
    · refine damageBound_of_area _ m1
        (damageBound_queueRedraw _ _ _ _ _ (damageBound_queueRedraw _ _ _ _ _ hbase ?_ ?_ ?_ ?_)
          ?_ ?_ ?_ ?_) e hrows hcolsEq
      · exact r4
      · show -m.rows ≤ (effectiveRegion m).top
        omega
      · show (effectiveRegion m).left + ((effectiveRegion m).right - (effectiveRegion m).left)
          ≤ m.cols + 2
        omega
      · show (effectiveRegion m).top + -n ≤ 2 * m.rows
        omega
      · exact r4
      · show -m.rows ≤ (effectiveRegion m).bot + 1
        omega
      · show (effectiveRegion m).left + ((effectiveRegion m).right - (effectiveRegion m).left)
          ≤ m.cols + 2
        omega
      · show (effectiveRegion m).bot + 1 + -n ≤ 2 * m.rows
        omega
  · rw [handleUpdate_clear] at h
    obtain ⟨_, e⟩ := reallocate_some m m1 h
    rw [e]
    refine ⟨?_, rfl, rfl⟩
    show (0 : Int) ≤ 0 ∧ -m.rows ≤ 0 ∧ m.cols ≤ m.cols + 2 ∧ m.rows ≤ 2 * m.rows
    omega
  · rw [handleUpdate_resize] at h
    obtain ⟨_, e⟩ := reallocate_some m m1 h
    rw [e]
    refine ⟨?_, rfl, rfl⟩
    show (0 : Int) ≤ 0 ∧ -m.rows ≤ 0 ∧ m.cols ≤ m.cols + 2 ∧ m.rows ≤ 2 * m.rows
    omega
  · rw [handleUpdate_cursor_goto] at h
    obtain ⟨r, c, e⟩ := cursorGoto_some env m m1 args h
    rw [e]
    exact ⟨hb, rfl, rfl⟩
  · rw [handleUpdate_set_scroll_region] at h
    obtain ⟨_, _, _, h4, h5, h6, _⟩ := setScrollRegion_fields env m m1 args h
    exact ⟨damageBound_of_area m m1 hb h4 h5 h6, h5, h6⟩

/-- A run keeps the dimensions and the margins of the damage rectangle. -/
theorem damageBound_run (env : Env) (m0 m : MiniMap) (batch : List (List Value))
    (hrun : Run env m0 batch m) (hb : DamageBound m0) :
    DamageBound m ∧ m.rows = m0.rows ∧ m.cols = m0.cols := by
  induction hrun with
  | done m => exact ⟨hb, rfl, rfl⟩
  | step m m1 m2 event args rest hwf hcur hreg hev hn h _ ih =>
    obtain ⟨hb1, hr1, hc1⟩ := damageBound_step env m m1 event args hwf hcur hreg hev hn h hb
    obtain ⟨hb2, hr2, hc2⟩ := ih hb1
    exact ⟨hb2, hr2.trans hr1, hc2.trans hc1⟩

/-- C13 (as amended): starting from the empty sentinel on a grid of non-negative
dimensions, after any sequence of put, eol_clear, scroll, clear, resize,
cursor_goto and set_scroll_region commands, each applied to a well-formed grid
with an in-bounds cursor and a scroll region inside the grid (a scroll with a
count no larger in absolute value than the height of the region), the
dimensions are unchanged and the damage rectangle satisfies `0 ≤ x0`,
`x1 ≤ cols + 2`, `-rows ≤ y0` and `y1 ≤ 2 * rows`. -/
theorem damage_within_margins (env : Env) (m0 m : MiniMap) (batch : List (List Value))
    (hrows : 0 ≤ m0.rows) (hcols : 0 ≤ m0.cols)
    (hstart : m0.queueRedrawArea = { x0 := m0.cols, y0 := m0.rows, x1 := 0, y1 := 0 })
    (hrun : Run env m0 batch m) :
    m.rows = m0.rows ∧ m.cols = m0.cols ∧
    0 ≤ m.queueRedrawArea.x0 ∧ m.queueRedrawArea.x1 ≤ m.cols + 2 ∧
    -m.rows ≤ m.queueRedrawArea.y0 ∧ m.queueRedrawArea.y1 ≤ 2 * m.rows := by
  have hb : DamageBound m0 := by
    unfold DamageBound
    rw [hstart]
    show (0 : Int) ≤ m0.cols ∧ -m0.rows ≤ m0.rows ∧ (0 : Int) ≤ m0.cols + 2 ∧
      (0 : Int) ≤ 2 * m0.rows
    omega
  obtain ⟨⟨h1, h2, h3, h4⟩, hr, hc⟩ := damageBound_run env m0 m batch hrun hb
  exact ⟨hr, hc, h1, h3, h2, h4⟩

/-- C13 (counterexample): from the empty sentinel, with the cursor in bounds and the
scroll region inside the grid, `eol_clear` at (1, 1) of the 3 x 3 sample grid
leaves `x1 = 4 > cols`; a wide character put at (0, 1) of a 1 x 2 grid over a wide
cell leaves `x1 = 4 = cols + 2`; `scroll(2)` over the region of rows 1..2 leaves
`y0 = -1 < 0`; and `scroll(-2)` over the region of rows 0..1 leaves
`y1 = 4 > rows`. -/
theorem damage_outside_grid_counterexample :
    (WellFormed sampleGrid ∧ CursorInv sampleGrid ∧ RegionInside sampleGrid ∧
      sampleGrid.queueRedrawArea = { x0 := 3, y0 := 3, x1 := 0, y1 := 0 } ∧
      ∃ m1, handleUpdate sampleEnv sampleGrid [Value.str "eol_clear"] = some m1 ∧
        m1.cols = 3 ∧ m1.queueRedrawArea = { x0 := 1, y0 := 1, x1 := 4, y1 := 2 }) ∧
    (∃ m1, handleUpdate sampleEnv
        { blank 1 2 with content := [[letter "a", wideCell]], cursor := (0, 1) }
        [Value.str "put", Value.arr [Value.str "あ"]] = some m1 ∧
      m1.cols = 2 ∧ m1.queueRedrawArea = { x0 := 0, y0 := 0, x1 := 4, y1 := 1 }) ∧
    (∃ m1, handleUpdate sampleEnv
        { sampleGrid with scrollRegion := { top := 1, bot := 2, left := 0, right := 2 } }
        [Value.str "scroll", Value.arr [Value.int64 2]] = some m1 ∧
      m1.queueRedrawArea.y0 = -1) ∧
    (∃ m1, handleUpdate sampleEnv
        { sampleGrid with scrollRegion := { top := 0, bot := 1, left := 0, right := 2 } }
        [Value.str "scroll", Value.arr [Value.int64 (-2)]] = some m1 ∧
      m1.rows = 3 ∧ m1.queueRedrawArea.y1 = 4) :=
  ⟨⟨by decide, by decide, by decide, rfl, _, rfl, by decide, by decide⟩,
   ⟨_, rfl, by decide, by decide⟩, ⟨_, rfl, by decide⟩, ⟨_, rfl, by decide, by decide⟩⟩

/-- C13 (as amended) at a concrete input: `cursor_goto(1, 2)` then `eol_clear` on
the 3 x 3 sample grid, from the empty sentinel. -/
theorem damage_within_margins_witness :
    ∃ m, Run sampleEnv sampleGrid
        [[Value.str "cursor_goto", Value.arr [Value.int64 1, Value.int64 2]],
         [Value.str "eol_clear"]] m ∧
      m.rows = 3 ∧ m.cols = 3 ∧
      0 ≤ m.queueRedrawArea.x0 ∧ m.queueRedrawArea.x1 ≤ m.cols + 2 ∧
      -m.rows ≤ m.queueRedrawArea.y0 ∧ m.queueRedrawArea.y1 ≤ 2 * m.rows := by
  have hrun : Run sampleEnv sampleGrid
      [[Value.str "cursor_goto", Value.arr [Value.int64 1, Value.int64 2]],
       [Value.str "eol_clear"]]
      (queueRedraw
        { sampleGrid with
            content := [[letter "a", letter "b", letter "c"],
                        [letter "d", letter "e", none],
                        [letter "g", letter "h", letter "i"]],
            cursor := (1, 2) } 2 1 2 1) :=
    Run.step _ { sampleGrid with cursor := (1, 2) } _ "cursor_goto" _ _
      (by decide) (by decide) (by decide) (by decide)
      (fun hh => absurd hh (by decide)) (by decide)
      (Run.step _ _ _ "eol_clear" _ _ (by decide) (by decide) (by decide) (by decide)
        (fun hh => absurd hh (by decide)) (by decide) (Run.done _))
  exact ⟨_, hrun, damage_within_margins sampleEnv sampleGrid _ _ (by decide) (by decide) rfl hrun⟩

/-! ### The span of a put next to a wide glyph -/

/-- The span `putSpan` returns at a positive start column, by the cell before
the run and the width class of the cell the run starts on: one cell to the
left and one cell wider when the cell before holds a non-empty wide glyph or
the first cell was wide, the run itself otherwise. -/
theorem putSpan_boundary (ln : List (Option Cell)) (x : Nat) (w : Int) (old : Bool)
    (cell0 : Option Cell) (hx : 0 < x) (hcell : ln[x - 1]? = some cell0) :
    (((∃ b, cell0 = some b ∧ b.char ≠ "" ∧ b.normalWidth = false) ∨ old = false) →
      putSpan ln (x : Int) w old = some ((x : Int) - 1, w + 1)) ∧
    (¬ ((∃ b, cell0 = some b ∧ b.char ≠ "" ∧ b.normalWidth = false) ∨ old = false) →
      putSpan ln (x : Int) w old = some ((x : Int), w)) := by
  have hpos : (x : Int) > 0 := by omega
  have hcast : (x : Int) - 1 = ((x - 1 : Nat) : Int) := by omega
  have hidx : index ln ((x : Int) - 1) = some cell0 := by
    rw [hcast, index_natCast, hcell]
  constructor
  · intro h
    simp only [putSpan, hpos, if_true, hidx]
    rcases h with ⟨b, hb, hch, hnw⟩ | hold
    · subst hb
      simp [hch, hnw]
    · subst hold
      split_ifs with h1 h2
      · rfl
      · rfl
      · exact absurd rfl h2
  · intro h
    simp only [putSpan, hpos, if_true, hidx]
    have hold : old = true := by
      cases old
      · exact absurd (Or.inr rfl) h
      · rfl
    subst hold
    cases cell0 with
    | none => simp
    | some b =>
      have hb : ¬ (b.char ≠ "" ∧ b.normalWidth = false) := fun hh =>
        h (Or.inl ⟨b, rfl, hh.1, hh.2⟩)
      by_cases hch : b.char = ""
      · simp [hch]
      · have hnw : b.normalWidth = true := by
          cases hn : b.normalWidth
          · exact absurd ⟨hch, hn⟩ hb
          · rfl
        simp [hch, hnw]

/-- The test `cell != nil && !cell.normalWidth` in terms of the cell it reads. -/
theorem isWide_iff_field (cell : Option Cell) :
    isWide cell = true ↔ ∃ b, cell = some b ∧ b.normalWidth = false := by
  cases cell with
  | none =>
    constructor
    · intro h
      exact absurd h (by decide)
    · rintro ⟨b, hb, _⟩
      exact Option.noConfusion hb
  | some b =>
    constructor
    · intro h
      refine ⟨b, rfl, ?_⟩
      cases hn : b.normalWidth
      · rfl
      · simp [isWide, hn] at h
    · rintro ⟨b1, hb, hn⟩
      have : b = b1 := Option.some.inj hb
      subst this
      simp [isWide, hn]

/-- C21: on a well-formed grid, a put at cursor (r, c) with `r < rows` and
`0 < c < cols` returns; the loop writes `min k (cols - c)` cells from column `c`
and leaves a width `w = putWidth st` of at least that many cells.  If the cell
before the run, (r, c-1), holds a non-empty wide glyph (a cell with a non-empty
character and `normalWidth` false), or the cell at (r, c) held a wide glyph before
the write (a cell with `normalWidth` false), the span queued is
`(c - 1, r, w + 1, 1)`: it starts one cell before the run (`x0 ≤ c - 1`), is one
cell wider and covers every written cell.  Otherwise the span queued is
`(c, r, w, 1)`: it starts at `c`. -/
theorem put_wide_boundary (env : Env) (m : MiniMap) (r c : Nat) (groups : List (List String))
    (hwf : WellFormed m) (hcur : m.cursor = ((r : Int), (c : Int)))
    (hr : (r : Int) < m.rows) (hc0 : 0 < c) (hc : (c : Int) < m.cols) :
    ∃ (ln : List (Option Cell)) (st : PutState) (m1 : MiniMap),
      m.content[r]? = some ln ∧
      (putArgs groups).foldlM (putGroup env m.highlight)
        { line := ln, col := (c : Int), numChars := 0, lastCell := none, oldNormalWidth := true }
        = some st ∧
      put env m (putArgs groups) = some m1 ∧
      st.numChars = min (groups.flatten.length : Int) (m.cols - c) ∧
      st.numChars ≤ putWidth st ∧
      (((∃ b, cellAt m.content r (c - 1) = some b ∧ b.char ≠ "" ∧ b.normalWidth = false) ∨
          (∃ b, cellAt m.content r c = some b ∧ b.normalWidth = false)) →
        m1.queueRedrawArea =
          (queueRedraw m ((c : Int) - 1) r (putWidth st + 1) 1).queueRedrawArea ∧
        m1.queueRedrawArea.x0 ≤ (c : Int) - 1 ∧
        ∀ i : Nat, (i : Int) < st.numChars → covers m1.queueRedrawArea r (c + i)) ∧
      (¬ ((∃ b, cellAt m.content r (c - 1) = some b ∧ b.char ≠ "" ∧ b.normalWidth = false) ∨
          (∃ b, cellAt m.content r c = some b ∧ b.normalWidth = false)) →
        m1.queueRedrawArea = (queueRedraw m (c : Int) r (putWidth st) 1).queueRedrawArea ∧
        ∀ i : Nat, (i : Int) < st.numChars → covers m1.queueRedrawArea r (c + i)) := by
  obtain ⟨hrows, hcols⟩ := hwf
  have hrlt : r < m.content.length := by omega
  obtain ⟨ln, hln⟩ : ∃ l, m.content[r]? = some l :=
    ⟨m.content[r], List.getElem?_eq_getElem hrlt⟩
  have hlen : (ln.length : Int) = m.cols := hcols ln (List.getElem?_mem hln)
  obtain ⟨st, h1, _, h3, _, _⟩ := putChar_fold_overflow env m.highlight groups.flatten
    { line := ln, col := (c : Int), numChars := 0, lastCell := none, oldNormalWidth := true }
    c rfl (by show c ≤ ln.length; omega)
  have hst : (putArgs groups).foldlM (putGroup env m.highlight)
      { line := ln, col := (c : Int), numChars := 0, lastCell := none, oldNormalWidth := true }
      = some st := by
    rw [putGroup_fold]
    exact h1
  have hinv := putArgs_inv env m.highlight ln (c : Int) (putArgs groups) st hst
  have hnum : st.numChars = min (groups.flatten.length : Int) (m.cols - c) := by
    rw [hinv.numChars_eq, h3]
    show ((min (c + groups.flatten.length) ln.length : Nat) : Int) - c = _
    omega
  have hw := (putWidth_bounds st).1
  have hev := put_eval env m r c (putArgs groups) ln st hcur hr hln (by omega) hst
  have hle : ¬ ln.length ≤ c := by omega
  simp only [hle, if_false] at hev
  obtain ⟨cell0, hcell0⟩ : ∃ cell0, ln[c - 1]? = some cell0 :=
    ⟨ln[c - 1], List.getElem?_eq_getElem (by omega)⟩
  have hcell1 : st.line[c - 1]? = some cell0 := by
    rw [hinv.frame (c - 1) (Or.inl (by omega)), hcell0]
  have hbefore : cellAt m.content r (c - 1) = cell0 := by
    rw [cellAt_of_getElem? _ _ _ _ hln, hcell0]
    rfl
  have hat : cellAt m.content r c = ln[c]?.join := cellAt_of_getElem? _ _ _ _ hln
  obtain ⟨hext, hplain⟩ := putSpan_boundary st.line c (putWidth st) (!isWide (ln[c]?.join))
    cell0 hc0 hcell1
  by_cases hcond : (∃ b, cellAt m.content r (c - 1) = some b ∧ b.char ≠ "" ∧
      b.normalWidth = false) ∨ (∃ b, cellAt m.content r c = some b ∧ b.normalWidth = false)
  · have hspan : putSpan st.line (c : Int) (putWidth st) (!isWide (ln[c]?.join)) =
        some ((c : Int) - 1, putWidth st + 1) := by
      apply hext
      rcases hcond with hb | hw1
      · left
        rw [hbefore] at hb
        exact hb
      · right
        rw [hat] at hw1
        rw [(isWide_iff_field _).mpr hw1]
        rfl
    rw [hspan] at hev
    refine ⟨ln, st, _, hln, hst, hev, hnum, hw, ?_, fun hno => absurd hcond hno⟩
    intro _
    refine ⟨rfl, ?_, ?_⟩
    · exact (queueRedraw_covers _ _ _ _ _).1
    · intro i hi
      exact covers_queueRedraw _ _ _ _ _ _ _ (by push_cast; omega) (by omega)
  · have hspan : putSpan st.line (c : Int) (putWidth st) (!isWide (ln[c]?.join)) =
        some ((c : Int), putWidth st) := by
      apply hplain
      intro hh
      apply hcond
      rcases hh with hb | hold
      · left
        rw [hbefore]
        exact hb
      · right
        rw [hat]
        apply (isWide_iff_field _).mp
        cases hw2 : isWide (ln[c]?.join)
        · rw [hw2] at hold
          exact absurd hold (by decide)
        · rfl
    rw [hspan] at hev
    refine ⟨ln, st, _, hln, hst, hev, hnum, hw, fun hyes => absurd hyes hcond, ?_⟩
    intro _
    refine ⟨rfl, ?_⟩
    intro i hi
    exact covers_queueRedraw _ _ _ _ _ _ _ (by push_cast; omega) (by omega)

/-- C21 at a concrete input: on a 1 x 3 grid holding a narrow `a` and then a wide
glyph, a put of `x` at (0, 1), over the wide glyph, leaves from the empty sentinel
the damage rectangle (0, 0, 3, 1): it starts one cell before the run and covers
the written cell (0, 1). -/
theorem put_wide_boundary_witness :
    ∃ m1, put sampleEnv
        { blank 1 3 with content := [[letter "a", wideCell, none]], cursor := (0, 1) }
        (putArgs [["x"]]) = some m1 ∧
      m1.queueRedrawArea = { x0 := 0, y0 := 0, x1 := 3, y1 := 1 } ∧
      m1.queueRedrawArea.x0 ≤ 0 ∧ covers m1.queueRedrawArea 0 1 := by
  obtain ⟨ln, st, m1, _, _, hput, hnum, _, hyes, _⟩ :=
    put_wide_boundary sampleEnv
      { blank 1 3 with content := [[letter "a", wideCell, none]], cursor := (0, 1) } 0 1 [["x"]]
      (by decide) rfl (by decide) (by decide) (by decide)
  obtain ⟨_, h2, h3⟩ := hyes (Or.inr ⟨_, rfl, rfl⟩)
  have heval : put sampleEnv
      { blank 1 3 with content := [[letter "a", wideCell, none]], cursor := (0, 1) }
      (putArgs [["x"]]) = some
        { blank 1 3 with
            content := [[letter "a", some (newCell sampleEnv plainStyle "x"), none]],
            cursor := (0, 2),
            queueRedrawArea := { x0 := 0, y0 := 0, x1 := 3, y1 := 1 } } := by
    decide
  have hm : m1.queueRedrawArea = { x0 := 0, y0 := 0, x1 := 3, y1 := 1 } := by
    rw [heval] at hput
    rw [← Option.some.inj hput]
  exact ⟨m1, hput, hm, h2, h3 0 (by rw [hnum]; decide)⟩

/-! ### The command line text -/

theorem indentStr_eq (indent : Int) : indentStr indent = List.replicate indent.toNat 32 := by
  unfold indentStr upTo
  have h : (indent - 1 + 1 - 0).toNat = indent.toNat := by omega
  rw [h]
  generalize indent.toNat = n
  induction n with
  | zero => rfl
  | succ k ih =>
    rw [List.range_succ, List.map_append, List.foldl_append, ih]
    simp only [List.map_cons, List.map_nil, List.foldl_cons, List.foldl_nil]
    exact (List.replicate_succ' k 32).symm

/-- C22: for every content, firstc, indent, inserted string `ch` and position
`pos ≥ 0`, `Cmdline.getText(ch)` returns without a slice fault, leaves `c.pos`
with `0 ≤ c.pos ≤ len(content)` (unchanged when it already was at most
`len(content)`, otherwise `len(content) - 1`, or 0 for an empty content), changes
no other field, and returns firstc, then `indent` spaces, then
`content[:c.pos]`, `ch` and `content[c.pos:]`; with an empty `ch` that is firstc,
the spaces and the content. -/
theorem getText_inserts (c : Cmdline) (ch : GoString) (hpos : 0 ≤ c.pos) :
    ∃ c1 text, c.getText ch = some (c1, text) ∧
      0 ≤ c1.pos ∧ c1.pos ≤ (c.content.content.length : Int) ∧
      (c.pos ≤ (c.content.content.length : Int) → c1.pos = c.pos) ∧
      (c.pos > (c.content.content.length : Int) →
        c1.pos = if c.content.content = [] then 0 else (c.content.content.length : Int) - 1) ∧
      c1.content = c.content ∧
      sliceTo c.content.content c1.pos = some (c.content.content.take c1.pos.toNat) ∧
      sliceFrom c.content.content c1.pos = some (c.content.content.drop c1.pos.toNat) ∧
      text = c.content.firstc ++ List.replicate c.content.indent.toNat 32 ++
        (c.content.content.take c1.pos.toNat ++ ch ++ c.content.content.drop c1.pos.toNat) ∧
      (ch = [] → text = c.content.firstc ++ List.replicate c.content.indent.toNat 32 ++
        c.content.content) := by
  have hp : 0 ≤ (if (c.content.content.length : Int) = 0 then 0
      else if c.pos > (c.content.content.length : Int)
        then (c.content.content.length : Int) - 1 else c.pos) ∧
      (if (c.content.content.length : Int) = 0 then 0
      else if c.pos > (c.content.content.length : Int)
        then (c.content.content.length : Int) - 1 else c.pos) ≤
        (c.content.content.length : Int) := by
    split_ifs <;> omega
  refine ⟨{ c with pos := (if (c.content.content.length : Int) = 0 then 0
      else if c.pos > (c.content.content.length : Int)
        then (c.content.content.length : Int) - 1 else c.pos) }, _, ?_, hp.1, hp.2, ?_, ?_, rfl,
      ?_, ?_, rfl, ?_⟩
  · simp only [Cmdline.getText, sliceTo, sliceFrom, hp, and_self, if_true, indentStr_eq]
  · intro hle
    show (if (c.content.content.length : Int) = 0 then 0
      else if c.pos > (c.content.content.length : Int)
        then (c.content.content.length : Int) - 1 else c.pos) = c.pos
    split_ifs <;> omega
  · intro hgt
    show (if (c.content.content.length : Int) = 0 then 0
      else if c.pos > (c.content.content.length : Int)
        then (c.content.content.length : Int) - 1 else c.pos) = _
    by_cases hnil : c.content.content = []
    · rw [if_pos hnil, hnil]
      rfl
    · have hlen : ¬ ((c.content.content.length : Int) = 0) := by
        intro h0
        apply hnil
        exact List.eq_nil_of_length_eq_zero (by omega)
      rw [if_neg hnil, if_neg hlen, if_pos hgt]
  · simp only [sliceTo, hp, and_self, if_true]
  · simp only [sliceFrom, hp, and_self, if_true]
  · intro hch
    rw [hch, List.append_nil, List.take_append_drop]

/-- C22 at a concrete input: with content abc, firstc a colon, indent 1 and the
position 2, `getText("X")` returns the colon, one space and abXc, and leaves the
position at 2. -/
theorem getText_inserts_witness :
    ∃ c1, Cmdline.getText
        { pos := 2, content := { indent := 1, firstc := bytes ":", prompt := [],
                                 content := bytes "abc" } } (bytes "X")
        = some (c1, bytes ": abXc") ∧ c1.pos = 2 := by
  obtain ⟨c1, text, h1, _, _, h4, _, _, _, _, h9, _⟩ :=
    getText_inserts
      { pos := 2, content := { indent := 1, firstc := bytes ":", prompt := [],
                               content := bytes "abc" } } (bytes "X") (by decide)
  have hp := h4 (by decide)
  have ht : text = bytes ": abXc" := by
    rw [h9, hp]
    decide
  refine ⟨c1, ?_, hp⟩
  rw [h1, ht]

end Goneovim
